import Mathlib

/-!
# `scratch::shared_ptr`: a reference-counted shared-ownership handle

Shallow embedding of `include/scratch/bits/smart-ptrs/shared-ptr.h`.

* Objects of type `shared_ptr` live in a store of handle slots (`State.handles`);
  a C++ reference to a handle (`*this`, `rhs`) is the index of its slot, so that
  `a = a`, `a.swap(a)` and `a = std::move(a)` alias the way they do in C++.
  A slot holding `none` is storage whose object is outside its lifetime.
* Control blocks live in a heap (`State.heap`) indexed by allocation number; a
  block that has been `delete`d is `none`.  Every `new` yields a fresh number.
* Calling a deleter is recorded in `State.calls`.
* A member function returns `none` when the C++ program would have undefined
  behaviour: it is called on, or given, a handle outside its lifetime, or it
  dereferences a deleted control block.
* `new` may throw: the functions that allocate take the outcome of the
  allocation as the argument `alloc_ok` and answer with an `Outcome`.
* The counters are `int` objects of 32 bits (`std::atomic<int>`): `++` and `--`
  wrap around, from `2147483647` to `-2147483648` and back.  Operations run
  one at a time; atomicity across threads is not modelled.
-/

namespace scratch

/-- Address of a managed object; `0` is the null pointer. -/
abbrev Ptr := Nat

/-- The null pointer. -/
def nullptr : Ptr := 0

/-- A deleter callable, identified by a number. -/
abbrev Deleter := Nat

/-- Modelled from the spec: `default_delete` (header `default-delete.h`, not among
the sources) is the "default deletion strategy"; here it is one fixed deleter. -/
def default_delete : Deleter := 0

/-- One recorded invocation `d(ptr)` of a deleter.  `ctrl` is the control block whose
`delete_controlled_object()` made the call, or `none` when the call was made
directly (the `catch` branch of `reset`, or an exclusive-ownership handle). -/
structure DeleterCall where
  ctrl : Option Nat
  d : Deleter
  ptr : Ptr
  deriving DecidableEq, Repr

/-- The closure `[d = std::move(d), ptr]() mutable noexcept { d(ptr); }`. -/
structure DeletionLambda where
  d : Deleter
  ptr : Ptr
  deriving DecidableEq, Repr

/-- The value of an `int` expression whose mathematical value is `z`: 32 bits, two's
complement. -/
def int_wrap (z : Int) : Int := (z + 2147483648) % 4294967296 - 2147483648

/-- The object held by a `std::atomic<int>`: an integer in the range of `int`.  Its
`++` and `--` are defined for every value and wrap around. -/
structure atomic_int where
  val : Int
  lo : -2147483648 ≤ val
  hi : val ≤ 2147483647
  deriving DecidableEq

/-- The `int` with mathematical value `z`, wrapped into the range. -/
def atomic_int.of (z : Int) : atomic_int :=
  ⟨int_wrap z, by unfold int_wrap; omega, by unfold int_wrap; omega⟩

instance (n : Nat) : OfNat atomic_int n := ⟨atomic_int.of n⟩

instance : Add atomic_int := ⟨fun a b => atomic_int.of (a.val + b.val)⟩

instance : Sub atomic_int := ⟨fun a b => atomic_int.of (a.val - b.val)⟩

instance : LE atomic_int := ⟨fun a b => a.val ≤ b.val⟩

instance (a b : atomic_int) : Decidable (a ≤ b) := inferInstanceAs (Decidable (a.val ≤ b.val))

instance : Repr atomic_int := ⟨fun a n => reprPrec a.val n⟩

/-- The control block, `shared_ptr_control_block` with its implementation
`shared_ptr_control_block_impl<DeletionLambda>` (declared in `5a-shared-ptr.h`; the
header `shared-ptr-control-block.h` that `scratch::shared_ptr` includes is taken to
declare the same record).  Both counters are `std::atomic<int>` and start at `1`. -/
structure shared_ptr_control_block where
  m_use_count : atomic_int := 1
  m_weak_count : atomic_int := 1
  m_deleter : DeletionLambda
  deriving DecidableEq, Repr

/-- The handle: `m_ptr` (inherited from `detail::smart_ptr_base<T>`) and `m_ctrl`.
Modelled from the spec: `smart_ptr_base` is not among the sources; it supplies the
exposed pointer `m_ptr`, null in a default-constructed handle, and `get()`. -/
structure shared_ptr where
  m_ptr : Ptr := nullptr
  m_ctrl : Option Nat := none
  deriving DecidableEq, Repr

/-- Program state: handle objects, control-block heap, deleter-call record. -/
structure State where
  handles : List (Option shared_ptr)
  heap : List (Option shared_ptr_control_block)
  calls : List DeleterCall
  deriving DecidableEq, Repr

/-- The empty program: no handle, no control block, no deleter call. -/
def State.init : State := ⟨[], [], []⟩

/-- The handle object in slot `i`, if one is alive there. -/
def State.handle (s : State) (i : Nat) : Option shared_ptr := (s.handles[i]?).join

/-- The control block with allocation number `c`, if it has not been deleted. -/
def State.block (s : State) (c : Nat) : Option shared_ptr_control_block := (s.heap[c]?).join

/-- Overwrite the handle object in slot `i`. -/
def State.setHandle (s : State) (i : Nat) (h : shared_ptr) : State :=
  { s with handles := s.handles.set i (some h) }

/-- Storage for a new handle object, initialised to `h`; its slot is `s.handles.length`. -/
def State.newHandle (s : State) (h : shared_ptr) : State :=
  { s with handles := s.handles ++ [some h] }

/-- The lifetime of the handle object in slot `i` ends. -/
def State.endLifetime (s : State) (i : Nat) : State :=
  { s with handles := s.handles.set i none }

/-- Overwrite control block `c`. -/
def State.setBlock (s : State) (c : Nat) (cb : shared_ptr_control_block) : State :=
  { s with heap := s.heap.set c (some cb) }

/-- A successful `new` of a control block; its number is `s.heap.length`. -/
def State.newBlock (s : State) (cb : shared_ptr_control_block) : State :=
  { s with heap := s.heap ++ [some cb] }

/-- The statement `delete m_ctrl` for block `c`. -/
def State.deleteBlock (s : State) (c : Nat) : State :=
  { s with heap := s.heap.set c none }

/-- Record a deleter invocation. -/
def State.record (s : State) (e : DeleterCall) : State :=
  { s with calls := s.calls ++ [e] }

/-- Invoking the closure runs `d(ptr)`. -/
def DeletionLambda.call (l : DeletionLambda) (ctrl : Option Nat) (s : State) : State :=
  s.record ⟨ctrl, l.d, l.ptr⟩

/-- The virtual `delete_controlled_object()` of block `c`: `m_deleter()`. -/
def delete_controlled_object (c : Nat) (cb : shared_ptr_control_block) (s : State) : State :=
  cb.m_deleter.call (some c) s

/-- How a function that may throw ended: it returned, or `new` threw and the
exception leaves the function. -/
inductive Outcome where
  | returned (s : State)
  | threw (s : State)
  deriving DecidableEq, Repr

/-- The state in which the caller continues (after `return`, or in its handler). -/
def Outcome.state : Outcome → State
  | .returned s => s
  | .threw s => s

/-- Assignment to the member `m_ptr` of the handle in slot `this`. -/
def set_m_ptr (this : Nat) (p : Ptr) (s : State) : Option State := do
  let h ← s.handle this
  pure (s.setHandle this { h with m_ptr := p })

/-- Assignment to the member `m_ctrl` of the handle in slot `this`. -/
def set_m_ctrl (this : Nat) (c : Option Nat) (s : State) : Option State := do
  let h ← s.handle this
  pure (s.setHandle this { h with m_ctrl := c })

/-- The accessor `get()`: the exposed pointer. -/
def get (this : Nat) (s : State) : Option Ptr := do
  let h ← s.handle this
  pure h.m_ptr

/-- The query `long use_count() const noexcept`: the value of the counter, converted from
`int` to `long`, or `0`. -/
def use_count (this : Nat) (s : State) : Option Int := do
  let h ← s.handle this
  match h.m_ctrl with
  | some c => do
    let cb ← s.block c
    pure cb.m_use_count.val
  | none => pure 0

/-- The private `void increment_use_count() noexcept`: `++m_ctrl->m_use_count`, which
wraps around at the top of the range of `int`. -/
def increment_use_count (this : Nat) (s : State) : Option State := do
  let h ← s.handle this
  match h.m_ctrl with
  | some c => do
    let cb ← s.block c
    pure (s.setBlock c { cb with m_use_count := cb.m_use_count + 1 })
  | none => pure s

/-- The private `void decrement_use_count() noexcept`, with
`int new_use_count = --m_ctrl->m_use_count`. -/
def decrement_use_count (this : Nat) (s : State) : Option State := do
  let h ← s.handle this
  match h.m_ctrl with
  | some c => do
    let cb ← s.block c
    let new_use_count := cb.m_use_count - 1
    let cb1 := { cb with m_use_count := new_use_count }
    let s1 := s.setBlock c cb1
    if new_use_count = 0 then
      pure ((delete_controlled_object c cb1 s1).deleteBlock c)
    else
      pure s1
  | none => pure s

/-- The constructors `constexpr shared_ptr() noexcept = default`: the new handle
occupies slot `s.handles.length`. -/
def ctor_default (s : State) : Option State :=
  pure (s.newHandle {})

/-- The constructor `constexpr shared_ptr(decltype(nullptr)) noexcept {}`. -/
def ctor_nullptr (s : State) : Option State :=
  pure (s.newHandle {})

/-- The aliasing constructor `shared_ptr(const shared_ptr<Y>& rhs, T* ptr) noexcept`. -/
def ctor_alias (rhs : Nat) (ptr : Ptr) (s : State) : Option State := do
  let r ← s.handle rhs
  let this := s.handles.length
  let s := s.newHandle { m_ctrl := r.m_ctrl }
  let s ← set_m_ptr this ptr s
  increment_use_count this s

/-- The copy constructors: `shared_ptr(rhs, rhs.get())`. -/
def ctor_copy (rhs : Nat) (s : State) : Option State := do
  let p ← get rhs s
  ctor_alias rhs p s

/-- The move constructors `shared_ptr(shared_ptr&& rhs) noexcept`. -/
def ctor_move (rhs : Nat) (s : State) : Option State := do
  let r ← s.handle rhs
  let this := s.handles.length
  let s := s.newHandle {}
  let s ← set_m_ptr rhs nullptr s
  let s ← set_m_ptr this r.m_ptr s
  let s ← set_m_ctrl rhs none s
  set_m_ctrl this r.m_ctrl s

/-- The member `void swap(shared_ptr& rhs) noexcept`. -/
def swap (this rhs : Nat) (s : State) : Option State := do
  let a ← s.handle this
  let b ← s.handle rhs
  let s ← set_m_ptr this b.m_ptr s
  let s ← set_m_ptr rhs a.m_ptr s
  let s ← set_m_ctrl this b.m_ctrl s
  set_m_ctrl rhs a.m_ctrl s

/-- The destructor `~shared_ptr()`, after which the object's lifetime has ended. -/
def dtor (this : Nat) (s : State) : Option State := do
  let s ← decrement_use_count this s
  pure (s.endLifetime this)

/-- The member `void reset() noexcept`. -/
def reset (this : Nat) (s : State) : Option State := do
  let s ← decrement_use_count this s
  let s ← set_m_ctrl this none s
  set_m_ptr this nullptr s

/-- The member `template<class Y, class Deleter> void reset(Y *ptr, Deleter d)`. -/
def reset_ptr_deleter (this : Nat) (ptr : Ptr) (d : Deleter) (alloc_ok : Bool) (s : State) :
    Option Outcome :=
  let deletion_lambda : DeletionLambda := ⟨d, ptr⟩
  if (s.handle this).isNone then none
  else if alloc_ok then do
    let new_ctrl := s.heap.length
    let s := s.newBlock { m_deleter := deletion_lambda }
    let s ← reset this s
    let s ← set_m_ctrl this (some new_ctrl) s
    let s ← set_m_ptr this ptr s
    pure (.returned s)
  else
    pure (.threw (deletion_lambda.call none s))

/-- The member `template<class Y> void reset(Y *ptr)`. -/
def reset_ptr (this : Nat) (ptr : Ptr) (alloc_ok : Bool) (s : State) : Option Outcome :=
  reset_ptr_deleter this ptr default_delete alloc_ok s

/-- The constructor `shared_ptr(Y *ptr, Deleter d) { reset(ptr, std::move(d)); }`.
When `reset` throws, the object under construction never comes to life. -/
def ctor_ptr_deleter (ptr : Ptr) (d : Deleter) (alloc_ok : Bool) (s : State) : Option Outcome :=
  let this := s.handles.length
  match reset_ptr_deleter this ptr d alloc_ok (s.newHandle {}) with
  | some (.returned s1) => some (.returned s1)
  | some (.threw s1) => some (.threw (s1.endLifetime this))
  | none => none

/-- The constructors `explicit shared_ptr(Y *ptr)`: `shared_ptr(ptr, default_delete<Y>{})`. -/
def ctor_ptr (ptr : Ptr) (alloc_ok : Bool) (s : State) : Option Outcome :=
  ctor_ptr_deleter ptr default_delete alloc_ok s

/-- The constructor `shared_ptr(decltype(nullptr), Deleter d)`, whose body is
`reset(nullptr, std::move(d))`.  The call cannot deduce `Y` as it is written; it is read
as a reset to the null pointer of type `T*`, which is how `5a-shared-ptr.h` writes this
constructor. -/
def ctor_nullptr_deleter (d : Deleter) (alloc_ok : Bool) (s : State) : Option Outcome :=
  let this := s.handles.length
  match reset_ptr_deleter this nullptr d alloc_ok (s.newHandle {}) with
  | some (.returned s1) => some (.returned s1)
  | some (.threw s1) => some (.threw (s1.endLifetime this))
  | none => none

/-- Copy assignment `shared_ptr<T>(rhs).swap(*this); return *this;`. -/
def assign_copy (this rhs : Nat) (s : State) : Option State := do
  let _ ← s.handle this
  let tmp := s.handles.length
  let s ← ctor_copy rhs s
  let s ← swap tmp this s
  dtor tmp s

/-- Move assignment `shared_ptr<T>(std::move(rhs)).swap(*this); return *this;`. -/
def assign_move (this rhs : Nat) (s : State) : Option State := do
  let _ ← s.handle this
  let tmp := s.handles.length
  let s ← ctor_move rhs s
  let s ← swap tmp this s
  dtor tmp s

/-- Modelled from the spec: the exclusive-ownership handle `unique_ptr<Y, Deleter>`
(not among the sources): a single owner of `m_ptr` with its deleter, exposing
`get()`, `release()` and a deleter accessor, with deterministic destruction. -/
structure unique_ptr where
  m_ptr : Ptr
  m_deleter : Deleter
  deriving DecidableEq, Repr

/-- Modelled from the spec: `get()` "returns its raw pointer without releasing
ownership". -/
def unique_ptr.get (u : unique_ptr) : Ptr := u.m_ptr

/-- Modelled from the spec: the "deleter accessor" of the exclusive-ownership handle. -/
def unique_ptr.get_deleter (u : unique_ptr) : Deleter := u.m_deleter

/-- Modelled from the spec: `release()` "returns the raw pointer and relinquishes
ownership, leaving it empty". -/
def unique_ptr.release (u : unique_ptr) : Ptr × unique_ptr :=
  (u.m_ptr, { u with m_ptr := nullptr })

/-- Modelled from the spec: destruction of the exclusive-ownership handle ("single
owner, deterministic destruction"): the deleter runs on the owned pointer unless the
handle is empty. -/
def unique_ptr.dtor (u : unique_ptr) (s : State) : State :=
  if u.m_ptr = nullptr then s else s.record ⟨none, u.m_deleter, u.m_ptr⟩

/-- The assignment `shared_ptr& operator=(unique_ptr<Y, Deleter>&& rhs)`; the second
component is `rhs` as the call leaves it. -/
def assign_unique (this : Nat) (rhs : unique_ptr) (alloc_ok : Bool) (s : State) :
    Option (Outcome × unique_ptr) :=
  let tmp := s.handles.length
  if (s.handle this).isNone then none
  else match ctor_ptr_deleter rhs.get rhs.get_deleter alloc_ok s with
  | none => none
  | some (.threw s1) => some (.threw s1, rhs)
  | some (.returned s1) => do
    let s2 ← swap tmp this s1
    let s3 ← dtor tmp s2
    pure (.returned s3, rhs.release.2)

/-- The constructor `shared_ptr(unique_ptr<Y, Deleter>&& rhs) { *this = std::move(rhs); }`. -/
def ctor_unique (rhs : unique_ptr) (alloc_ok : Bool) (s : State) :
    Option (Outcome × unique_ptr) :=
  let this := s.handles.length
  match assign_unique this rhs alloc_ok (s.newHandle {}) with
  | some (.returned s1, u) => some (.returned s1, u)
  | some (.threw s1, u) => some (.threw (s1.endLifetime this), u)
  | none => none

/-- The public operations on handles a program may perform.  A constructor creates its
handle in the next free slot; `this` and `rhs` name existing slots. -/
inductive Op where
  | ctor_default
  | ctor_nullptr
  | ctor_ptr (ptr : Ptr) (alloc_ok : Bool)
  | ctor_ptr_deleter (ptr : Ptr) (d : Deleter) (alloc_ok : Bool)
  | ctor_nullptr_deleter (d : Deleter) (alloc_ok : Bool)
  | ctor_alias (rhs : Nat) (ptr : Ptr)
  | ctor_copy (rhs : Nat)
  | ctor_move (rhs : Nat)
  | ctor_unique (u : unique_ptr) (alloc_ok : Bool)
  | assign_copy (this rhs : Nat)
  | assign_move (this rhs : Nat)
  | assign_unique (this : Nat) (u : unique_ptr) (alloc_ok : Bool)
  | swap (this rhs : Nat)
  | reset (this : Nat)
  | reset_ptr (this : Nat) (ptr : Ptr) (alloc_ok : Bool)
  | reset_ptr_deleter (this : Nat) (ptr : Ptr) (d : Deleter) (alloc_ok : Bool)
  | dtor (this : Nat)
  deriving DecidableEq, Repr

/-- One operation of the program.  An exception thrown by the operation is caught by
the program, which goes on in the state the operation left.  The exclusive-ownership
handle given to a conversion belongs to the caller and is not part of the store. -/
def step (s : State) : Op → Option State
  | .ctor_default => ctor_default s
  | .ctor_nullptr => ctor_nullptr s
  | .ctor_ptr ptr ok => (ctor_ptr ptr ok s).map Outcome.state
  | .ctor_ptr_deleter ptr d ok => (ctor_ptr_deleter ptr d ok s).map Outcome.state
  | .ctor_nullptr_deleter d ok => (ctor_nullptr_deleter d ok s).map Outcome.state
  | .ctor_alias rhs ptr => ctor_alias rhs ptr s
  | .ctor_copy rhs => ctor_copy rhs s
  | .ctor_move rhs => ctor_move rhs s
  | .ctor_unique u ok => (ctor_unique u ok s).map (fun r => r.1.state)
  | .assign_copy this rhs => assign_copy this rhs s
  | .assign_move this rhs => assign_move this rhs s
  | .assign_unique this u ok => (assign_unique this u ok s).map (fun r => r.1.state)
  | .swap this rhs => swap this rhs s
  | .reset this => reset this s
  | .reset_ptr this ptr ok => (reset_ptr this ptr ok s).map Outcome.state
  | .reset_ptr_deleter this ptr d ok => (reset_ptr_deleter this ptr d ok s).map Outcome.state
  | .dtor this => dtor this s

/-- Whether every handle that the operation names is alive in `s`. -/
def Op.enabled (s : State) : Op → Bool
  | .ctor_alias rhs _ => (s.handle rhs).isSome
  | .ctor_copy rhs => (s.handle rhs).isSome
  | .ctor_move rhs => (s.handle rhs).isSome
  | .assign_copy this rhs => (s.handle this).isSome && (s.handle rhs).isSome
  | .assign_move this rhs => (s.handle this).isSome && (s.handle rhs).isSome
  | .assign_unique this _ _ => (s.handle this).isSome
  | .swap this rhs => (s.handle this).isSome && (s.handle rhs).isSome
  | .reset this => (s.handle this).isSome
  | .reset_ptr this _ _ => (s.handle this).isSome
  | .reset_ptr_deleter this _ _ _ => (s.handle this).isSome
  | .dtor this => (s.handle this).isSome
  | _ => true

/-- A finite sequence of operations, from state `s`. -/
def run (s : State) : List Op → Option State
  | [] => some s
  | op :: ops => (step s op).bind (fun s1 => run s1 ops)

/-- Whether the object in a handle slot is alive and refers to control block `c`. -/
def refersTo (c : Nat) : Option shared_ptr → Bool
  | some h => decide (h.m_ctrl = some c)
  | none => false

/-- The number of live handles whose `m_ctrl` refers to control block `c`. -/
def State.owners (s : State) (c : Nat) : Nat := s.handles.countP (refersTo c)

/-- How many times `delete_controlled_object()` of block `c` has been invoked. -/
def State.callsOn (s : State) (c : Nat) : Nat :=
  s.calls.countP (fun e => decide (e.ctrl = some c))

/-- The handle invariant of the data model: `m_ctrl == nullptr` implies
`m_ptr == nullptr`. -/
def shared_ptr.wf (h : shared_ptr) : Prop := h.m_ctrl = none → h.m_ptr = nullptr

/-- Every live handle object in a list of slots satisfies the handle invariant. -/
def wf_slots (l : List (Option shared_ptr)) : Prop := ∀ h, some h ∈ l → h.wf

/-- Every live handle of the state satisfies the handle invariant. -/
def State.handles_wf (s : State) : Prop := wf_slots s.handles

/-- The restriction under which the aliasing constructor keeps the handle invariant: the
pointer to expose is null, or the source handle has a control block.  Every other
operation is unrestricted. -/
def Op.alias_guarded (s : State) : Op → Bool
  | .ctor_alias rhs p => decide (p = nullptr) || ((s.handle rhs).bind (fun r => r.m_ctrl)).isSome
  | _ => true

/-- The reference-counting invariant of a state. -/
structure Inv (s : State) : Prop where
  /-- a live handle never refers to a deleted or unallocated control block -/
  no_dangling : ∀ i h c, s.handle i = some h → h.m_ctrl = some c → (s.block c).isSome
  /-- the use-count of a live block is the number of live handles that refer to it,
  as an `int` -/
  counts : ∀ c cb, s.block c = some cb → cb.m_use_count = atomic_int.of (s.owners c)
  /-- a live block has at least one owner -/
  owned : ∀ c cb, s.block c = some cb → 1 ≤ s.owners c
  /-- the deleter of a block has run once if the block is deleted, and not at all otherwise -/
  destroyed : ∀ c, c < s.heap.length →
    s.callsOn c = if (s.block c).isSome then 0 else 1
  /-- no deleter call is recorded for a block that has not been allocated -/
  unborn : ∀ c, s.heap.length ≤ c → s.callsOn c = 0
  /-- no block has more owners than the `int` counter has values -/
  fits : ∀ c, s.owners c ≤ 4294967296

/-- What an operation guarantees about the state it leaves: the invariant holds again,
no block loses more than one owner, and a block allocated by the operation is alive. -/
structure Preserved (s s1 : State) : Prop where
  inv : Inv s1
  owners_drop : ∀ c, s.owners c ≤ s1.owners c + 1
  heap_mono : s.heap.length ≤ s1.heap.length
  fresh_live : ∀ c, s.heap.length ≤ c → c < s1.heap.length → (s1.block c).isSome

/-- Whether every control block has fewer than `4294967296` live owners, so that with one
more owner the `int` counter still tells the owners of the block from none. -/
def State.below_limit (s : State) : Bool :=
  (List.range s.heap.length).all (fun c => decide (s.owners c < 4294967296))

/-- Whether every operation of a sequence run from `s` starts in a state below the
limit of the `int` counter. -/
def within_limit (s : State) : List Op → Bool
  | [] => true
  | op :: ops => s.below_limit && ((step s op).map (fun s1 => within_limit s1 ops)).getD true

/-- Example state: `n` live handles own object `7` with deleter `3` through one control
block, whose counter holds `n` as an `int`. -/
def many_owners (n : Nat) : State :=
  ⟨List.replicate n (some ⟨7, some 0⟩), [some ⟨atomic_int.of n, 1, ⟨3, 7⟩⟩], []⟩

/-- Example state: one empty handle. -/
def empty_state : State := ⟨[some {}], [], []⟩

/-- Example state: one handle, sole owner of object `7` with deleter `3`. -/
def owner_state : State := ⟨[some ⟨7, some 0⟩], [some ⟨1, 1, ⟨3, 7⟩⟩], []⟩

/-- Example state: `owner_state` after the aliasing construction `(handle 0, 9)`. -/
def alias_state : State :=
  ⟨[some ⟨7, some 0⟩, some ⟨9, some 0⟩], [some ⟨2, 1, ⟨3, 7⟩⟩], []⟩

/-- Example state: a handle was constructed and copied, and both were destroyed. -/
def released_state : State := ⟨[none, none], [none], [⟨some 0, 3, 7⟩]⟩

/-- The comparison `operator==(const shared_ptr<T>& a, decltype(nullptr))`. -/
def operator_eq_nullptr (a : Nat) (s : State) : Option Bool := do
  let p ← get a s
  pure (decide (p = nullptr))

/-- The comparison `operator!=(const shared_ptr<T>& a, decltype(nullptr))`. -/
def operator_ne_nullptr (a : Nat) (s : State) : Option Bool := do
  let p ← get a s
  pure (decide (p ≠ nullptr))

/-- The comparison `operator==(decltype(nullptr), const shared_ptr<T>& a)`. -/
def nullptr_operator_eq (a : Nat) (s : State) : Option Bool := do
  let p ← get a s
  pure (decide (p = nullptr))

/-- The comparison `operator!=(decltype(nullptr), const shared_ptr<T>& a)`. -/
def nullptr_operator_ne (a : Nat) (s : State) : Option Bool := do
  let p ← get a s
  pure (decide (p ≠ nullptr))

/-- The comparison `operator==(const shared_ptr<T>& a, const shared_ptr<U>& b)`. -/
def operator_eq (a b : Nat) (s : State) : Option Bool := do
  let p ← get a s
  let q ← get b s
  pure (decide (p = q))

/-- The comparison `operator!=(const shared_ptr<T>& a, const shared_ptr<U>& b)`. -/
def operator_ne (a b : Nat) (s : State) : Option Bool := do
  let p ← get a s
  let q ← get b s
  pure (decide (p ≠ q))

/-- Example state: two objects, each owned by one handle, and one aliasing handle of each
owner, both exposing the pointer `9`. -/
def two_alias_state : State :=
  ⟨[some ⟨7, some 0⟩, some ⟨8, some 1⟩, some ⟨9, some 0⟩, some ⟨9, some 1⟩],
    [some ⟨2, 1, ⟨3, 7⟩⟩, some ⟨2, 1, ⟨3, 8⟩⟩], []⟩

/-- Every control block that has not been deleted has `m_weak_count == 1`. -/
def State.weak_counts_one (s : State) : Prop :=
  ∀ c cb, s.block c = some cb → cb.m_weak_count = 1

end scratch

/-!
# `my::shared_ptr`: the handle of `5a-shared-ptr.h`

The same store as for `scratch::shared_ptr`, with a trace of the calls of the functions
whose bodies the file leaves empty (`increment_use_count`, `decrement_use_count`) and of
the hook `maybe_enable_sharing_from_this`.  The member `m_ptr` and `get()` are those of
`smart_ptr_base`, as for `scratch::shared_ptr`.
-/

namespace my

open scratch (Ptr nullptr Deleter default_delete shared_ptr DeletionLambda)

/-- A traced call.  The counter functions are traced with the `m_ctrl` of the handle they
are called on; the hook with the pointer it is given. -/
inductive Event where
  | increment_use_count (ctrl : Option Nat)
  | decrement_use_count (ctrl : Option Nat)
  | maybe_enable_sharing_from_this (p : Ptr)
  | puts
  deriving DecidableEq, Repr

/-- Program state: the store of handles and control blocks, and the trace of calls. -/
structure State where
  mem : scratch.State
  trace : List Event
  deriving DecidableEq, Repr

/-- Append a call to the trace. -/
def State.log (s : State) (e : Event) : State :=
  { s with trace := s.trace ++ [e] }

/-- Run a function that only touches the store. -/
def State.onMem (s : State) (f : scratch.State → Option scratch.State) : Option State :=
  (f s.mem).map (fun m => { s with mem := m })

/-- How a function that may throw ended. -/
inductive Outcome where
  | returned (s : State)
  | threw (s : State)
  deriving DecidableEq, Repr

/-- The state in which the caller continues. -/
def Outcome.state : Outcome → State
  | .returned s => s
  | .threw s => s

/-- How many times the hook `maybe_enable_sharing_from_this` has been invoked. -/
def hooks (tr : List Event) : Nat :=
  tr.countP (fun e => match e with
    | .maybe_enable_sharing_from_this _ => true
    | _ => false)

/-- Assignment to the member `m_ptr` of the handle in slot `this`. -/
def set_m_ptr (this : Nat) (p : Ptr) (s : State) : Option State :=
  s.onMem (scratch.set_m_ptr this p)

/-- Assignment to the member `m_ctrl` of the handle in slot `this`. -/
def set_m_ctrl (this : Nat) (c : Option Nat) (s : State) : Option State :=
  s.onMem (scratch.set_m_ctrl this c)

/-- The private `void increment_use_count() noexcept`, whose body the file leaves empty:
the call is traced and nothing changes. -/
def increment_use_count (this : Nat) (s : State) : Option State := do
  let h ← s.mem.handle this
  pure (s.log (.increment_use_count h.m_ctrl))

/-- The private `void decrement_use_count() noexcept`, whose body the file leaves empty:
the call is traced and nothing changes. -/
def decrement_use_count (this : Nat) (s : State) : Option State := do
  let h ← s.mem.handle this
  pure (s.log (.decrement_use_count h.m_ctrl))

/-- The two overloads of `maybe_enable_sharing_from_this_impl`: `esft` tells whether the
pointee type derives from `std::enable_shared_from_this<Z>`, which selects the overload
that prints two lines when the pointer is not null; the other overload does nothing. -/
def maybe_enable_sharing_from_this_impl (esft : Bool) (p : Ptr) (s : State) : State :=
  if esft then
    if p ≠ nullptr then (s.log .puts).log .puts else s
  else s

/-- The hook `maybe_enable_sharing_from_this(Y *p)`. -/
def maybe_enable_sharing_from_this (esft : Bool) (p : Ptr) (s : State) : State :=
  maybe_enable_sharing_from_this_impl esft p (s.log (.maybe_enable_sharing_from_this p))

/-- The constructor `constexpr shared_ptr() noexcept = default`. -/
def ctor_default (s : State) : Option State :=
  pure { s with mem := s.mem.newHandle {} }

/-- The constructor `template<class Y, class Deleter> explicit shared_ptr(Y *ptr, Deleter d)`. -/
def ctor_ptr_deleter (esft : Bool) (ptr : Ptr) (d : Deleter) (alloc_ok : Bool) (s : State) :
    Option Outcome :=
  let this := s.mem.handles.length
  let s := { s with mem := s.mem.newHandle {} }
  let deletion_lambda : DeletionLambda := ⟨d, ptr⟩
  if alloc_ok then do
    let new_ctrl := s.mem.heap.length
    let s := { s with mem := s.mem.newBlock { m_deleter := deletion_lambda } }
    let s ← set_m_ctrl this (some new_ctrl) s
    let s ← set_m_ptr this ptr s
    pure (.returned (maybe_enable_sharing_from_this esft ptr s))
  else
    pure (.threw { s with mem := (deletion_lambda.call none s.mem).endLifetime this })

/-- The constructors `explicit shared_ptr(element_type *ptr)` and
`explicit shared_ptr(Y *ptr)`: `shared_ptr(ptr, std::default_delete<Y>{})`. -/
def ctor_ptr (esft : Bool) (ptr : Ptr) (alloc_ok : Bool) (s : State) : Option Outcome :=
  ctor_ptr_deleter esft ptr default_delete alloc_ok s

/-- The constructor `shared_ptr(decltype(nullptr), Deleter d)`:
`shared_ptr((T*)nullptr, std::move(d))`. -/
def ctor_nullptr_deleter (esft : Bool) (d : Deleter) (alloc_ok : Bool) (s : State) :
    Option Outcome :=
  ctor_ptr_deleter esft nullptr d alloc_ok s

/-- The aliasing constructor `shared_ptr(const shared_ptr<Y>& rhs, T* ptr) noexcept`. -/
def ctor_alias (rhs : Nat) (ptr : Ptr) (s : State) : Option State := do
  let r ← s.mem.handle rhs
  let this := s.mem.handles.length
  let s := { s with mem := s.mem.newHandle { m_ctrl := r.m_ctrl } }
  let s ← set_m_ptr this ptr s
  increment_use_count this s

/-- The copy constructors: `shared_ptr(rhs, rhs.get())`. -/
def ctor_copy (rhs : Nat) (s : State) : Option State := do
  let p ← scratch.get rhs s.mem
  ctor_alias rhs p s

/-- The member `void swap(shared_ptr& rhs) noexcept`. -/
def swap (this rhs : Nat) (s : State) : Option State :=
  s.onMem (scratch.swap this rhs)

/-- The destructor `~shared_ptr()`, after which the object's lifetime has ended. -/
def dtor (this : Nat) (s : State) : Option State := do
  let s ← decrement_use_count this s
  pure { s with mem := s.mem.endLifetime this }

/-- The member `void reset() noexcept { shared_ptr().swap(*this); }`. -/
def reset (this : Nat) (s : State) : Option State := do
  let _ ← s.mem.handle this
  let tmp := s.mem.handles.length
  let s ← ctor_default s
  let s ← swap tmp this s
  dtor tmp s

/-- The move constructors `shared_ptr(shared_ptr&& rhs) noexcept : shared_ptr(rhs, rhs.get())
{ rhs.reset(); }`. -/
def ctor_move (rhs : Nat) (s : State) : Option State := do
  let p ← scratch.get rhs s.mem
  let s ← ctor_alias rhs p s
  reset rhs s

/-- Copy assignment `shared_ptr<T>(rhs).swap(*this); return *this;`. -/
def assign_copy (this rhs : Nat) (s : State) : Option State := do
  let _ ← s.mem.handle this
  let tmp := s.mem.handles.length
  let s ← ctor_copy rhs s
  let s ← swap tmp this s
  dtor tmp s

/-- Move assignment `shared_ptr<T>(std::move(rhs)).swap(*this); return *this;`.  The
temporary is the first of the two slots the move constructor takes. -/
def assign_move (this rhs : Nat) (s : State) : Option State := do
  let _ ← s.mem.handle this
  let tmp := s.mem.handles.length
  let s ← ctor_move rhs s
  let s ← swap tmp this s
  dtor tmp s

/-- Example state: one handle, sole owner of object `7` with deleter `3`; empty trace. -/
def owner_state : State := ⟨scratch.owner_state, []⟩

end my

namespace scratch

/-! ## Arithmetic of the `int` counters -/

theorem atomic_int.ext_val {a b : atomic_int} (h : a.val = b.val) : a = b := by
  cases a; cases b; cases h; rfl

theorem atomic_int.val_of (z : Int) : (atomic_int.of z).val = int_wrap z := rfl

theorem int_wrap_of_range {z : Int} (h1 : -2147483648 ≤ z) (h2 : z ≤ 2147483647) :
    int_wrap z = z := by
  unfold int_wrap; omega

theorem atomic_int.of_val (a : atomic_int) : atomic_int.of a.val = a :=
  atomic_int.ext_val (int_wrap_of_range a.lo a.hi)

theorem atomic_int.val_ofNat (n : Nat) : (OfNat.ofNat n : atomic_int).val = int_wrap n := rfl

@[simp] theorem atomic_int.val_zero : (0 : atomic_int).val = 0 := rfl

@[simp] theorem atomic_int.val_one : (1 : atomic_int).val = 1 := rfl

theorem atomic_int.val_add (a b : atomic_int) : (a + b).val = int_wrap (a.val + b.val) := rfl

theorem atomic_int.val_sub (a b : atomic_int) : (a - b).val = int_wrap (a.val - b.val) := rfl

theorem atomic_int.le_def (a b : atomic_int) : a ≤ b ↔ a.val ≤ b.val := Iff.rfl

theorem atomic_int.eq_iff_val {a b : atomic_int} : a = b ↔ a.val = b.val :=
  ⟨fun h => by rw [h], atomic_int.ext_val⟩

/-- No overflow: `++` below `INT_MAX` adds one. -/
theorem atomic_int.val_add_one {a : atomic_int} (h : a.val < 2147483647) :
    (a + 1).val = a.val + 1 := by
  have := a.lo
  rw [atomic_int.val_add, atomic_int.val_one]; unfold int_wrap; omega

/-- Overflow: `++` at `INT_MAX` gives `INT_MIN`. -/
theorem atomic_int.val_add_one_max {a : atomic_int} (h : a.val = 2147483647) :
    (a + 1).val = -2147483648 := by
  rw [atomic_int.val_add, atomic_int.val_one]; unfold int_wrap; omega

/-- No underflow: `--` above `INT_MIN` subtracts one. -/
theorem atomic_int.val_sub_one {a : atomic_int} (h : -2147483648 < a.val) :
    (a - 1).val = a.val - 1 := by
  have := a.hi
  rw [atomic_int.val_sub, atomic_int.val_one]; unfold int_wrap; omega

theorem atomic_int.sub_one_eq_zero_iff (a : atomic_int) : a - 1 = 0 ↔ a = 1 := by
  have h1 := a.lo
  have h2 := a.hi
  rw [atomic_int.eq_iff_val, atomic_int.eq_iff_val, atomic_int.val_sub, atomic_int.val_one,
    atomic_int.val_zero]
  unfold int_wrap; omega

theorem atomic_int.of_add_one (z : Int) : atomic_int.of z + 1 = atomic_int.of (z + 1) := by
  apply atomic_int.ext_val
  rw [atomic_int.val_add, atomic_int.val_of, atomic_int.val_of, atomic_int.val_one]
  unfold int_wrap; omega

theorem atomic_int.of_sub_one (z : Int) : atomic_int.of z - 1 = atomic_int.of (z - 1) := by
  apply atomic_int.ext_val
  rw [atomic_int.val_sub, atomic_int.val_of, atomic_int.val_of, atomic_int.val_one]
  unfold int_wrap; omega

/-- Among `1, ..., 4294967296` only `1` is held by the counter as `1`. -/
theorem atomic_int.of_natCast_eq_one {n : Nat} (h1 : 1 ≤ n) (h2 : n ≤ 4294967296) :
    atomic_int.of (n : Int) = 1 ↔ n = 1 := by
  rw [atomic_int.eq_iff_val, atomic_int.val_of, atomic_int.val_one]
  unfold int_wrap; omega

/-- The value of a counter after `++`. -/
theorem atomic_int.val_add_one_eq (a : atomic_int) :
    (a + 1).val = if a.val = 2147483647 then -2147483648 else a.val + 1 := by
  split_ifs with h
  · exact atomic_int.val_add_one_max h
  · have := a.hi
    exact atomic_int.val_add_one (by omega)

theorem atomic_int.one_sub_one : (1 : atomic_int) - 1 = 0 := by decide

@[simp] theorem atomic_int.one_add_one_ne_one : ¬ ((1 : atomic_int) + 1 = 1) := by decide

@[simp] theorem atomic_int.one_add_one_sub_one : (1 : atomic_int) + 1 - 1 = 1 := by decide

/-! ## Reading the store after an update -/

theorem State.handle_lt {s : State} {i : Nat} {h : shared_ptr} (hh : s.handle i = some h) :
    i < s.handles.length := by
  unfold State.handle at hh
  by_contra hlt
  rw [List.getElem?_eq_none (by omega)] at hh
  simp at hh

theorem State.block_lt {s : State} {c : Nat} {cb : shared_ptr_control_block}
    (hb : s.block c = some cb) : c < s.heap.length := by
  unfold State.block at hb
  by_contra hlt
  rw [List.getElem?_eq_none (by omega)] at hb
  simp at hb

theorem State.handle_eq_some_iff {s : State} {i : Nat} {h : shared_ptr} :
    s.handle i = some h ↔ s.handles[i]? = some (some h) := by
  unfold State.handle
  cases s.handles[i]? with
  | none => simp
  | some o => cases o <;> simp

theorem State.handle_setHandle (s : State) (i j : Nat) (h : shared_ptr) :
    (s.setHandle i h).handle j =
      if j = i ∧ i < s.handles.length then some h else s.handle j := by
  unfold State.handle State.setHandle
  simp only [List.getElem?_set]
  by_cases hji : j = i
  · subst hji
    by_cases hlt : j < s.handles.length
    · simp [hlt]
    · simp [hlt, List.getElem?_eq_none (Nat.le_of_not_lt hlt)]
  · have : ¬ i = j := fun e => hji e.symm
    simp [hji, this]

theorem State.handle_newHandle (s : State) (j : Nat) (h : shared_ptr) :
    (s.newHandle h).handle j = if j = s.handles.length then some h else s.handle j := by
  unfold State.handle State.newHandle
  simp only [List.getElem?_append]
  by_cases hj : j = s.handles.length
  · subst hj; simp
  · by_cases hlt : j < s.handles.length
    · simp [hj, hlt]
    · have h1 : s.handles.length ≤ j := Nat.le_of_not_lt hlt
      have h2 : j - s.handles.length ≠ 0 := by omega
      obtain ⟨k, hk⟩ := Nat.exists_eq_succ_of_ne_zero h2
      simp [hj, hlt, List.getElem?_eq_none h1, hk]

theorem State.handle_endLifetime (s : State) (i j : Nat) :
    (s.endLifetime i).handle j = if j = i then none else s.handle j := by
  unfold State.handle State.endLifetime
  simp only [List.getElem?_set]
  by_cases hji : j = i
  · subst hji
    by_cases hlt : j < s.handles.length
    · simp [hlt]
    · simp [hlt]
  · have : ¬ i = j := fun e => hji e.symm
    simp [hji, this]

theorem State.block_setBlock (s : State) (c k : Nat) (cb : shared_ptr_control_block) :
    (s.setBlock c cb).block k =
      if k = c ∧ c < s.heap.length then some cb else s.block k := by
  unfold State.block State.setBlock
  simp only [List.getElem?_set]
  by_cases hkc : k = c
  · subst hkc
    by_cases hlt : k < s.heap.length
    · simp [hlt]
    · simp [hlt, List.getElem?_eq_none (Nat.le_of_not_lt hlt)]
  · have : ¬ c = k := fun e => hkc e.symm
    simp [hkc, this]

theorem State.block_newBlock (s : State) (k : Nat) (cb : shared_ptr_control_block) :
    (s.newBlock cb).block k = if k = s.heap.length then some cb else s.block k := by
  unfold State.block State.newBlock
  simp only [List.getElem?_append]
  by_cases hk : k = s.heap.length
  · subst hk; simp
  · by_cases hlt : k < s.heap.length
    · simp [hk, hlt]
    · have h1 : s.heap.length ≤ k := Nat.le_of_not_lt hlt
      have h2 : k - s.heap.length ≠ 0 := by omega
      obtain ⟨m, hm⟩ := Nat.exists_eq_succ_of_ne_zero h2
      simp [hk, hlt, List.getElem?_eq_none h1, hm]

theorem State.block_deleteBlock (s : State) (c k : Nat) :
    (s.deleteBlock c).block k = if k = c then none else s.block k := by
  unfold State.block State.deleteBlock
  simp only [List.getElem?_set]
  by_cases hkc : k = c
  · subst hkc
    by_cases hlt : k < s.heap.length
    · simp [hlt]
    · simp [hlt]
  · have : ¬ c = k := fun e => hkc e.symm
    simp [hkc, this]

@[simp] theorem State.setHandle_heap (s : State) (i : Nat) (h : shared_ptr) :
    (s.setHandle i h).heap = s.heap := rfl
@[simp] theorem State.setHandle_calls (s : State) (i : Nat) (h : shared_ptr) :
    (s.setHandle i h).calls = s.calls := rfl
@[simp] theorem State.newHandle_heap (s : State) (h : shared_ptr) :
    (s.newHandle h).heap = s.heap := rfl
@[simp] theorem State.newHandle_calls (s : State) (h : shared_ptr) :
    (s.newHandle h).calls = s.calls := rfl
@[simp] theorem State.endLifetime_heap (s : State) (i : Nat) :
    (s.endLifetime i).heap = s.heap := rfl
@[simp] theorem State.endLifetime_calls (s : State) (i : Nat) :
    (s.endLifetime i).calls = s.calls := rfl
@[simp] theorem State.setBlock_handles (s : State) (c : Nat) (cb : shared_ptr_control_block) :
    (s.setBlock c cb).handles = s.handles := rfl
@[simp] theorem State.setBlock_calls (s : State) (c : Nat) (cb : shared_ptr_control_block) :
    (s.setBlock c cb).calls = s.calls := rfl
@[simp] theorem State.newBlock_handles (s : State) (cb : shared_ptr_control_block) :
    (s.newBlock cb).handles = s.handles := rfl
@[simp] theorem State.newBlock_calls (s : State) (cb : shared_ptr_control_block) :
    (s.newBlock cb).calls = s.calls := rfl
@[simp] theorem State.deleteBlock_handles (s : State) (c : Nat) :
    (s.deleteBlock c).handles = s.handles := rfl
@[simp] theorem State.deleteBlock_calls (s : State) (c : Nat) :
    (s.deleteBlock c).calls = s.calls := rfl
@[simp] theorem State.record_handles (s : State) (e : DeleterCall) :
    (s.record e).handles = s.handles := rfl
@[simp] theorem State.record_heap (s : State) (e : DeleterCall) :
    (s.record e).heap = s.heap := rfl
@[simp] theorem State.record_calls (s : State) (e : DeleterCall) :
    (s.record e).calls = s.calls ++ [e] := rfl

@[simp] theorem State.setHandle_length (s : State) (i : Nat) (h : shared_ptr) :
    (s.setHandle i h).handles.length = s.handles.length := by simp [State.setHandle]
@[simp] theorem State.newHandle_length (s : State) (h : shared_ptr) :
    (s.newHandle h).handles.length = s.handles.length + 1 := by simp [State.newHandle]
@[simp] theorem State.endLifetime_length (s : State) (i : Nat) :
    (s.endLifetime i).handles.length = s.handles.length := by simp [State.endLifetime]
@[simp] theorem State.setBlock_length (s : State) (c : Nat) (cb : shared_ptr_control_block) :
    (s.setBlock c cb).heap.length = s.heap.length := by simp [State.setBlock]
@[simp] theorem State.newBlock_length (s : State) (cb : shared_ptr_control_block) :
    (s.newBlock cb).heap.length = s.heap.length + 1 := by simp [State.newBlock]
@[simp] theorem State.deleteBlock_length (s : State) (c : Nat) :
    (s.deleteBlock c).heap.length = s.heap.length := by simp [State.deleteBlock]

@[simp] theorem State.handle_setBlock (s : State) (c i : Nat) (cb : shared_ptr_control_block) :
    (s.setBlock c cb).handle i = s.handle i := rfl
@[simp] theorem State.handle_newBlock (s : State) (i : Nat) (cb : shared_ptr_control_block) :
    (s.newBlock cb).handle i = s.handle i := rfl
@[simp] theorem State.handle_deleteBlock (s : State) (c i : Nat) :
    (s.deleteBlock c).handle i = s.handle i := rfl
@[simp] theorem State.handle_record (s : State) (e : DeleterCall) (i : Nat) :
    (s.record e).handle i = s.handle i := rfl
@[simp] theorem State.block_setHandle (s : State) (i c : Nat) (h : shared_ptr) :
    (s.setHandle i h).block c = s.block c := rfl
@[simp] theorem State.block_newHandle (s : State) (c : Nat) (h : shared_ptr) :
    (s.newHandle h).block c = s.block c := rfl
@[simp] theorem State.block_endLifetime (s : State) (i c : Nat) :
    (s.endLifetime i).block c = s.block c := rfl
@[simp] theorem State.block_record (s : State) (e : DeleterCall) (c : Nat) :
    (s.record e).block c = s.block c := rfl

/-! ## The primitive member functions on a live handle -/

theorem set_m_ptr_eq {s : State} {i : Nat} {h : shared_ptr} (p : Ptr)
    (hh : s.handle i = some h) :
    set_m_ptr i p s = some (s.setHandle i { h with m_ptr := p }) := by
  simp [set_m_ptr, hh]

theorem set_m_ctrl_eq {s : State} {i : Nat} {h : shared_ptr} (c : Option Nat)
    (hh : s.handle i = some h) :
    set_m_ctrl i c s = some (s.setHandle i { h with m_ctrl := c }) := by
  simp [set_m_ctrl, hh]

theorem increment_use_count_empty {s : State} {i : Nat} {h : shared_ptr}
    (hh : s.handle i = some h) (hc : h.m_ctrl = none) :
    increment_use_count i s = some s := by
  simp [increment_use_count, hh, hc]

theorem increment_use_count_owner {s : State} {i c : Nat} {h : shared_ptr}
    {cb : shared_ptr_control_block}
    (hh : s.handle i = some h) (hc : h.m_ctrl = some c) (hb : s.block c = some cb) :
    increment_use_count i s =
      some (s.setBlock c { cb with m_use_count := cb.m_use_count + 1 }) := by
  simp [increment_use_count, hh, hc, hb]

theorem decrement_use_count_empty {s : State} {i : Nat} {h : shared_ptr}
    (hh : s.handle i = some h) (hc : h.m_ctrl = none) :
    decrement_use_count i s = some s := by
  simp [decrement_use_count, hh, hc]

theorem decrement_use_count_last {s : State} {i c : Nat} {h : shared_ptr}
    {cb : shared_ptr_control_block}
    (hh : s.handle i = some h) (hc : h.m_ctrl = some c) (hb : s.block c = some cb)
    (h1 : cb.m_use_count = 1) :
    decrement_use_count i s =
      some ((s.record ⟨some c, cb.m_deleter.d, cb.m_deleter.ptr⟩).deleteBlock c) := by
  have h0 : cb.m_use_count - 1 = 0 := (atomic_int.sub_one_eq_zero_iff _).2 h1
  simp [decrement_use_count, hh, hc, hb, h0, delete_controlled_object, DeletionLambda.call,
    State.deleteBlock, State.record, State.setBlock]

theorem decrement_use_count_shared {s : State} {i c : Nat} {h : shared_ptr}
    {cb : shared_ptr_control_block}
    (hh : s.handle i = some h) (hc : h.m_ctrl = some c) (hb : s.block c = some cb)
    (h1 : cb.m_use_count ≠ 1) :
    decrement_use_count i s =
      some (s.setBlock c { cb with m_use_count := cb.m_use_count - 1 }) := by
  have : ¬ cb.m_use_count - 1 = 0 := fun e => h1 ((atomic_int.sub_one_eq_zero_iff _).1 e)
  simp [decrement_use_count, hh, hc, hb, this]

theorem use_count_empty {s : State} {i : Nat} {h : shared_ptr}
    (hh : s.handle i = some h) (hc : h.m_ctrl = none) : use_count i s = some 0 := by
  simp [use_count, hh, hc]

theorem use_count_owner {s : State} {i c : Nat} {h : shared_ptr}
    {cb : shared_ptr_control_block}
    (hh : s.handle i = some h) (hc : h.m_ctrl = some c) (hb : s.block c = some cb) :
    use_count i s = some cb.m_use_count.val := by
  simp [use_count, hh, hc, hb]

theorem get_eq {s : State} {i : Nat} {h : shared_ptr} (hh : s.handle i = some h) :
    get i s = some h.m_ptr := by
  simp [get, hh]


theorem State.handles_getElem? (s : State) (j : Nat) (hj : j < s.handles.length) :
    s.handles[j]? = some (s.handle j) := by
  unfold State.handle
  rw [List.getElem?_eq_getElem hj]
  simp

/-- Two states with the same live handles in the same number of slots, the same heap
and the same call record are equal. -/
theorem State.ext_handle {s t : State} (hlen : s.handles.length = t.handles.length)
    (hh : ∀ j, s.handle j = t.handle j) (hheap : s.heap = t.heap) (hcalls : s.calls = t.calls) :
    s = t := by
  have : s.handles = t.handles := by
    apply List.ext_getElem?
    intro j
    by_cases hj : j < s.handles.length
    · rw [State.handles_getElem? s j hj, State.handles_getElem? t j (hlen ▸ hj), hh j]
    · rw [List.getElem?_eq_none (by omega), List.getElem?_eq_none (by omega)]
  cases s; cases t; simp_all

theorem swap_eq {s : State} {this rhs : Nat} {a b : shared_ptr}
    (ha : s.handle this = some a) (hb : s.handle rhs = some b) :
    swap this rhs s = some ((s.setHandle this b).setHandle rhs a) := by
  have h1 := State.handle_lt ha
  have h2 := State.handle_lt hb
  by_cases e : this = rhs
  · subst e
    have : a = b := by rw [ha] at hb; exact Option.some.inj hb
    subst this
    simp [swap, set_m_ptr, set_m_ctrl, State.handle_setHandle, ha, h1]
    apply State.ext_handle <;> simp [State.handle_setHandle, h1]
    intro j
    split_ifs <;> simp_all
  · have e2 : ¬ rhs = this := fun x => e x.symm
    simp [swap, set_m_ptr, set_m_ctrl, State.handle_setHandle, ha, hb, h1, h2, e, e2]
    apply State.ext_handle <;> simp [State.handle_setHandle, h1, h2]
    intro j
    split_ifs <;> simp_all

theorem ctor_move_eq {s : State} {rhs : Nat} {h : shared_ptr}
    (hh : s.handle rhs = some h) :
    ctor_move rhs s = some ((s.setHandle rhs {}).newHandle h) := by
  have hlt := State.handle_lt hh
  have hne : rhs ≠ s.handles.length := by omega
  have hne2 : s.handles.length ≠ rhs := by omega
  have hlt2 : rhs < s.handles.length + 1 := by omega
  simp [ctor_move, set_m_ptr, set_m_ctrl, State.handle_newHandle, State.handle_setHandle,
    hh, hne, hne2, hlt, hlt2]
  apply State.ext_handle <;> simp [State.handle_setHandle, State.handle_newHandle, hlt, hlt2]
  intro j
  split_ifs <;> simp_all

/-! ## Counting owners -/

@[simp] theorem State.owners_setBlock (s : State) (c k : Nat) (cb : shared_ptr_control_block) :
    (s.setBlock c cb).owners k = s.owners k := rfl
@[simp] theorem State.owners_newBlock (s : State) (k : Nat) (cb : shared_ptr_control_block) :
    (s.newBlock cb).owners k = s.owners k := rfl
@[simp] theorem State.owners_deleteBlock (s : State) (c k : Nat) :
    (s.deleteBlock c).owners k = s.owners k := rfl
@[simp] theorem State.owners_record (s : State) (e : DeleterCall) (k : Nat) :
    (s.record e).owners k = s.owners k := rfl
@[simp] theorem State.callsOn_setBlock (s : State) (c k : Nat) (cb : shared_ptr_control_block) :
    (s.setBlock c cb).callsOn k = s.callsOn k := rfl
@[simp] theorem State.callsOn_newBlock (s : State) (k : Nat) (cb : shared_ptr_control_block) :
    (s.newBlock cb).callsOn k = s.callsOn k := rfl
@[simp] theorem State.callsOn_deleteBlock (s : State) (c k : Nat) :
    (s.deleteBlock c).callsOn k = s.callsOn k := rfl
@[simp] theorem State.callsOn_setHandle (s : State) (i k : Nat) (h : shared_ptr) :
    (s.setHandle i h).callsOn k = s.callsOn k := rfl
@[simp] theorem State.callsOn_newHandle (s : State) (k : Nat) (h : shared_ptr) :
    (s.newHandle h).callsOn k = s.callsOn k := rfl
@[simp] theorem State.callsOn_endLifetime (s : State) (i k : Nat) :
    (s.endLifetime i).callsOn k = s.callsOn k := rfl

theorem State.callsOn_record (s : State) (e : DeleterCall) (k : Nat) :
    (s.record e).callsOn k = s.callsOn k + if e.ctrl = some k then 1 else 0 := by
  unfold State.callsOn State.record
  simp only [List.countP_append, List.countP_cons, List.countP_nil]
  by_cases h : e.ctrl = some k <;> simp [h]

/-- On a live handle `refersTo` compares its `m_ctrl`. -/
theorem refersTo_some (c : Nat) (h : shared_ptr) :
    refersTo c (some h) = decide (h.m_ctrl = some c) := rfl

theorem State.owners_newHandle (s : State) (h : shared_ptr) (c : Nat) :
    (s.newHandle h).owners c = s.owners c + if h.m_ctrl = some c then 1 else 0 := by
  unfold State.owners State.newHandle
  simp only [List.countP_append, List.countP_cons, List.countP_nil, refersTo_some]
  by_cases e : h.m_ctrl = some c <;> simp [e]

theorem countP_set_add {α : Type} (p : α → Bool) (l : List α) (i : Nat) (a : α)
    (h : i < l.length) :
    (l.set i a).countP p + (if p l[i] then 1 else 0) =
      l.countP p + (if p a then 1 else 0) := by
  have h1 := List.countP_set p l i a h
  have h2 := List.boole_getElem_le_countP p l i h
  omega

theorem State.handles_getElem {s : State} {i : Nat} {h0 : shared_ptr}
    (hlt : i < s.handles.length) (hh : s.handle i = some h0) : s.handles[i] = some h0 := by
  have := State.handle_eq_some_iff.mp hh
  rw [List.getElem?_eq_getElem hlt] at this
  exact Option.some.inj this

theorem State.owners_setHandle {s : State} {i : Nat} {h0 : shared_ptr} (h : shared_ptr)
    (c : Nat) (hh : s.handle i = some h0) :
    (s.setHandle i h).owners c + (if h0.m_ctrl = some c then 1 else 0) =
      s.owners c + if h.m_ctrl = some c then 1 else 0 := by
  have key := countP_set_add (refersTo c) s.handles i (some h) (State.handle_lt hh)
  rw [State.handles_getElem (State.handle_lt hh) hh] at key
  simpa [State.owners, State.setHandle, refersTo_some] using key

theorem State.owners_endLifetime {s : State} {i : Nat} {h0 : shared_ptr}
    (c : Nat) (hh : s.handle i = some h0) :
    (s.endLifetime i).owners c + (if h0.m_ctrl = some c then 1 else 0) = s.owners c := by
  have key := countP_set_add (refersTo c) s.handles i none (State.handle_lt hh)
  rw [State.handles_getElem (State.handle_lt hh) hh] at key
  simpa [State.owners, State.endLifetime, refersTo_some, refersTo] using key

/-- A live handle that refers to `c` is counted among the owners of `c`. -/
theorem State.owners_pos {s : State} {i c : Nat} {h : shared_ptr}
    (hh : s.handle i = some h) (hc : h.m_ctrl = some c) : 1 ≤ s.owners c := by
  have hle := List.boole_getElem_le_countP (refersTo c) s.handles i (State.handle_lt hh)
  rw [State.handles_getElem (State.handle_lt hh) hh] at hle
  simp only [refersTo_some, hc, decide_True, if_true] at hle
  exact hle

/-! ## Preservation of the reference-counting invariant -/

theorem Inv.init : Inv State.init := by
  constructor <;> intros <;>
    simp_all [State.init, State.handle, State.block, State.callsOn, State.owners]

/-- Overwriting a handle that refers to no block by another such handle. -/
theorem Inv.setHandle_empty {s : State} {i : Nat} {h0 h : shared_ptr} (hinv : Inv s)
    (hh : s.handle i = some h0) (h0c : h0.m_ctrl = none) (hc : h.m_ctrl = none) :
    Inv (s.setHandle i h) := by
  have hown : ∀ c, (s.setHandle i h).owners c = s.owners c := by
    intro c
    have := State.owners_setHandle h c hh
    simpa [h0c, hc] using this
  constructor
  · intro j hj c hjh hjc
    rw [State.handle_setHandle] at hjh
    split_ifs at hjh with e
    · cases hjh; rw [hc] at hjc; cases hjc
    · exact hinv.no_dangling j hj c hjh hjc
  · intro c cb hb
    rw [hown]; exact hinv.counts c cb hb
  · intro c cb hb
    rw [hown]; exact hinv.owned c cb hb
  · intro c hc
    exact hinv.destroyed c hc
  · intro c hc
    exact hinv.unborn c hc
  · intro c
    rw [hown]; exact hinv.fits c

/-- Ending the lifetime of a handle that refers to no block. -/
theorem Inv.endLifetime_empty {s : State} {i : Nat} {h0 : shared_ptr} (hinv : Inv s)
    (hh : s.handle i = some h0) (h0c : h0.m_ctrl = none) :
    Inv (s.endLifetime i) := by
  have hown : ∀ c, (s.endLifetime i).owners c = s.owners c := by
    intro c
    have := State.owners_endLifetime c hh
    simpa [h0c] using this
  constructor
  · intro j hj c hjh hjc
    rw [State.handle_endLifetime] at hjh
    split_ifs at hjh with e
    exact hinv.no_dangling j hj c hjh hjc
  · intro c cb hb
    rw [hown]; exact hinv.counts c cb hb
  · intro c cb hb
    rw [hown]; exact hinv.owned c cb hb
  · intro c hc
    exact hinv.destroyed c hc
  · intro c hc
    exact hinv.unborn c hc
  · intro c
    rw [hown]; exact hinv.fits c

/-- A new handle that refers to no block. -/
theorem Inv.newHandle_empty {s : State} {h : shared_ptr} (hinv : Inv s)
    (hc : h.m_ctrl = none) : Inv (s.newHandle h) := by
  have hown : ∀ c, (s.newHandle h).owners c = s.owners c := by
    intro c
    simp [State.owners_newHandle, hc]
  constructor
  · intro j hj c hjh hjc
    rw [State.handle_newHandle] at hjh
    split_ifs at hjh with e
    · cases hjh; rw [hc] at hjc; cases hjc
    · exact hinv.no_dangling j hj c hjh hjc
  · intro c cb hb
    rw [hown]; exact hinv.counts c cb hb
  · intro c cb hb
    rw [hown]; exact hinv.owned c cb hb
  · intro c hc
    exact hinv.destroyed c hc
  · intro c hc
    exact hinv.unborn c hc
  · intro c
    rw [hown]; exact hinv.fits c

/-- A deleter call that is not made through a control block. -/
theorem Inv.record_direct {s : State} (d : Deleter) (p : Ptr) (hinv : Inv s) :
    Inv (s.record ⟨none, d, p⟩) := by
  have hcalls : ∀ c, (s.record ⟨none, d, p⟩).callsOn c = s.callsOn c := by
    intro c; simp [State.callsOn_record]
  constructor
  · intro j hj c hjh hjc
    exact hinv.no_dangling j hj c hjh hjc
  · intro c cb hb
    exact hinv.counts c cb hb
  · intro c cb hb
    exact hinv.owned c cb hb
  · intro c hc
    rw [hcalls]; exact hinv.destroyed c hc
  · intro c hc
    rw [hcalls]; exact hinv.unborn c hc
  · intro c
    exact hinv.fits c

/-- The aliasing constructor on a source that owns block `c`: one more handle refers to
`c` and its use-count is one higher. -/
theorem Inv.acquire {s : State} {c : Nat} {cb : shared_ptr_control_block} (p : Ptr)
    (hinv : Inv s) (hb : s.block c = some cb) (hlim : s.owners c < 4294967296) :
    Inv ((s.setBlock c { cb with m_use_count := cb.m_use_count + 1 }).newHandle ⟨p, some c⟩) := by
  have hlt := State.block_lt hb
  constructor
  · intro j hj k hjh hjc
    rw [State.handle_newHandle] at hjh
    simp only [State.block_newHandle, State.block_setBlock]
    split_ifs at hjh with e
    · cases hjh
      simp only [Option.some.injEq] at hjc
      subst hjc
      simp [hlt]
    · have := hinv.no_dangling j hj k hjh hjc
      split_ifs <;> simp_all
  · intro k kb hkb
    simp only [State.block_newHandle, State.block_setBlock] at hkb
    rw [State.owners_newHandle]
    simp only [State.owners_setBlock]
    split_ifs at hkb with e
    · obtain ⟨rfl, _⟩ := e
      cases hkb
      have := hinv.counts k cb hb
      simp only [this, atomic_int.of_add_one, if_true]
      congr 1
    · have hne : ¬ c = k := by
        intro e2; exact e ⟨e2.symm, hlt⟩
      have := hinv.counts k kb hkb
      simp [this, hne]
  · intro k kb hkb
    simp only [State.block_newHandle, State.block_setBlock] at hkb
    rw [State.owners_newHandle]
    simp only [State.owners_setBlock]
    split_ifs at hkb with e
    · obtain ⟨rfl, _⟩ := e
      simp
    · have := hinv.owned k kb hkb
      omega
  · intro k hk
    simp only [State.block_newHandle, State.block_setBlock, State.callsOn_newHandle,
      State.callsOn_setBlock]
    simp only [State.newHandle_heap, State.setBlock_length] at hk
    have := hinv.destroyed k hk
    split_ifs at this ⊢ <;> simp_all
  · intro k hk
    simp only [State.newHandle_heap, State.setBlock_length] at hk
    exact hinv.unborn k hk
  · intro k
    rw [State.owners_newHandle]
    simp only [State.owners_setBlock]
    have := hinv.fits k
    by_cases e : c = k
    · subst e; simp; omega
    · simp [e]; omega

/-- No live handle refers to a block that has no owner. -/
theorem State.not_refers_of_owners_zero {s : State} {c j : Nat} {h : shared_ptr}
    (h0 : s.owners c = 0) (hh : s.handle j = some h) : h.m_ctrl ≠ some c := by
  intro hc
  have := State.owners_pos hh hc
  omega

/-- Giving up a block that other handles still own: the use-count drops by one. -/
theorem Inv.release_shared {s : State} {i c : Nat} {h0 h : shared_ptr}
    {cb : shared_ptr_control_block} (hinv : Inv s)
    (hh : s.handle i = some h0) (h0c : h0.m_ctrl = some c) (hb : s.block c = some cb)
    (hn : cb.m_use_count ≠ 1) (hc : h.m_ctrl = none) :
    Inv ((s.setBlock c { cb with m_use_count := cb.m_use_count - 1 }).setHandle i h) := by
  have hlt := State.block_lt hb
  have hpos := hinv.owned c cb hb
  have hcount := hinv.counts c cb hb
  have hn1 : s.owners c ≠ 1 := by
    intro e
    apply hn
    rw [hcount, e]; rfl
  have hown : ∀ k, ((s.setBlock c { cb with m_use_count := cb.m_use_count - 1 }).setHandle
      i h).owners k + (if c = k then 1 else 0) = s.owners k := by
    intro k
    have := State.owners_setHandle (s := s.setBlock c { cb with m_use_count := cb.m_use_count - 1 })
      h k hh
    simpa [h0c, hc] using this
  constructor
  · intro j hj k hjh hjc
    rw [State.handle_setHandle] at hjh
    simp only [State.block_setHandle, State.block_setBlock]
    split_ifs at hjh with e
    · cases hjh; rw [hc] at hjc; cases hjc
    · have := hinv.no_dangling j hj k hjh hjc
      split_ifs <;> simp_all
  · intro k kb hkb
    simp only [State.block_setHandle, State.block_setBlock] at hkb
    have ho := hown k
    split_ifs at hkb with e
    · obtain ⟨rfl, _⟩ := e
      cases hkb
      simp only [if_true] at ho
      have e1 : ∀ n : Nat, n + 1 = s.owners k →
          cb.m_use_count - 1 = atomic_int.of (n : Int) := by
        intro n hn
        rw [hcount, atomic_int.of_sub_one, ← hn]
        congr 1
        push_cast; omega
      exact e1 _ ho
    · have hne : ¬ c = k := by
        intro e2; exact e ⟨e2.symm, hlt⟩
      have := hinv.counts k kb hkb
      simp [hne] at ho
      rw [ho]; exact this
  · intro k kb hkb
    simp only [State.block_setHandle, State.block_setBlock] at hkb
    have ho := hown k
    split_ifs at hkb with e
    · obtain ⟨rfl, _⟩ := e
      simp only [if_true] at ho
      omega
    · have hne : ¬ c = k := by
        intro e2; exact e ⟨e2.symm, hlt⟩
      have := hinv.owned k kb hkb
      simp [hne] at ho
      omega
  · intro k hk
    simp only [State.block_setHandle, State.block_setBlock, State.callsOn_setHandle,
      State.callsOn_setBlock]
    simp only [State.setHandle_heap, State.setBlock_length] at hk
    have := hinv.destroyed k hk
    split_ifs at this ⊢ <;> simp_all
  · intro k hk
    simp only [State.setHandle_heap, State.setBlock_length] at hk
    exact hinv.unborn k hk
  · intro k
    have ho := hown k
    have := hinv.fits k
    omega

/-- Giving up a block as its last owner: the deleter runs once and the block is deleted. -/
theorem Inv.release_last {s : State} {i c : Nat} {h0 h : shared_ptr}
    {cb : shared_ptr_control_block} (hinv : Inv s)
    (hh : s.handle i = some h0) (h0c : h0.m_ctrl = some c) (hb : s.block c = some cb)
    (h1 : cb.m_use_count = 1) (hc : h.m_ctrl = none) :
    Inv (((s.record ⟨some c, cb.m_deleter.d, cb.m_deleter.ptr⟩).deleteBlock c).setHandle i h) := by
  have hlt := State.block_lt hb
  have hown : ∀ k, (((s.record ⟨some c, cb.m_deleter.d, cb.m_deleter.ptr⟩).deleteBlock
      c).setHandle i h).owners k + (if c = k then 1 else 0) = s.owners k := by
    intro k
    have := State.owners_setHandle
      (s := (s.record ⟨some c, cb.m_deleter.d, cb.m_deleter.ptr⟩).deleteBlock c) h k hh
    simpa [h0c, hc] using this
  have hzero : (((s.record ⟨some c, cb.m_deleter.d, cb.m_deleter.ptr⟩).deleteBlock
      c).setHandle i h).owners c = 0 := by
    have h2 := hown c
    have h3 := hinv.counts c cb hb
    rw [h1] at h3
    have h4 := (atomic_int.of_natCast_eq_one (hinv.owned c cb hb) (hinv.fits c)).1 h3.symm
    simp at h2
    omega
  constructor
  · intro j hj k hjh hjc
    have hne : k ≠ c := by
      intro e; subst e
      exact State.not_refers_of_owners_zero hzero hjh hjc
    rw [State.handle_setHandle] at hjh
    simp only [State.block_setHandle, State.block_deleteBlock, State.block_record, hne, if_false]
    split_ifs at hjh with e
    · cases hjh; rw [hc] at hjc; cases hjc
    · exact hinv.no_dangling j hj k hjh hjc
  · intro k kb hkb
    simp only [State.block_setHandle, State.block_deleteBlock, State.block_record] at hkb
    have ho := hown k
    split_ifs at hkb with e
    have hne : ¬ c = k := fun e2 => e e2.symm
    have := hinv.counts k kb hkb
    simp [hne] at ho
    rw [ho]; exact this
  · intro k kb hkb
    simp only [State.block_setHandle, State.block_deleteBlock, State.block_record] at hkb
    have ho := hown k
    split_ifs at hkb with e
    have hne : ¬ c = k := fun e2 => e e2.symm
    have := hinv.owned k kb hkb
    simp [hne] at ho
    omega
  · intro k hk
    simp only [State.block_setHandle, State.block_deleteBlock, State.block_record,
      State.callsOn_setHandle, State.callsOn_deleteBlock, State.callsOn_record]
    simp only [State.setHandle_heap, State.deleteBlock_length, State.record_heap] at hk
    have := hinv.destroyed k hk
    by_cases e : k = c
    · subst e
      simp [hb] at this
      simp [this]
    · have hne : ¬ c = k := fun e2 => e e2.symm
      simp [e, hne, this]
  · intro k hk
    simp only [State.setHandle_heap, State.deleteBlock_length, State.record_heap] at hk
    have hne : ¬ c = k := by omega
    simp only [State.callsOn_setHandle, State.callsOn_deleteBlock, State.callsOn_record]
    simp [hne, hinv.unborn k hk]
  · intro k
    have ho := hown k
    have := hinv.fits k
    omega

/-- The member `swap` exchanges two handles. -/
theorem Inv.swap {s : State} {this rhs : Nat} {a b : shared_ptr} (hinv : Inv s)
    (ha : s.handle this = some a) (hb : s.handle rhs = some b) :
    Inv ((s.setHandle this b).setHandle rhs a) := by
  have h1 := State.handle_lt ha
  have h2 := State.handle_lt hb
  have hb2 : (s.setHandle this b).handle rhs = some b := by
    rw [State.handle_setHandle]; split_ifs <;> simp_all
  have hown : ∀ k, ((s.setHandle this b).setHandle rhs a).owners k = s.owners k := by
    intro k
    have e1 := State.owners_setHandle b k ha
    have e2 := State.owners_setHandle a k hb2
    omega
  constructor
  · intro j hj k hjh hjc
    simp only [State.block_setHandle]
    simp only [State.handle_setHandle, State.setHandle_length] at hjh
    split_ifs at hjh with e e'
    · cases hjh; exact hinv.no_dangling this _ k ha hjc
    · cases hjh; exact hinv.no_dangling rhs _ k hb hjc
    · exact hinv.no_dangling j hj k hjh hjc
  · intro c cb hcb
    rw [hown]; exact hinv.counts c cb hcb
  · intro c cb hcb
    rw [hown]; exact hinv.owned c cb hcb
  · intro c hc
    exact hinv.destroyed c hc
  · intro c hc
    exact hinv.unborn c hc
  · intro c
    rw [hown]; exact hinv.fits c

/-- The move constructor: the new handle takes over what the source held. -/
theorem Inv.move {s : State} {rhs : Nat} {h : shared_ptr} (hinv : Inv s)
    (hh : s.handle rhs = some h) :
    Inv ((s.setHandle rhs {}).newHandle h) := by
  have hown : ∀ k, ((s.setHandle rhs {}).newHandle h).owners k = s.owners k := by
    intro k
    have e1 := State.owners_setHandle {} k hh
    rw [State.owners_newHandle]
    simp at e1
    omega
  constructor
  · intro j hj k hjh hjc
    simp only [State.block_setHandle, State.block_newHandle]
    simp only [State.handle_setHandle, State.handle_newHandle, State.setHandle_length] at hjh
    split_ifs at hjh with e e'
    · cases hjh; exact hinv.no_dangling rhs _ k hh hjc
    · cases hjh; cases hjc
    · exact hinv.no_dangling j hj k hjh hjc
  · intro c cb hcb
    rw [hown]; exact hinv.counts c cb hcb
  · intro c cb hcb
    rw [hown]; exact hinv.owned c cb hcb
  · intro c hc
    exact hinv.destroyed c hc
  · intro c hc
    exact hinv.unborn c hc
  · intro c
    rw [hown]; exact hinv.fits c

/-- An empty handle takes a freshly allocated control block. -/
theorem Inv.adopt {s : State} {i : Nat} {h0 : shared_ptr} (l : DeletionLambda) (p : Ptr)
    (hinv : Inv s) (hh : s.handle i = some h0) (h0c : h0.m_ctrl = none) :
    Inv ((s.newBlock { m_deleter := l }).setHandle i ⟨p, some s.heap.length⟩) := by
  have hown : ∀ k, ((s.newBlock { m_deleter := l }).setHandle i ⟨p, some s.heap.length⟩).owners k
      = s.owners k + if s.heap.length = k then 1 else 0 := by
    intro k
    have := State.owners_setHandle (s := s.newBlock { m_deleter := l })
      ⟨p, some s.heap.length⟩ k hh
    simpa [h0c] using this
  have hfresh : s.owners s.heap.length = 0 := by
    by_contra hne
    have hpos : 0 < s.owners s.heap.length := Nat.pos_of_ne_zero hne
    unfold State.owners at hpos
    rw [List.countP_pos_iff] at hpos
    obtain ⟨o, ho, hr⟩ := hpos
    obtain ⟨j, hj, rfl⟩ := List.getElem_of_mem ho
    cases hoj : s.handles[j] with
    | none => rw [hoj] at hr; simp [refersTo] at hr
    | some hv =>
      rw [hoj] at hr
      simp [refersTo] at hr
      have hlive : s.handle j = some hv := by
        rw [State.handle_eq_some_iff, List.getElem?_eq_getElem hj, hoj]
      have := hinv.no_dangling j hv _ hlive hr
      cases hbk : s.block s.heap.length with
      | none => rw [hbk] at this; simp at this
      | some cbk => have := State.block_lt hbk; omega
  constructor
  · intro j hj k hjh hjc
    simp only [State.block_setHandle, State.block_newBlock]
    simp only [State.handle_setHandle, State.handle_newBlock] at hjh
    split_ifs at hjh with e
    · cases hjh
      simp only [Option.some.injEq] at hjc
      simp [hjc.symm]
    · have := hinv.no_dangling j hj k hjh hjc
      split_ifs <;> simp_all
  · intro k kb hkb
    simp only [State.block_setHandle, State.block_newBlock] at hkb
    rw [hown]
    split_ifs at hkb with e
    · cases hkb
      subst e
      simp only [hfresh, if_true]
      rfl
    · have hne : ¬ s.heap.length = k := fun e2 => e e2.symm
      simp [hne, hinv.counts k kb hkb]
  · intro k kb hkb
    simp only [State.block_setHandle, State.block_newBlock] at hkb
    rw [hown]
    split_ifs at hkb with e
    · subst e; simp
    · have := hinv.owned k kb hkb
      omega
  · intro k hk
    simp only [State.block_setHandle, State.block_newBlock, State.callsOn_setHandle,
      State.callsOn_newBlock]
    simp only [State.setHandle_heap, State.newBlock_length] at hk
    by_cases e : k = s.heap.length
    · subst e
      simp [hinv.unborn s.heap.length (Nat.le_refl _)]
    · simp only [e, if_false]
      exact hinv.destroyed k (by omega)
  · intro k hk
    simp only [State.setHandle_heap, State.newBlock_length] at hk
    exact hinv.unborn k (by omega)
  · intro k
    rw [hown]
    have := hinv.fits k
    by_cases e : s.heap.length = k
    · subst e; simp [hfresh]
    · simp [e]; exact this

/-! ## Explicit results of the member functions -/

theorem State.newHandle_setHandle_last (s : State) (a b : shared_ptr) :
    (s.newHandle a).setHandle s.handles.length b = s.newHandle b := by
  apply State.ext_handle <;> simp [State.handle_setHandle, State.handle_newHandle]
  intro j
  split_ifs <;> simp_all

theorem State.setHandle_setHandle (s : State) (i : Nat) (a b : shared_ptr) :
    (s.setHandle i a).setHandle i b = s.setHandle i b := by
  simp [State.setHandle]

theorem State.setHandle_endLifetime (s : State) (i : Nat) (a : shared_ptr) :
    (s.setHandle i a).endLifetime i = s.endLifetime i := by
  simp [State.setHandle, State.endLifetime]

theorem State.handle_congr {s t : State} (h : s.handles = t.handles) (j : Nat) :
    s.handle j = t.handle j := by
  unfold State.handle; rw [h]

theorem State.owners_congr {s t : State} (h : s.handles = t.handles) (c : Nat) :
    s.owners c = t.owners c := by
  unfold State.owners; rw [h]

theorem ctor_alias_empty {s : State} {rhs : Nat} {r : shared_ptr} (p : Ptr)
    (hr : s.handle rhs = some r) (hc : r.m_ctrl = none) :
    ctor_alias rhs p s = some (s.newHandle ⟨p, none⟩) := by
  have h1 : (s.newHandle { m_ctrl := none }).handle s.handles.length
      = some { m_ctrl := none } := by simp [State.handle_newHandle]
  have h2 : (s.newHandle ⟨p, none⟩).handle s.handles.length = some ⟨p, none⟩ := by
    simp [State.handle_newHandle]
  simp only [ctor_alias, hr, Option.bind_eq_bind, Option.some_bind, hc]
  rw [set_m_ptr_eq p h1, Option.some_bind, State.newHandle_setHandle_last]
  exact increment_use_count_empty h2 rfl

theorem ctor_alias_owner {s : State} {rhs c : Nat} {r : shared_ptr}
    {cb : shared_ptr_control_block} (p : Ptr)
    (hr : s.handle rhs = some r) (hc : r.m_ctrl = some c) (hb : s.block c = some cb) :
    ctor_alias rhs p s =
      some ((s.setBlock c { cb with m_use_count := cb.m_use_count + 1 }).newHandle ⟨p, some c⟩) := by
  have h1 : (s.newHandle { m_ctrl := some c }).handle s.handles.length
      = some { m_ctrl := some c } := by simp [State.handle_newHandle]
  have h2 : (s.newHandle ⟨p, some c⟩).handle s.handles.length = some ⟨p, some c⟩ := by
    simp [State.handle_newHandle]
  simp only [ctor_alias, hr, Option.bind_eq_bind, Option.some_bind, hc]
  rw [set_m_ptr_eq p h1, Option.some_bind, State.newHandle_setHandle_last]
  exact increment_use_count_owner (s := s.newHandle ⟨p, some c⟩) h2 rfl hb

theorem ctor_copy_eq {s : State} {rhs : Nat} {r : shared_ptr}
    (hr : s.handle rhs = some r) : ctor_copy rhs s = ctor_alias rhs r.m_ptr s := by
  simp [ctor_copy, get, hr]

theorem reset_empty {s : State} {i : Nat} {h : shared_ptr}
    (hh : s.handle i = some h) (hc : h.m_ctrl = none) :
    reset i s = some (s.setHandle i {}) := by
  have hlt := State.handle_lt hh
  simp [reset, decrement_use_count_empty hh hc, set_m_ctrl, set_m_ptr, hh,
    State.handle_setHandle, hlt, State.setHandle_setHandle]

theorem reset_shared {s : State} {i c : Nat} {h : shared_ptr} {cb : shared_ptr_control_block}
    (hh : s.handle i = some h) (hc : h.m_ctrl = some c) (hb : s.block c = some cb)
    (hn : cb.m_use_count ≠ 1) :
    reset i s =
      some ((s.setBlock c { cb with m_use_count := cb.m_use_count - 1 }).setHandle i {}) := by
  have hlt := State.handle_lt hh
  simp [reset, decrement_use_count_shared hh hc hb hn, set_m_ctrl, set_m_ptr, hh,
    State.handle_setHandle, hlt, State.setHandle_setHandle]

theorem reset_last {s : State} {i c : Nat} {h : shared_ptr} {cb : shared_ptr_control_block}
    (hh : s.handle i = some h) (hc : h.m_ctrl = some c) (hb : s.block c = some cb)
    (h1 : cb.m_use_count = 1) :
    reset i s =
      some (((s.record ⟨some c, cb.m_deleter.d, cb.m_deleter.ptr⟩).deleteBlock c).setHandle
        i {}) := by
  have hlt := State.handle_lt hh
  simp [reset, decrement_use_count_last hh hc hb h1, set_m_ctrl, set_m_ptr, hh,
    State.handle_setHandle, hlt, State.setHandle_setHandle]

theorem dtor_empty {s : State} {i : Nat} {h : shared_ptr}
    (hh : s.handle i = some h) (hc : h.m_ctrl = none) :
    dtor i s = some (s.endLifetime i) := by
  simp [dtor, decrement_use_count_empty hh hc]

theorem dtor_shared {s : State} {i c : Nat} {h : shared_ptr} {cb : shared_ptr_control_block}
    (hh : s.handle i = some h) (hc : h.m_ctrl = some c) (hb : s.block c = some cb)
    (hn : cb.m_use_count ≠ 1) :
    dtor i s =
      some ((s.setBlock c { cb with m_use_count := cb.m_use_count - 1 }).endLifetime i) := by
  simp [dtor, decrement_use_count_shared hh hc hb hn]

theorem dtor_last {s : State} {i c : Nat} {h : shared_ptr} {cb : shared_ptr_control_block}
    (hh : s.handle i = some h) (hc : h.m_ctrl = some c) (hb : s.block c = some cb)
    (h1 : cb.m_use_count = 1) :
    dtor i s =
      some (((s.record ⟨some c, cb.m_deleter.d, cb.m_deleter.ptr⟩).deleteBlock c).endLifetime
        i) := by
  simp [dtor, decrement_use_count_last hh hc hb h1]

/-- The destructor is `reset()` followed by the end of the object's lifetime. -/
theorem dtor_eq_reset {s : State} {i : Nat} {h : shared_ptr} (hh : s.handle i = some h) :
    dtor i s = (reset i s).map (fun s1 => s1.endLifetime i) := by
  have hlt := State.handle_lt hh
  unfold dtor reset
  cases hd : decrement_use_count i s with
  | none => simp
  | some s1 =>
    have hs1 : s1.handle i = some h := by
      unfold decrement_use_count at hd
      simp only [hh, Option.bind_eq_bind, Option.some_bind] at hd
      cases hc : h.m_ctrl with
      | none => simp [hc] at hd; subst hd; exact hh
      | some c =>
        simp only [hc] at hd
        cases hb : s.block c with
        | none => simp [hb] at hd
        | some cb =>
          simp only [hb, Option.some_bind] at hd
          split_ifs at hd <;> simp at hd <;> subst hd <;> simpa using hh
    have hlt1 := State.handle_lt hs1
    simp [set_m_ctrl, set_m_ptr, hs1, State.handle_setHandle, hlt1, State.setHandle_setHandle,
      State.setHandle_endLifetime]

/-! ## The member functions on a state that satisfies the invariant -/

theorem Inv.block_of_handle {s : State} {i c : Nat} {h : shared_ptr} (hinv : Inv s)
    (hh : s.handle i = some h) (hc : h.m_ctrl = some c) :
    ∃ cb, s.block c = some cb := by
  have := hinv.no_dangling i h c hh hc
  cases hb : s.block c with
  | none => rw [hb] at this; cases this
  | some cb => exact ⟨cb, rfl⟩

theorem State.owners_lt_of_below_limit {s : State} {c : Nat} {cb : shared_ptr_control_block}
    (hlim : s.below_limit = true) (hb : s.block c = some cb) : s.owners c < 4294967296 := by
  have hlt := State.block_lt hb
  unfold State.below_limit at hlim
  rw [List.all_eq_true] at hlim
  simpa using hlim c (List.mem_range.mpr hlt)

theorem ctor_alias_spec {s : State} {rhs : Nat} {r : shared_ptr} (p : Ptr) (hinv : Inv s)
    (hlim : s.below_limit = true) (hr : s.handle rhs = some r) :
    ∃ s1, ctor_alias rhs p s = some s1 ∧ Inv s1 ∧
      s1.handles = s.handles ++ [some ⟨p, r.m_ctrl⟩] ∧
      s1.heap.length = s.heap.length ∧ s1.calls = s.calls := by
  cases hc : r.m_ctrl with
  | none =>
    exact ⟨_, ctor_alias_empty p hr hc, hinv.newHandle_empty rfl, rfl, rfl, rfl⟩
  | some c =>
    obtain ⟨cb, hb⟩ := hinv.block_of_handle hr hc
    exact ⟨_, ctor_alias_owner p hr hc hb,
      hinv.acquire p hb (State.owners_lt_of_below_limit hlim hb), rfl, by simp, rfl⟩

theorem ctor_move_spec {s : State} {rhs : Nat} {r : shared_ptr} (hinv : Inv s)
    (hr : s.handle rhs = some r) :
    ∃ s1, ctor_move rhs s = some s1 ∧ Inv s1 ∧
      s1.handles = s.handles.set rhs (some {}) ++ [some r] ∧
      s1.heap = s.heap ∧ s1.calls = s.calls :=
  ⟨_, ctor_move_eq hr, hinv.move hr, rfl, rfl, rfl⟩

theorem swap_spec {s : State} {this rhs : Nat} {a b : shared_ptr} (hinv : Inv s)
    (ha : s.handle this = some a) (hb : s.handle rhs = some b) :
    ∃ s1, swap this rhs s = some s1 ∧ Inv s1 ∧
      s1.handles = (s.handles.set this (some b)).set rhs (some a) ∧
      s1.heap = s.heap ∧ s1.calls = s.calls :=
  ⟨_, swap_eq ha hb, hinv.swap ha hb, rfl, rfl, rfl⟩

theorem reset_spec {s : State} {i : Nat} {h : shared_ptr} (hinv : Inv s)
    (hh : s.handle i = some h) :
    ∃ s1, reset i s = some s1 ∧ Inv s1 ∧ s1.handles = s.handles.set i (some {}) ∧
      s1.heap.length = s.heap.length := by
  cases hc : h.m_ctrl with
  | none =>
    exact ⟨_, reset_empty hh hc, hinv.setHandle_empty hh hc rfl, rfl, rfl⟩
  | some c =>
    obtain ⟨cb, hb⟩ := hinv.block_of_handle hh hc
    by_cases h1 : cb.m_use_count = 1
    · exact ⟨_, reset_last hh hc hb h1, hinv.release_last hh hc hb h1 rfl, rfl, by simp⟩
    · exact ⟨_, reset_shared hh hc hb h1, hinv.release_shared hh hc hb h1 rfl, rfl, by simp⟩

theorem dtor_spec {s : State} {i : Nat} {h : shared_ptr} (hinv : Inv s)
    (hh : s.handle i = some h) :
    ∃ s1, dtor i s = some s1 ∧ Inv s1 ∧ s1.handles = s.handles.set i none ∧
      s1.heap.length = s.heap.length := by
  obtain ⟨s1, hr, hinv1, hH, hL⟩ := reset_spec hinv hh
  have hlive : s1.handle i = some {} := by
    rw [State.handle_congr (t := s.setHandle i {}) hH, State.handle_setHandle]
    simp [State.handle_lt hh]
  refine ⟨s1.endLifetime i, ?_, hinv1.endLifetime_empty hlive rfl, ?_, hL⟩
  · rw [dtor_eq_reset hh, hr]; rfl
  · simp [State.endLifetime, hH]

theorem State.newBlock_setBlock {s : State} {c : Nat} (x y : shared_ptr_control_block)
    (hc : c < s.heap.length) :
    (s.newBlock x).setBlock c y = (s.setBlock c y).newBlock x := by
  simp [State.newBlock, State.setBlock, List.set_append_left _ _ hc]

theorem State.newBlock_deleteBlock {s : State} {c : Nat} (x : shared_ptr_control_block)
    (hc : c < s.heap.length) :
    (s.newBlock x).deleteBlock c = (s.deleteBlock c).newBlock x := by
  simp [State.newBlock, State.deleteBlock, List.set_append_left _ _ hc]

/-- A control block allocated before `reset()` is not touched by it. -/
theorem reset_newBlock {s : State} {i : Nat} {h : shared_ptr} (x : shared_ptr_control_block)
    (hh : s.handle i = some h) (hd : ∀ c, h.m_ctrl = some c → c < s.heap.length) :
    reset i (s.newBlock x) = (reset i s).map (fun s1 => s1.newBlock x) := by
  have hh2 : (s.newBlock x).handle i = some h := hh
  cases hc : h.m_ctrl with
  | none =>
    rw [reset_empty hh hc, reset_empty hh2 hc]; rfl
  | some c =>
    have hlt := hd c hc
    have hne : c ≠ s.heap.length := by omega
    have hbk : (s.newBlock x).block c = s.block c := by
      rw [State.block_newBlock]; simp [hne]
    cases hb : s.block c with
    | none =>
      rw [hb] at hbk
      simp [reset, decrement_use_count, hh, hh2, hc, hb, hbk]
    | some cb =>
      rw [hb] at hbk
      by_cases h1 : cb.m_use_count = 1
      · rw [reset_last hh hc hb h1, reset_last hh2 hc hbk h1]
        simp only [Option.map_some']
        congr 1
        have := State.newBlock_deleteBlock (s := s.record ⟨some c, cb.m_deleter.d, cb.m_deleter.ptr⟩)
          (c := c) x hlt
        simp only [State.setHandle, State.newBlock, State.deleteBlock, State.record] at this ⊢
        simp [List.set_append_left _ _ hlt]
      · rw [reset_shared hh hc hb h1, reset_shared hh2 hc hbk h1]
        simp only [Option.map_some']
        congr 1
        simp only [State.setHandle, State.newBlock, State.setBlock]
        simp [List.set_append_left _ _ hlt]

theorem reset_ptr_deleter_fail {s : State} {i : Nat} {h : shared_ptr} (p : Ptr) (d : Deleter)
    (hh : s.handle i = some h) :
    reset_ptr_deleter i p d false s = some (.threw (s.record ⟨none, d, p⟩)) := by
  simp [reset_ptr_deleter, hh, DeletionLambda.call]

/-- With the allocation succeeding, `reset(ptr, d)` is `reset()` followed by the adoption of
the new control block. -/
theorem reset_ptr_deleter_ok {s : State} {i : Nat} {h : shared_ptr} (p : Ptr) (d : Deleter)
    (hh : s.handle i = some h) (hd : ∀ c, h.m_ctrl = some c → c < s.heap.length) :
    reset_ptr_deleter i p d true s =
      (reset i s).map (fun s1 =>
        .returned ((s1.newBlock { m_deleter := ⟨d, p⟩ }).setHandle i ⟨p, some s.heap.length⟩)) := by
  unfold reset_ptr_deleter
  simp only [hh, Option.isNone_some, Bool.false_eq_true, if_false, if_true]
  rw [reset_newBlock _ hh hd]
  cases hr : reset i s with
  | none => simp
  | some s1 =>
    have hs1 : s1.handle i = some {} := by
      cases hc : h.m_ctrl with
      | none =>
        rw [reset_empty hh hc] at hr
        cases hr; simp [State.handle_setHandle, State.handle_lt hh]
      | some c =>
        cases hb : s.block c with
        | none => simp [reset, decrement_use_count, hh, hc, hb] at hr
        | some cb =>
          by_cases h1 : cb.m_use_count = 1
          · rw [reset_last hh hc hb h1] at hr
            cases hr; simp [State.handle_setHandle, State.handle_lt hh]
          · rw [reset_shared hh hc hb h1] at hr
            cases hr; simp [State.handle_setHandle, State.handle_lt hh]
    have hlt := State.handle_lt hs1
    simp [set_m_ctrl, set_m_ptr, hs1, State.handle_setHandle, hlt, State.setHandle_setHandle]

theorem Inv.ctrl_lt {s : State} {i : Nat} {h : shared_ptr} (hinv : Inv s)
    (hh : s.handle i = some h) : ∀ c, h.m_ctrl = some c → c < s.heap.length := by
  intro c hc
  obtain ⟨cb, hb⟩ := hinv.block_of_handle hh hc
  exact State.block_lt hb

theorem reset_ptr_deleter_ok_spec {s : State} {i : Nat} {h : shared_ptr} (p : Ptr) (d : Deleter)
    (hinv : Inv s) (hh : s.handle i = some h) :
    ∃ s1, reset_ptr_deleter i p d true s = some (.returned s1) ∧ Inv s1 ∧
      s1.handles = s.handles.set i (some ⟨p, some s.heap.length⟩) ∧
      s1.heap.length = s.heap.length + 1 ∧
      s1.block s.heap.length = some { m_deleter := ⟨d, p⟩ } := by
  obtain ⟨s0, hr, hinv0, hH, hL⟩ := reset_spec hinv hh
  have hlive : s0.handle i = some {} := by
    rw [State.handle_congr (t := s.setHandle i {}) hH, State.handle_setHandle]
    simp [State.handle_lt hh]
  have hlt0 := State.handle_lt hlive
  refine ⟨(s0.newBlock { m_deleter := ⟨d, p⟩ }).setHandle i ⟨p, some s.heap.length⟩, ?_, ?_, ?_,
    ?_, ?_⟩
  · rw [reset_ptr_deleter_ok p d hh (hinv.ctrl_lt hh), hr]; rfl
  · rw [← hL]; exact hinv0.adopt ⟨d, p⟩ p hlive rfl
  · simp [State.setHandle, State.newBlock, hH]
  · simp [hL]
  · simp [State.block_newBlock, hL]

theorem reset_ptr_deleter_fail_spec {s : State} {i : Nat} {h : shared_ptr} (p : Ptr)
    (d : Deleter) (hinv : Inv s) (hh : s.handle i = some h) :
    ∃ s1, reset_ptr_deleter i p d false s = some (.threw s1) ∧ Inv s1 ∧
      s1.handles = s.handles ∧ s1.heap = s.heap ∧ s1.calls = s.calls ++ [⟨none, d, p⟩] :=
  ⟨_, reset_ptr_deleter_fail p d hh, hinv.record_direct d p, rfl, rfl, rfl⟩

/-! ## How the number of owners changes -/

theorem owners_le_of_append {s s1 : State} {t : List (Option shared_ptr)}
    (hH : s1.handles = s.handles ++ t) (c : Nat) : s.owners c ≤ s1.owners c := by
  unfold State.owners
  rw [hH, List.countP_append]
  omega

theorem owners_le_of_set {s s1 : State} {i : Nat} {x : Option shared_ptr}
    (hH : s1.handles = s.handles.set i x) (c : Nat) : s.owners c ≤ s1.owners c + 1 := by
  unfold State.owners
  rw [hH]
  by_cases hi : i < s.handles.length
  · have := countP_set_add (refersTo c) s.handles i x hi
    split_ifs at this <;> omega
  · rw [List.set_eq_of_length_le (by omega)]
    omega

theorem owners_eq_of_swap {s s1 : State} {this rhs : Nat} {a b : shared_ptr}
    (ha : s.handle this = some a) (hb : s.handle rhs = some b)
    (hH : s1.handles = (s.handles.set this (some b)).set rhs (some a)) (c : Nat) :
    s1.owners c = s.owners c := by
  have hb2 : (s.setHandle this b).handle rhs = some b := by
    rw [State.handle_setHandle]; split_ifs <;> simp_all
  have e1 := State.owners_setHandle b c ha
  have e2 := State.owners_setHandle a c hb2
  rw [State.owners_congr (t := (s.setHandle this b).setHandle rhs a) hH]
  omega

theorem owners_eq_of_move {s s1 : State} {rhs : Nat} {r : shared_ptr}
    (hr : s.handle rhs = some r)
    (hH : s1.handles = s.handles.set rhs (some {}) ++ [some r]) (c : Nat) :
    s1.owners c = s.owners c := by
  have e1 := State.owners_setHandle {} c hr
  rw [State.owners_congr (t := (s.setHandle rhs {}).newHandle r) hH, State.owners_newHandle]
  simp at e1
  omega

/-! ## Constructors and assignments on a state that satisfies the invariant -/

theorem ctor_ptr_deleter_ok_spec {s : State} (p : Ptr) (d : Deleter) (hinv : Inv s) :
    ∃ s1, ctor_ptr_deleter p d true s = some (.returned s1) ∧ Inv s1 ∧
      s1.handles = s.handles ++ [some ⟨p, some s.heap.length⟩] ∧
      s1.heap.length = s.heap.length + 1 ∧
      s1.block s.heap.length = some { m_deleter := ⟨d, p⟩ } := by
  have hlive : (s.newHandle {}).handle s.handles.length = some {} := by
    simp [State.handle_newHandle]
  obtain ⟨s1, hr, hinv1, hH, hL, hB⟩ :=
    reset_ptr_deleter_ok_spec p d (hinv.newHandle_empty (h := {}) rfl) hlive
  refine ⟨s1, ?_, hinv1, ?_, hL, hB⟩
  · simp only [ctor_ptr_deleter, hr]
  · rw [hH]; simp [State.newHandle]

theorem ctor_ptr_deleter_fail_spec {s : State} (p : Ptr) (d : Deleter) (hinv : Inv s) :
    ∃ s1, ctor_ptr_deleter p d false s = some (.threw s1) ∧ Inv s1 ∧
      s1.handles = s.handles ++ [none] ∧ s1.heap = s.heap ∧
      s1.calls = s.calls ++ [⟨none, d, p⟩] := by
  have hlive : (s.newHandle {}).handle s.handles.length = some {} := by
    simp [State.handle_newHandle]
  obtain ⟨s1, hr, hinv1, hH, hL, hC⟩ :=
    reset_ptr_deleter_fail_spec p d (hinv.newHandle_empty (h := {}) rfl) hlive
  have hlive1 : s1.handle s.handles.length = some {} := by
    rw [State.handle_congr hH]; exact hlive
  refine ⟨s1.endLifetime s.handles.length, ?_, hinv1.endLifetime_empty hlive1 rfl, ?_, hL, hC⟩
  · simp only [ctor_ptr_deleter, hr]
  · simp [State.endLifetime, hH, State.newHandle]

theorem handle_of_append_lt {s t : State} {l : List (Option shared_ptr)} {j : Nat}
    (hH : t.handles = s.handles ++ l) (hj : j < s.handles.length) :
    t.handle j = s.handle j := by
  unfold State.handle
  rw [hH, List.getElem?_append_left hj]

theorem handle_of_append_last {s t : State} {x : Option shared_ptr}
    {l : List (Option shared_ptr)}
    (hH : t.handles = s.handles ++ x :: l) : t.handle s.handles.length = x := by
  unfold State.handle
  rw [hH, List.getElem?_append_right (Nat.le_refl _)]
  simp

theorem set_append_last {α : Type} (l : List α) (x y : α) (t : List α) :
    (l ++ x :: t).set l.length y = l ++ y :: t := by
  rw [List.set_append_right _ _ (Nat.le_refl _)]
  simp

theorem set_set_append_last {α : Type} (l : List α) (i : Nat) (a x y : α) (t : List α) :
    (l.set i a ++ x :: t).set l.length y = l.set i a ++ y :: t := by
  have := set_append_last (l.set i a) x y t
  rwa [List.length_set] at this

theorem assign_copy_spec {s : State} {this rhs : Nat} {t r : shared_ptr} (hinv : Inv s)
    (hlim : s.below_limit = true) (ht : s.handle this = some t) (hr : s.handle rhs = some r) :
    ∃ s3, assign_copy this rhs s = some s3 ∧ Inv s3 ∧
      s3.handles = s.handles.set this (some r) ++ [none] ∧
      s3.heap.length = s.heap.length ∧ ∀ c, s.owners c ≤ s3.owners c + 1 := by
  have hlt := State.handle_lt ht
  obtain ⟨s1, e1, hinv1, hH1, hL1, -⟩ := ctor_alias_spec r.m_ptr hinv hlim hr
  have htmp1 : s1.handle s.handles.length = some r := handle_of_append_last hH1
  have hthis1 : s1.handle this = some t := by rw [handle_of_append_lt hH1 hlt, ht]
  obtain ⟨s2, e2, hinv2, hH2, hL2, -⟩ := swap_spec hinv1 htmp1 hthis1
  have htmp2 : s2.handle s.handles.length = some t := by
    rw [State.handle_congr (t := (s1.setHandle s.handles.length t).setHandle this r) hH2]
    have := State.handle_lt htmp1
    simp [State.handle_setHandle, this]
    omega
  obtain ⟨s3, e3, hinv3, hH3, hL3⟩ := dtor_spec hinv2 htmp2
  refine ⟨s3, ?_, hinv3, ?_, ?_, ?_⟩
  · simp only [assign_copy, ht, ctor_copy_eq hr, e1, e2, e3, Option.bind_eq_bind,
      Option.some_bind]
  · rw [hH3, hH2, hH1, set_append_last, List.set_append_left _ _ hlt, set_set_append_last]
  · rw [hL3, hL2, hL1]
  · intro c
    have a1 := owners_le_of_append hH1 c
    have a2 := owners_eq_of_swap htmp1 hthis1 hH2 c
    have a3 := owners_le_of_set hH3 c
    omega

theorem assign_move_spec {s : State} {this rhs : Nat} {t r : shared_ptr} (hinv : Inv s)
    (ht : s.handle this = some t) (hr : s.handle rhs = some r) :
    ∃ s3, assign_move this rhs s = some s3 ∧ Inv s3 ∧
      s3.handles = (s.handles.set rhs (some {})).set this (some r) ++ [none] ∧
      s3.heap.length = s.heap.length ∧ ∀ c, s.owners c ≤ s3.owners c + 1 := by
  have hlt := State.handle_lt ht
  have hlt' : this < (s.handles.set rhs (some {})).length := by simpa using hlt
  obtain ⟨s1, e1, hinv1, hH1, hL1, -⟩ := ctor_move_spec hinv hr
  have hlen1 : (s.handles.set rhs (some {})).length = s.handles.length := by simp
  have htmp1 : s1.handle s.handles.length = some r := by
    have := handle_of_append_last (s := s.setHandle rhs {}) (t := s1) hH1
    simpa using this
  obtain ⟨t1, hthis1⟩ : ∃ t1, s1.handle this = some t1 := by
    have : s1.handle this = (s.setHandle rhs {}).handle this :=
      handle_of_append_lt (s := s.setHandle rhs {}) hH1 (by simpa using hlt)
    rw [this, State.handle_setHandle]
    split_ifs
    · exact ⟨_, rfl⟩
    · exact ⟨t, ht⟩
  obtain ⟨s2, e2, hinv2, hH2, hL2, -⟩ := swap_spec hinv1 htmp1 hthis1
  have hH2' : s2.handles = (s.handles.set rhs (some {})).set this (some r) ++ [some t1] := by
    rw [hH2, hH1]
    have := set_append_last (s.handles.set rhs (some {})) (some r) (some t1) []
    rw [hlen1] at this
    rw [this, List.set_append_left _ _ hlt']
  have htmp2 : s2.handle s.handles.length = some t1 := by
    have := handle_of_append_last
      (s := (s.setHandle rhs {}).setHandle this r) (t := s2) hH2'
    simpa using this
  obtain ⟨s3, e3, hinv3, hH3, hL3⟩ := dtor_spec hinv2 htmp2
  refine ⟨s3, ?_, hinv3, ?_, ?_, ?_⟩
  · simp only [assign_move, ht, e1, e2, e3, Option.bind_eq_bind, Option.some_bind]
  · rw [hH3, hH2']
    have := set_set_append_last (s.handles.set rhs (some {})) this (some r) (some t1) none []
    rw [hlen1] at this
    exact this
  · rw [hL3, hL2, hL1]
  · intro c
    have a1 := owners_eq_of_move hr hH1 c
    have a2 := owners_eq_of_swap htmp1 hthis1 hH2 c
    have a3 := owners_le_of_set hH3 c
    omega

theorem assign_unique_ok_spec {s : State} {this : Nat} {t : shared_ptr} (u : unique_ptr)
    (hinv : Inv s) (ht : s.handle this = some t) :
    ∃ s3, assign_unique this u true s = some (.returned s3, ⟨nullptr, u.m_deleter⟩) ∧ Inv s3 ∧
      s3.handles = s.handles.set this (some ⟨u.m_ptr, some s.heap.length⟩) ++ [none] ∧
      s3.heap.length = s.heap.length + 1 ∧ (∀ c, s.owners c ≤ s3.owners c + 1) ∧
      (s3.block s.heap.length).isSome := by
  have hlt := State.handle_lt ht
  obtain ⟨s1, e1, hinv1, hH1, hL1, -⟩ := ctor_ptr_deleter_ok_spec u.get u.get_deleter hinv
  have htmp1 : s1.handle s.handles.length = some ⟨u.m_ptr, some s.heap.length⟩ :=
    handle_of_append_last hH1
  have hthis1 : s1.handle this = some t := by rw [handle_of_append_lt hH1 hlt, ht]
  obtain ⟨s2, e2, hinv2, hH2, hL2, -⟩ := swap_spec hinv1 htmp1 hthis1
  have hH2' : s2.handles
      = s.handles.set this (some ⟨u.m_ptr, some s.heap.length⟩) ++ [some t] := by
    rw [hH2, hH1]
    have := set_append_last s.handles (some ⟨u.get, some s.heap.length⟩) (some t) []
    rw [this, List.set_append_left _ _ hlt]
  have htmp2 : s2.handle s.handles.length = some t := by
    have := handle_of_append_last
      (s := s.setHandle this ⟨u.m_ptr, some s.heap.length⟩) (t := s2) hH2'
    simpa using this
  obtain ⟨s3, e3, hinv3, hH3, hL3⟩ := dtor_spec hinv2 htmp2
  have hH3' : s3.handles
      = s.handles.set this (some ⟨u.m_ptr, some s.heap.length⟩) ++ [none] := by
    rw [hH3, hH2']
    exact set_set_append_last s.handles this _ (some t) none []
  refine ⟨s3, ?_, hinv3, hH3', ?_, ?_, ?_⟩
  · simp [assign_unique, ht, e1, e2, e3, unique_ptr.release]
  · rw [hL3, hL2, hL1]
  · intro c
    have a1 := owners_le_of_append hH1 c
    have a2 := owners_eq_of_swap htmp1 hthis1 hH2 c
    have a3 := owners_le_of_set hH3 c
    omega
  · have hthis3 : s3.handle this = some ⟨u.m_ptr, some s.heap.length⟩ := by
      have := handle_of_append_lt
        (s := s.setHandle this ⟨u.m_ptr, some s.heap.length⟩) (t := s3) (j := this) hH3'
        (by simpa using hlt)
      rw [this, State.handle_setHandle]
      simp [hlt]
    exact hinv3.no_dangling this _ _ hthis3 rfl

theorem assign_unique_fail_spec {s : State} {this : Nat} {t : shared_ptr} (u : unique_ptr)
    (hinv : Inv s) (ht : s.handle this = some t) :
    ∃ s1, assign_unique this u false s = some (.threw s1, u) ∧ Inv s1 ∧
      s1.handles = s.handles ++ [none] ∧ s1.heap = s.heap ∧
      s1.calls = s.calls ++ [⟨none, u.m_deleter, u.m_ptr⟩] := by
  obtain ⟨s1, e1, hinv1, hH1, hL1, hC1⟩ := ctor_ptr_deleter_fail_spec u.get u.get_deleter hinv
  refine ⟨s1, ?_, hinv1, hH1, hL1, hC1⟩
  simp [assign_unique, ht, e1]

theorem ctor_unique_ok_spec {s : State} (u : unique_ptr) (hinv : Inv s) :
    ∃ s3, ctor_unique u true s = some (.returned s3, ⟨nullptr, u.m_deleter⟩) ∧ Inv s3 ∧
      s3.handles = s.handles ++ [some ⟨u.m_ptr, some s.heap.length⟩, none] ∧
      s3.heap.length = s.heap.length + 1 ∧ (∀ c, s.owners c ≤ s3.owners c + 1) ∧
      (s3.block s.heap.length).isSome := by
  have hlive : (s.newHandle {}).handle s.handles.length = some {} := by
    simp [State.handle_newHandle]
  obtain ⟨s3, e, hinv3, hH, hL, hO, hB⟩ :=
    assign_unique_ok_spec u (hinv.newHandle_empty (h := {}) rfl) hlive
  refine ⟨s3, ?_, hinv3, ?_, hL, ?_, hB⟩
  · simp only [ctor_unique, e]
  · rw [hH]
    simp only [State.newHandle, State.newHandle_heap]
    rw [set_append_last]
    simp
  · intro c
    have := hO c
    rw [State.owners_newHandle] at this
    simpa using this

theorem ctor_unique_fail_spec {s : State} (u : unique_ptr) (hinv : Inv s) :
    ∃ s1, ctor_unique u false s = some (.threw s1, u) ∧ Inv s1 ∧
      s1.handles = s.handles ++ [none, none] ∧ s1.heap = s.heap ∧
      s1.calls = s.calls ++ [⟨none, u.m_deleter, u.m_ptr⟩] := by
  have hlive : (s.newHandle {}).handle s.handles.length = some {} := by
    simp [State.handle_newHandle]
  obtain ⟨s1, e, hinv1, hH, hL, hC⟩ :=
    assign_unique_fail_spec u (hinv.newHandle_empty (h := {}) rfl) hlive
  have hlive1 : s1.handle s.handles.length = some {} := by
    have := handle_of_append_lt (s := s.newHandle {}) (t := s1) (j := s.handles.length) hH
      (by simp)
    rw [this]; exact hlive
  refine ⟨s1.endLifetime s.handles.length, ?_, hinv1.endLifetime_empty hlive1 rfl, ?_, hL, hC⟩
  · simp only [ctor_unique, e]
  · simp only [State.endLifetime, hH, State.newHandle, List.append_assoc, List.singleton_append]
    rw [set_append_last]

/-! ## One operation of a program -/


theorem Preserved.of_same_heap {s s1 : State} (hinv : Inv s1)
    (ho : ∀ c, s.owners c ≤ s1.owners c + 1) (hL : s1.heap.length = s.heap.length) :
    Preserved s s1 :=
  ⟨hinv, ho, by omega, fun c h1 h2 => by omega⟩

theorem Preserved.of_new_block {s s1 : State} (hinv : Inv s1)
    (ho : ∀ c, s.owners c ≤ s1.owners c + 1) (hL : s1.heap.length = s.heap.length + 1)
    (hB : (s1.block s.heap.length).isSome) : Preserved s s1 := by
  refine ⟨hinv, ho, by omega, fun c h1 h2 => ?_⟩
  have : c = s.heap.length := by omega
  rw [this]; exact hB

theorem le_succ_of_le_owners {s s1 : State} (h : ∀ c, s.owners c ≤ s1.owners c) :
    ∀ c, s.owners c ≤ s1.owners c + 1 := fun c => Nat.le_succ_of_le (h c)

theorem ctor_ptr_deleter_preserved {s : State} (p : Ptr) (d : Deleter) (ok : Bool)
    (hinv : Inv s) :
    ∃ s1, (ctor_ptr_deleter p d ok s).map Outcome.state = some s1 ∧ Preserved s s1 := by
  cases ok with
  | true =>
    obtain ⟨s1, e, hinv1, hH, hL, hB⟩ := ctor_ptr_deleter_ok_spec p d hinv
    refine ⟨s1, by rw [e]; rfl, Preserved.of_new_block hinv1
      (le_succ_of_le_owners (owners_le_of_append hH)) hL (by rw [hB]; rfl)⟩
  | false =>
    obtain ⟨s1, e, hinv1, hH, hL, -⟩ := ctor_ptr_deleter_fail_spec p d hinv
    refine ⟨s1, by rw [e]; rfl, Preserved.of_same_heap hinv1
      (le_succ_of_le_owners (owners_le_of_append hH)) (by rw [hL])⟩

theorem reset_ptr_deleter_preserved {s : State} {i : Nat} {h : shared_ptr} (p : Ptr)
    (d : Deleter) (ok : Bool) (hinv : Inv s) (hh : s.handle i = some h) :
    ∃ s1, (reset_ptr_deleter i p d ok s).map Outcome.state = some s1 ∧ Preserved s s1 := by
  cases ok with
  | true =>
    obtain ⟨s1, e, hinv1, hH, hL, hB⟩ := reset_ptr_deleter_ok_spec p d hinv hh
    refine ⟨s1, by rw [e]; rfl, Preserved.of_new_block hinv1 (owners_le_of_set hH) hL
      (by rw [hB]; rfl)⟩
  | false =>
    obtain ⟨s1, e, hinv1, hH, hL, -⟩ := reset_ptr_deleter_fail_spec p d hinv hh
    refine ⟨s1, by rw [e]; rfl, Preserved.of_same_heap hinv1 ?_ (by rw [hL])⟩
    intro c; rw [State.owners_congr hH]; omega

/-- An operation on live handles of a state that satisfies the invariant and is below the
limit of the counter is defined and re-establishes the invariant. -/
theorem step_spec {s : State} (op : Op) (hinv : Inv s) (hlim : s.below_limit = true)
    (hen : op.enabled s = true) :
    ∃ s1, step s op = some s1 ∧ Preserved s s1 := by
  cases op with
  | ctor_default =>
    exact ⟨_, rfl, Preserved.of_same_heap (hinv.newHandle_empty rfl)
      (le_succ_of_le_owners (owners_le_of_append (t := [some {}]) rfl)) rfl⟩
  | ctor_nullptr =>
    exact ⟨_, rfl, Preserved.of_same_heap (hinv.newHandle_empty rfl)
      (le_succ_of_le_owners (owners_le_of_append (t := [some {}]) rfl)) rfl⟩
  | ctor_ptr p ok => exact ctor_ptr_deleter_preserved p default_delete ok hinv
  | ctor_ptr_deleter p d ok => exact ctor_ptr_deleter_preserved p d ok hinv
  | ctor_nullptr_deleter d ok => exact ctor_ptr_deleter_preserved nullptr d ok hinv
  | ctor_alias rhs p =>
    obtain ⟨r, hr⟩ := Option.isSome_iff_exists.mp hen
    obtain ⟨s1, e, hinv1, hH, hL, -⟩ := ctor_alias_spec p hinv hlim hr
    exact ⟨s1, e, Preserved.of_same_heap hinv1
      (le_succ_of_le_owners (owners_le_of_append hH)) hL⟩
  | ctor_copy rhs =>
    obtain ⟨r, hr⟩ := Option.isSome_iff_exists.mp hen
    obtain ⟨s1, e, hinv1, hH, hL, -⟩ := ctor_alias_spec r.m_ptr hinv hlim hr
    exact ⟨s1, by simp only [step, ctor_copy_eq hr, e], Preserved.of_same_heap hinv1
      (le_succ_of_le_owners (owners_le_of_append hH)) hL⟩
  | ctor_move rhs =>
    obtain ⟨r, hr⟩ := Option.isSome_iff_exists.mp hen
    obtain ⟨s1, e, hinv1, hH, hL, -⟩ := ctor_move_spec hinv hr
    refine ⟨s1, e, Preserved.of_same_heap hinv1 ?_ (by rw [hL])⟩
    intro c; rw [owners_eq_of_move hr hH c]; omega
  | ctor_unique u ok =>
    cases ok with
    | true =>
      obtain ⟨s1, e, hinv1, hH, hL, hO, hB⟩ := ctor_unique_ok_spec u hinv
      exact ⟨s1, by simp only [step, e]; rfl, Preserved.of_new_block hinv1 hO hL hB⟩
    | false =>
      obtain ⟨s1, e, hinv1, hH, hL, -⟩ := ctor_unique_fail_spec u hinv
      exact ⟨s1, by simp only [step, e]; rfl, Preserved.of_same_heap hinv1
        (le_succ_of_le_owners (owners_le_of_append hH)) (by rw [hL])⟩
  | assign_copy this rhs =>
    simp only [Op.enabled, Bool.and_eq_true] at hen
    obtain ⟨t, ht⟩ := Option.isSome_iff_exists.mp hen.1
    obtain ⟨r, hr⟩ := Option.isSome_iff_exists.mp hen.2
    obtain ⟨s1, e, hinv1, hH, hL, hO⟩ := assign_copy_spec hinv hlim ht hr
    exact ⟨s1, e, Preserved.of_same_heap hinv1 hO hL⟩
  | assign_move this rhs =>
    simp only [Op.enabled, Bool.and_eq_true] at hen
    obtain ⟨t, ht⟩ := Option.isSome_iff_exists.mp hen.1
    obtain ⟨r, hr⟩ := Option.isSome_iff_exists.mp hen.2
    obtain ⟨s1, e, hinv1, hH, hL, hO⟩ := assign_move_spec hinv ht hr
    exact ⟨s1, e, Preserved.of_same_heap hinv1 hO hL⟩
  | assign_unique this u ok =>
    obtain ⟨t, ht⟩ := Option.isSome_iff_exists.mp hen
    cases ok with
    | true =>
      obtain ⟨s1, e, hinv1, hH, hL, hO, hB⟩ := assign_unique_ok_spec u hinv ht
      exact ⟨s1, by simp only [step, e]; rfl, Preserved.of_new_block hinv1 hO hL hB⟩
    | false =>
      obtain ⟨s1, e, hinv1, hH, hL, -⟩ := assign_unique_fail_spec u hinv ht
      exact ⟨s1, by simp only [step, e]; rfl, Preserved.of_same_heap hinv1
        (le_succ_of_le_owners (owners_le_of_append hH)) (by rw [hL])⟩
  | swap this rhs =>
    simp only [Op.enabled, Bool.and_eq_true] at hen
    obtain ⟨a, ha⟩ := Option.isSome_iff_exists.mp hen.1
    obtain ⟨b, hb⟩ := Option.isSome_iff_exists.mp hen.2
    obtain ⟨s1, e, hinv1, hH, hL, -⟩ := swap_spec hinv ha hb
    refine ⟨s1, e, Preserved.of_same_heap hinv1 ?_ (by rw [hL])⟩
    intro c; rw [owners_eq_of_swap ha hb hH c]; omega
  | reset this =>
    obtain ⟨h, hh⟩ := Option.isSome_iff_exists.mp hen
    obtain ⟨s1, e, hinv1, hH, hL⟩ := reset_spec hinv hh
    exact ⟨s1, e, Preserved.of_same_heap hinv1 (owners_le_of_set hH) hL⟩
  | reset_ptr this p ok =>
    obtain ⟨h, hh⟩ := Option.isSome_iff_exists.mp hen
    exact reset_ptr_deleter_preserved p default_delete ok hinv hh
  | reset_ptr_deleter this p d ok =>
    obtain ⟨h, hh⟩ := Option.isSome_iff_exists.mp hen
    exact reset_ptr_deleter_preserved p d ok hinv hh
  | dtor this =>
    obtain ⟨h, hh⟩ := Option.isSome_iff_exists.mp hen
    obtain ⟨s1, e, hinv1, hH, hL⟩ := dtor_spec hinv hh
    exact ⟨s1, e, Preserved.of_same_heap hinv1 (owners_le_of_set hH) hL⟩

/-- An operation that names a handle outside its lifetime has undefined behaviour. -/
theorem step_eq_none {s : State} (op : Op) (hen : op.enabled s = false) :
    step s op = none := by
  cases op with
  | ctor_default => simp [Op.enabled] at hen
  | ctor_nullptr => simp [Op.enabled] at hen
  | ctor_ptr p ok => simp [Op.enabled] at hen
  | ctor_ptr_deleter p d ok => simp [Op.enabled] at hen
  | ctor_nullptr_deleter d ok => simp [Op.enabled] at hen
  | ctor_unique u ok => simp [Op.enabled] at hen
  | ctor_alias rhs p =>
    simp [Op.enabled] at hen
    simp [step, ctor_alias, hen]
  | ctor_copy rhs =>
    simp [Op.enabled] at hen
    simp [step, ctor_copy, get, hen]
  | ctor_move rhs =>
    simp [Op.enabled] at hen
    simp [step, ctor_move, hen]
  | assign_copy this rhs =>
    simp [Op.enabled] at hen
    cases ht : s.handle this with
    | none => simp [step, assign_copy, ht]
    | some t => simp [step, assign_copy, ht, ctor_copy, get, hen (by simp [ht])]
  | assign_move this rhs =>
    simp [Op.enabled] at hen
    cases ht : s.handle this with
    | none => simp [step, assign_move, ht]
    | some t => simp [step, assign_move, ht, ctor_move, hen (by simp [ht])]
  | assign_unique this u ok =>
    simp [Op.enabled] at hen
    simp [step, assign_unique, hen]
  | swap this rhs =>
    simp [Op.enabled] at hen
    cases ht : s.handle this with
    | none => simp [step, swap, ht]
    | some t => simp [step, swap, ht, hen (by simp [ht])]
  | reset this =>
    simp [Op.enabled] at hen
    simp [step, reset, decrement_use_count, hen]
  | reset_ptr this p ok =>
    simp [Op.enabled] at hen
    simp [step, reset_ptr, reset_ptr_deleter, hen]
  | reset_ptr_deleter this p d ok =>
    simp [Op.enabled] at hen
    simp [step, reset_ptr_deleter, hen]
  | dtor this =>
    simp [Op.enabled] at hen
    simp [step, dtor, decrement_use_count, hen]

/-! ## Reachable states -/

theorem step_preserved {s s1 : State} {op : Op} (hinv : Inv s) (hlim : s.below_limit = true)
    (h : step s op = some s1) :
    Preserved s s1 := by
  cases hen : op.enabled s with
  | false => rw [step_eq_none op hen] at h; cases h
  | true =>
    obtain ⟨s2, e, hp⟩ := step_spec op hinv hlim hen
    rw [e] at h; cases h; exact hp

/-- The invariant holds along every run whose operations start below the limit of the
counter. -/
theorem run_inv (ops : List Op) : ∀ (s s1 : State), Inv s → within_limit s ops = true →
    run s ops = some s1 → Inv s1 := by
  induction ops with
  | nil => intro s s1 hinv _ h; simp [run] at h; subst h; exact hinv
  | cons op ops ih =>
    intro s s1 hinv hlim h
    simp only [run] at h
    cases hs : step s op with
    | none => rw [hs] at h; cases h
    | some s2 =>
      rw [hs] at h
      simp only [within_limit, hs, Option.map_some', Option.getD_some, Bool.and_eq_true] at hlim
      exact ih s2 s1 (step_preserved hinv hlim.1 hs).inv hlim.2 h

theorem Inv.owners_eq_zero_of_block_none {s : State} {c : Nat} (hinv : Inv s)
    (hb : s.block c = none) : s.owners c = 0 := by
  by_contra hne
  have hpos : 0 < s.owners c := Nat.pos_of_ne_zero hne
  unfold State.owners at hpos
  rw [List.countP_pos_iff] at hpos
  obtain ⟨o, ho, hr⟩ := hpos
  obtain ⟨j, hj, rfl⟩ := List.getElem_of_mem ho
  cases hoj : s.handles[j] with
  | none => rw [hoj] at hr; simp [refersTo] at hr
  | some hv =>
    rw [hoj] at hr
    simp [refersTo] at hr
    have hlive : s.handle j = some hv := by
      rw [State.handle_eq_some_iff, List.getElem?_eq_getElem hj, hoj]
    have := hinv.no_dangling j hv _ hlive hr
    rw [hb] at this
    cases this

theorem released_of_preserved {s s1 : State} (hinv : Inv s) (hp : Preserved s s1) (c : Nat)
    (hlt : s.callsOn c < s1.callsOn c) :
    ∃ cb, s.block c = some cb ∧ cb.m_use_count = 1 ∧ s1.block c = none := by
  by_cases hc1 : c < s1.heap.length
  · have hd1 := hp.inv.destroyed c hc1
    cases hb1 : s1.block c with
    | some cb1 => rw [hb1] at hd1; simp at hd1; omega
    | none =>
      rw [hb1] at hd1
      simp at hd1
      by_cases hc : c < s.heap.length
      · have hd := hinv.destroyed c hc
        cases hb : s.block c with
        | none => rw [hb] at hd; simp at hd; omega
        | some cb =>
          refine ⟨cb, rfl, ?_, rfl⟩
          have h1 := hinv.counts c cb hb
          have h2 := hinv.owned c cb hb
          have h3 := hp.owners_drop c
          have h4 := hp.inv.owners_eq_zero_of_block_none hb1
          have h5 : s.owners c = 1 := by omega
          rw [h1, h5]; rfl
      · have := hp.fresh_live c (by omega) hc1
        rw [hb1] at this; cases this
  · have := hp.inv.unborn c (by omega)
    omega

/-! ## Construction from a raw pointer, on any state -/

theorem ctor_ptr_deleter_ok_eq (s : State) (p : Ptr) (d : Deleter) :
    ctor_ptr_deleter p d true s =
      some (.returned ((s.newBlock { m_deleter := ⟨d, p⟩ }).newHandle ⟨p, some s.heap.length⟩)) := by
  have hlive : (s.newHandle {}).handle s.handles.length = some {} := by
    simp [State.handle_newHandle]
  have hd : ∀ c, ({} : shared_ptr).m_ctrl = some c → c < (s.newHandle {}).heap.length := by
    intro c hc; cases hc
  simp only [ctor_ptr_deleter, reset_ptr_deleter_ok p d hlive hd, reset_empty hlive rfl,
    Option.map_some']
  congr 2
  apply State.ext_handle <;> simp [State.handle_setHandle, State.handle_newHandle]
  · intro j; split_ifs <;> simp_all
  · rfl

theorem ctor_ptr_deleter_fail_eq (s : State) (p : Ptr) (d : Deleter) :
    ctor_ptr_deleter p d false s =
      some (.threw (((s.newHandle {}).record ⟨none, d, p⟩).endLifetime s.handles.length)) := by
  have hlive : (s.newHandle {}).handle s.handles.length = some {} := by
    simp [State.handle_newHandle]
  simp only [ctor_ptr_deleter, reset_ptr_deleter_fail p d hlive]

/-- The destructor of a handle whose control block, if it has one, is alive: the only
deleter that can run is the one of that block, when the handle is its last owner. -/
theorem dtor_local {s : State} {i : Nat} {h : shared_ptr}
    (hh : s.handle i = some h) (hlive : ∀ c, h.m_ctrl = some c → (s.block c).isSome) :
    ∃ s1, dtor i s = some s1 ∧ s1.handles = s.handles.set i none ∧
      s1.heap.length = s.heap.length ∧
      (∀ k, h.m_ctrl ≠ some k → s1.block k = s.block k) ∧
      (s1.calls = s.calls ∨ ∃ c cb, h.m_ctrl = some c ∧ s.block c = some cb ∧
        cb.m_use_count = 1 ∧
        s1.calls = s.calls ++ [⟨some c, cb.m_deleter.d, cb.m_deleter.ptr⟩]) := by
  cases hc : h.m_ctrl with
  | none =>
    refine ⟨_, dtor_empty hh hc, rfl, rfl, fun k _ => rfl, Or.inl rfl⟩
  | some c =>
    obtain ⟨cb, hb⟩ := Option.isSome_iff_exists.mp (hlive c hc)
    by_cases h1 : cb.m_use_count = 1
    · refine ⟨_, dtor_last hh hc hb h1, rfl, by simp, ?_, Or.inr ⟨c, cb, rfl, hb, h1, rfl⟩⟩
      intro k hk
      have : k ≠ c := fun e => hk (by rw [e])
      simp [State.block_deleteBlock, this]
    · refine ⟨_, dtor_shared hh hc hb h1, rfl, by simp, ?_, Or.inl rfl⟩
      intro k hk
      have : k ≠ c := fun e => hk (by rw [e])
      simp [State.block_setBlock, this]

/-- The conversion from an exclusive-ownership handle, allocation succeeding. -/
theorem assign_unique_ok_local {s : State} {this : Nat} {t : shared_ptr} (u : unique_ptr)
    (hh : s.handle this = some t) (hlive : ∀ c, t.m_ctrl = some c → (s.block c).isSome) :
    ∃ s3, assign_unique this u true s = some (.returned s3, ⟨nullptr, u.m_deleter⟩) ∧
      s3.handles = s.handles.set this (some ⟨u.m_ptr, some s.heap.length⟩) ++ [none] ∧
      s3.block s.heap.length = some ⟨1, 1, ⟨u.m_deleter, u.m_ptr⟩⟩ ∧
      (s3.calls = s.calls ∨ ∃ c cb, t.m_ctrl = some c ∧ s.block c = some cb ∧
        cb.m_use_count = 1 ∧
        s3.calls = s.calls ++ [⟨some c, cb.m_deleter.d, cb.m_deleter.ptr⟩]) := by
  have hlt := State.handle_lt hh
  have hne : this ≠ s.handles.length := by omega
  have hne' : s.handles.length ≠ this := by omega
  have e1 := ctor_ptr_deleter_ok_eq s u.get u.get_deleter
  have htmp1 : ((s.newBlock { m_deleter := ⟨u.get_deleter, u.get⟩ }).newHandle
      ⟨u.get, some s.heap.length⟩).handle s.handles.length
      = some ⟨u.get, some s.heap.length⟩ := by
    simp [State.handle_newHandle]
  have hthis1 : ((s.newBlock { m_deleter := ⟨u.get_deleter, u.get⟩ }).newHandle
      ⟨u.get, some s.heap.length⟩).handle this = some t := by
    simp [State.handle_newHandle, hne, hh]
  have e2 := swap_eq htmp1 hthis1
  have htmp2 : ((((s.newBlock { m_deleter := ⟨u.get_deleter, u.get⟩ }).newHandle
      ⟨u.get, some s.heap.length⟩).setHandle s.handles.length t).setHandle this
      ⟨u.get, some s.heap.length⟩).handle s.handles.length = some t := by
    simp [State.handle_setHandle, State.handle_newHandle, hne']
  have hctrl : ∀ c, t.m_ctrl = some c → c ≠ s.heap.length := by
    intro c hc
    obtain ⟨cb, hb⟩ := Option.isSome_iff_exists.mp (hlive c hc)
    have := State.block_lt hb
    omega
  have hlive2 : ∀ c, t.m_ctrl = some c →
      (((((s.newBlock { m_deleter := ⟨u.get_deleter, u.get⟩ }).newHandle
      ⟨u.get, some s.heap.length⟩).setHandle s.handles.length t).setHandle this
      ⟨u.get, some s.heap.length⟩).block c).isSome := by
    intro c hc
    simp only [State.block_setHandle, State.block_newHandle, State.block_newBlock,
      hctrl c hc, if_false]
    exact hlive c hc
  obtain ⟨s3, e3, hH3, hL3, hB3, hC3⟩ := dtor_local htmp2 hlive2
  refine ⟨s3, ?_, ?_, ?_, ?_⟩
  · simp [assign_unique, hh, e1, e2, e3, unique_ptr.release]
  · rw [hH3]
    simp only [State.setHandle, State.newHandle, State.newBlock_handles]
    rw [set_append_last, List.set_append_left _ _ hlt, set_set_append_last]
    rfl
  · rw [hB3 s.heap.length (fun e => hctrl _ e rfl)]
    simp [State.block_newBlock, unique_ptr.get, unique_ptr.get_deleter]
  · rcases hC3 with hC | ⟨c, cb, hc, hb, h1, hC⟩
    · exact Or.inl hC
    · refine Or.inr ⟨c, cb, hc, ?_, h1, hC⟩
      simpa [State.block_newBlock, hctrl c hc] using hb

/-! ## What the operations do to the handles, whenever they are defined -/

theorem decrement_use_count_handles {s s1 : State} {i : Nat}
    (h : decrement_use_count i s = some s1) :
    s1.handles = s.handles ∧ ∃ hd, s.handle i = some hd := by
  unfold decrement_use_count at h
  cases hh : s.handle i with
  | none => simp [hh] at h
  | some hd =>
    refine ⟨?_, hd, rfl⟩
    simp only [hh, Option.bind_eq_bind, Option.some_bind] at h
    cases hc : hd.m_ctrl with
    | none => simp [hc] at h; subst h; rfl
    | some c =>
      simp only [hc] at h
      cases hb : s.block c with
      | none => simp [hb] at h
      | some cb =>
        simp only [hb, Option.some_bind] at h
        split_ifs at h <;> simp at h <;> subst h <;> rfl

theorem increment_use_count_handles {s s1 : State} {i : Nat}
    (h : increment_use_count i s = some s1) : s1.handles = s.handles := by
  unfold increment_use_count at h
  cases hh : s.handle i with
  | none => simp [hh] at h
  | some hd =>
    simp only [hh, Option.bind_eq_bind, Option.some_bind] at h
    cases hc : hd.m_ctrl with
    | none => simp [hc] at h; subst h; rfl
    | some c =>
      simp only [hc] at h
      cases hb : s.block c with
      | none => simp [hb] at h
      | some cb => simp [hb] at h; subst h; rfl

theorem ctor_alias_handles {s s1 : State} {rhs : Nat} {p : Ptr}
    (h : ctor_alias rhs p s = some s1) :
    ∃ r, s.handle rhs = some r ∧ s1.handles = s.handles ++ [some ⟨p, r.m_ctrl⟩] := by
  cases hr : s.handle rhs with
  | none => simp [ctor_alias, hr] at h
  | some r =>
    refine ⟨r, rfl, ?_⟩
    have h1 : (s.newHandle { m_ctrl := r.m_ctrl }).handle s.handles.length
        = some { m_ctrl := r.m_ctrl } := by simp [State.handle_newHandle]
    simp only [ctor_alias, hr, Option.bind_eq_bind, Option.some_bind] at h
    rw [set_m_ptr_eq p h1, Option.some_bind, State.newHandle_setHandle_last] at h
    rw [increment_use_count_handles h]; rfl

theorem ctor_copy_handles {s s1 : State} {rhs : Nat} (h : ctor_copy rhs s = some s1) :
    ∃ r, s.handle rhs = some r ∧ s1.handles = s.handles ++ [some r] := by
  cases hr : s.handle rhs with
  | none => simp [ctor_copy, get, hr] at h
  | some r =>
    rw [ctor_copy_eq hr] at h
    obtain ⟨r', hr', hH⟩ := ctor_alias_handles h
    rw [hr] at hr'; cases hr'
    exact ⟨r, rfl, hH⟩

theorem ctor_move_handles {s s1 : State} {rhs : Nat} (h : ctor_move rhs s = some s1) :
    ∃ r, s.handle rhs = some r ∧ s1.handles = s.handles.set rhs (some {}) ++ [some r] := by
  cases hr : s.handle rhs with
  | none => simp [ctor_move, hr] at h
  | some r =>
    rw [ctor_move_eq hr] at h; cases h
    exact ⟨r, rfl, rfl⟩

theorem swap_handles {s s1 : State} {this rhs : Nat} (h : swap this rhs s = some s1) :
    ∃ a b, s.handle this = some a ∧ s.handle rhs = some b ∧
      s1.handles = (s.handles.set this (some b)).set rhs (some a) := by
  cases ha : s.handle this with
  | none => simp [swap, ha] at h
  | some a =>
    cases hb : s.handle rhs with
    | none => simp [swap, ha, hb] at h
    | some b =>
      rw [swap_eq ha hb] at h; cases h
      exact ⟨a, b, rfl, rfl, rfl⟩

theorem reset_handles {s s1 : State} {i : Nat} (h : reset i s = some s1) :
    ∃ hd, s.handle i = some hd ∧ s1.handles = s.handles.set i (some {}) := by
  unfold reset at h
  cases hd : decrement_use_count i s with
  | none => simp [hd] at h
  | some s0 =>
    obtain ⟨hH, x, hx⟩ := decrement_use_count_handles hd
    have hx0 : s0.handle i = some x := by rw [State.handle_congr hH]; exact hx
    have hlt := State.handle_lt hx0
    refine ⟨x, hx, ?_⟩
    simp [hd, set_m_ctrl, set_m_ptr, hx0, State.handle_setHandle, hlt,
      State.setHandle_setHandle] at h
    subst h
    simp [State.setHandle, hH]

theorem dtor_handles {s s1 : State} {i : Nat} (h : dtor i s = some s1) :
    ∃ hd, s.handle i = some hd ∧ s1.handles = s.handles.set i none := by
  unfold dtor at h
  cases hd : decrement_use_count i s with
  | none => simp [hd] at h
  | some s0 =>
    obtain ⟨hH, x, hx⟩ := decrement_use_count_handles hd
    refine ⟨x, hx, ?_⟩
    simp [hd] at h
    subst h
    simp [State.endLifetime, hH]

theorem reset_ptr_deleter_handles {s : State} {i : Nat} {p : Ptr} {d : Deleter} {ok : Bool}
    {o : Outcome} (h : reset_ptr_deleter i p d ok s = some o) :
    ∃ hd, s.handle i = some hd ∧
      o.state.handles = if ok then s.handles.set i (some ⟨p, some s.heap.length⟩)
        else s.handles := by
  cases hh : s.handle i with
  | none => simp [reset_ptr_deleter, hh] at h
  | some hd =>
    refine ⟨hd, rfl, ?_⟩
    cases ok with
    | false =>
      rw [reset_ptr_deleter_fail p d hh] at h; cases h; rfl
    | true =>
      simp only [reset_ptr_deleter, hh, Option.isNone_some, Bool.false_eq_true, if_false,
        if_true, Option.bind_eq_bind] at h
      cases hr : reset i (s.newBlock { m_deleter := ⟨d, p⟩ }) with
      | none => simp [hr] at h
      | some s0 =>
        obtain ⟨x, hx, hH⟩ := reset_handles hr
        have hx0 : s0.handle i = some {} := by
          rw [State.handle_congr (t := s.setHandle i {}) hH, State.handle_setHandle]
          simp [State.handle_lt hh]
        have hlt := State.handle_lt hx0
        simp [hr, set_m_ctrl, set_m_ptr, hx0, State.handle_setHandle, hlt,
          State.setHandle_setHandle] at h
        subst h
        simp [Outcome.state, State.setHandle, hH]

theorem ctor_ptr_deleter_handles {s : State} {p : Ptr} {d : Deleter} {ok : Bool} {o : Outcome}
    (h : ctor_ptr_deleter p d ok s = some o) :
    o.state.handles = s.handles ++ [if ok then some ⟨p, some s.heap.length⟩ else none] := by
  cases ok with
  | true =>
    rw [ctor_ptr_deleter_ok_eq] at h; cases h; rfl
  | false =>
    rw [ctor_ptr_deleter_fail_eq] at h; cases h
    exact set_append_last s.handles (some {}) none []

theorem assign_copy_handles {s s3 : State} {this rhs : Nat}
    (h : assign_copy this rhs s = some s3) :
    ∃ t r, s.handle this = some t ∧ s.handle rhs = some r ∧
      s3.handles = s.handles.set this (some r) ++ [none] := by
  cases ht : s.handle this with
  | none => simp [assign_copy, ht] at h
  | some t =>
    have hlt := State.handle_lt ht
    simp only [assign_copy, ht, Option.bind_eq_bind, Option.some_bind] at h
    cases e1 : ctor_copy rhs s with
    | none => simp [e1] at h
    | some s1 =>
      obtain ⟨r, hr, hH1⟩ := ctor_copy_handles e1
      simp only [e1, Option.some_bind] at h
      cases e2 : swap s.handles.length this s1 with
      | none => simp [e2] at h
      | some s2 =>
        obtain ⟨a, b, ha, hb, hH2⟩ := swap_handles e2
        simp only [e2, Option.some_bind] at h
        obtain ⟨x, -, hH3⟩ := dtor_handles h
        have ha' : a = r := by
          have := handle_of_append_last hH1
          rw [ha] at this; exact Option.some.inj this
        have hb' : b = t := by
          rw [handle_of_append_lt hH1 hlt, ht] at hb; exact (Option.some.inj hb).symm
        subst ha' hb'
        refine ⟨b, a, rfl, hr, ?_⟩
        rw [hH3, hH2, hH1, set_append_last, List.set_append_left _ _ hlt, set_set_append_last]

theorem assign_move_handles {s s3 : State} {this rhs : Nat}
    (h : assign_move this rhs s = some s3) :
    ∃ t r, s.handle this = some t ∧ s.handle rhs = some r ∧
      s3.handles = (s.handles.set rhs (some {})).set this (some r) ++ [none] := by
  cases ht : s.handle this with
  | none => simp [assign_move, ht] at h
  | some t =>
    have hlt := State.handle_lt ht
    have hlt' : this < (s.handles.set rhs (some {})).length := by simpa using hlt
    have hlen1 : (s.handles.set rhs (some ({} : shared_ptr))).length = s.handles.length := by
      simp
    simp only [assign_move, ht, Option.bind_eq_bind, Option.some_bind] at h
    cases e1 : ctor_move rhs s with
    | none => simp [e1] at h
    | some s1 =>
      obtain ⟨r, hr, hH1⟩ := ctor_move_handles e1
      simp only [e1, Option.some_bind] at h
      cases e2 : swap s.handles.length this s1 with
      | none => simp [e2] at h
      | some s2 =>
        obtain ⟨a, b, ha, hb, hH2⟩ := swap_handles e2
        simp only [e2, Option.some_bind] at h
        obtain ⟨x, -, hH3⟩ := dtor_handles h
        have ha' : a = r := by
          have := handle_of_append_last (s := s.setHandle rhs {}) (t := s1) hH1
          simp only [State.setHandle_length] at this
          rw [ha] at this; exact Option.some.inj this
        subst ha'
        refine ⟨t, a, rfl, hr, ?_⟩
        rw [hH3, hH2, hH1]
        have e := set_append_last (s.handles.set rhs (some {})) (some a) (some b) []
        rw [hlen1] at e
        rw [e, List.set_append_left _ _ hlt']
        have e' := set_set_append_last (s.handles.set rhs (some {})) this (some a) (some b)
          none []
        rw [hlen1] at e'
        exact e'

theorem assign_unique_handles {s : State} {this : Nat} {u u1 : unique_ptr} {ok : Bool}
    {o : Outcome} (h : assign_unique this u ok s = some (o, u1)) :
    ∃ t, s.handle this = some t ∧
      (o.state.handles =
        if ok then s.handles.set this (some ⟨u.m_ptr, some s.heap.length⟩) ++ [none]
        else s.handles ++ [none]) ∧
      o = if ok then .returned o.state else .threw o.state := by
  cases ht : s.handle this with
  | none => simp [assign_unique, ht] at h
  | some t =>
    have hlt := State.handle_lt ht
    refine ⟨t, rfl, ?_⟩
    cases ok with
    | false =>
      simp [assign_unique, ht, ctor_ptr_deleter_fail_eq] at h
      obtain ⟨h1, -⟩ := h
      subst h1
      exact ⟨set_append_last s.handles (some {}) none [], rfl⟩
    | true =>
      simp only [assign_unique, ht, Option.isNone_some, Bool.false_eq_true, if_false,
        ctor_ptr_deleter_ok_eq, Option.bind_eq_bind] at h
      cases e2 : swap s.handles.length this
          ((s.newBlock { m_deleter := ⟨u.get_deleter, u.get⟩ }).newHandle
            ⟨u.get, some s.heap.length⟩) with
      | none => simp [e2] at h
      | some s2 =>
        obtain ⟨a, b, ha, hb, hH2⟩ := swap_handles e2
        simp only [e2, Option.some_bind] at h
        cases e3 : dtor s.handles.length s2 with
        | none => simp [e3] at h
        | some s3 =>
          obtain ⟨x, -, hH3⟩ := dtor_handles e3
          simp [e3] at h
          obtain ⟨h1, -⟩ := h
          subst h1
          have ha' : a = ⟨u.m_ptr, some s.heap.length⟩ := by
            simp [State.handle_newHandle] at ha; exact ha.symm
          subst ha'
          refine ⟨?_, rfl⟩
          simp only [Outcome.state, if_true]
          rw [hH3, hH2]
          simp only [State.newHandle, State.newBlock_handles]
          rw [set_append_last, List.set_append_left _ _ hlt, set_set_append_last]

theorem ctor_unique_handles {s : State} {u u1 : unique_ptr} {ok : Bool}
    {o : Outcome} (h : ctor_unique u ok s = some (o, u1)) :
    o.state.handles =
      s.handles ++ [if ok then some ⟨u.m_ptr, some s.heap.length⟩ else none, none] := by
  unfold ctor_unique at h
  cases e : assign_unique s.handles.length u ok (s.newHandle {}) with
  | none => simp [e] at h
  | some r =>
    obtain ⟨o1, u2⟩ := r
    obtain ⟨t, ht, hH, hO⟩ := assign_unique_handles e
    cases o1 with
    | returned s1 =>
      simp [e] at h
      obtain ⟨h1, -⟩ := h
      subst h1
      cases ok with
      | false => simp at hO
      | true =>
        simp only [Outcome.state, if_true, State.newHandle, State.newHandle_heap] at hH ⊢
        rw [hH, set_append_last]
        simp
    | threw s1 =>
      simp [e] at h
      obtain ⟨h1, -⟩ := h
      subst h1
      cases ok with
      | true => simp at hO
      | false =>
        simp only [Outcome.state, State.endLifetime, State.newHandle, Bool.false_eq_true,
          if_false] at hH ⊢
        rw [hH]
        simp only [List.append_assoc, List.singleton_append]
        rw [set_append_last]

/-! ## The handle invariant -/

theorem wf_slots_append {l t : List (Option shared_ptr)} :
    wf_slots (l ++ t) ↔ wf_slots l ∧ wf_slots t := by
  unfold wf_slots
  constructor
  · intro h
    exact ⟨fun x hx => h x (List.mem_append.mpr (Or.inl hx)),
      fun x hx => h x (List.mem_append.mpr (Or.inr hx))⟩
  · rintro ⟨h1, h2⟩ x hx
    rcases List.mem_append.mp hx with hx | hx
    · exact h1 x hx
    · exact h2 x hx

theorem wf_slots_set {l : List (Option shared_ptr)} {i : Nat} {x : Option shared_ptr}
    (hl : wf_slots l) (hx : ∀ h, x = some h → h.wf) : wf_slots (l.set i x) := by
  intro h hh
  rcases List.mem_or_eq_of_mem_set hh with hm | he
  · exact hl h hm
  · exact hx h he.symm

theorem wf_slots_one {x : Option shared_ptr} (hx : ∀ h, x = some h → h.wf) :
    wf_slots [x] := by
  intro h hh
  simp only [List.mem_singleton] at hh
  exact hx h hh.symm

theorem wf_slots_two {x y : Option shared_ptr} (hx : ∀ h, x = some h → h.wf)
    (hy : ∀ h, y = some h → h.wf) : wf_slots [x, y] := by
  intro h hh
  simp only [List.mem_cons, List.mem_singleton, List.not_mem_nil, or_false] at hh
  rcases hh with hh | hh
  · exact hx h hh.symm
  · exact hy h hh.symm

theorem State.handles_wf_iff (s : State) :
    s.handles_wf ↔ ∀ i h, s.handle i = some h → h.m_ctrl = none → h.m_ptr = nullptr := by
  unfold State.handles_wf wf_slots shared_ptr.wf
  constructor
  · intro hw i h hh
    have := State.handle_eq_some_iff.mp hh
    exact hw h (List.getElem?_mem this)
  · intro hw h hm
    obtain ⟨i, hi, he⟩ := List.getElem_of_mem hm
    apply hw i h
    rw [State.handle_eq_some_iff, List.getElem?_eq_getElem hi, he]

theorem State.wf_of_handle {s : State} {i : Nat} {h : shared_ptr} (hw : s.handles_wf)
    (hh : s.handle i = some h) : h.wf :=
  (s.handles_wf_iff.mp hw) i h hh

theorem wf_some {h : shared_ptr} (hw : h.wf) : ∀ x, some h = some x → x.wf := by
  intro x hx; cases hx; exact hw

theorem wf_none : ∀ x : shared_ptr, (none : Option shared_ptr) = some x → x.wf := by
  intro x hx; cases hx

theorem wf_empty : ({} : shared_ptr).wf := fun _ => rfl

theorem wf_owner (p : Ptr) (c : Nat) : (⟨p, some c⟩ : shared_ptr).wf := by
  intro h; cases h

theorem wf_ite (ok : Bool) (p : Ptr) (c : Nat) :
    ∀ x : shared_ptr, (if ok then some (⟨p, some c⟩ : shared_ptr) else none) = some x → x.wf := by
  intro x hx
  cases ok with
  | true => simp at hx; subst hx; exact wf_owner p c
  | false => simp at hx

/-- Every public operation keeps the handle invariant, the aliasing constructor under its
restriction. -/
theorem step_handles_wf {s s1 : State} {op : Op} (hw : s.handles_wf)
    (hg : op.alias_guarded s = true) (h : step s op = some s1) : s1.handles_wf := by
  unfold State.handles_wf
  cases op with
  | ctor_default =>
    simp only [step, ctor_default, pure, Option.some.injEq] at h; subst h
    exact wf_slots_append.mpr ⟨hw, wf_slots_one (wf_some wf_empty)⟩
  | ctor_nullptr =>
    simp only [step, ctor_nullptr, pure, Option.some.injEq] at h; subst h
    exact wf_slots_append.mpr ⟨hw, wf_slots_one (wf_some wf_empty)⟩
  | ctor_ptr p ok =>
    simp only [step, ctor_ptr, Option.map_eq_some'] at h
    obtain ⟨o, ho, rfl⟩ := h
    rw [ctor_ptr_deleter_handles ho]
    exact wf_slots_append.mpr ⟨hw, wf_slots_one (wf_ite ok p _)⟩
  | ctor_ptr_deleter p d ok =>
    simp only [step, Option.map_eq_some'] at h
    obtain ⟨o, ho, rfl⟩ := h
    rw [ctor_ptr_deleter_handles ho]
    exact wf_slots_append.mpr ⟨hw, wf_slots_one (wf_ite ok p _)⟩
  | ctor_nullptr_deleter d ok =>
    simp only [step, Option.map_eq_some'] at h
    obtain ⟨o, ho, rfl⟩ := h
    have ho' : ctor_ptr_deleter nullptr d ok s = some o := ho
    rw [ctor_ptr_deleter_handles ho']
    exact wf_slots_append.mpr ⟨hw, wf_slots_one (wf_ite ok nullptr _)⟩
  | ctor_alias rhs p =>
    obtain ⟨r, hr, hH⟩ := ctor_alias_handles h
    rw [hH]
    refine wf_slots_append.mpr ⟨hw, wf_slots_one (wf_some ?_)⟩
    intro hc
    simp only [Op.alias_guarded, hr, Option.some_bind, Bool.or_eq_true, decide_eq_true_eq] at hg
    rcases hg with hg | hg
    · exact hg
    · simp only at hc; rw [hc] at hg; cases hg
  | ctor_copy rhs =>
    obtain ⟨r, hr, hH⟩ := ctor_copy_handles h
    rw [hH]
    exact wf_slots_append.mpr ⟨hw, wf_slots_one (wf_some (State.wf_of_handle hw hr))⟩
  | ctor_move rhs =>
    obtain ⟨r, hr, hH⟩ := ctor_move_handles h
    rw [hH]
    exact wf_slots_append.mpr ⟨wf_slots_set hw (wf_some wf_empty),
      wf_slots_one (wf_some (State.wf_of_handle hw hr))⟩
  | ctor_unique u ok =>
    simp only [step, Option.map_eq_some'] at h
    obtain ⟨⟨o, u1⟩, ho, rfl⟩ := h
    rw [ctor_unique_handles ho]
    exact wf_slots_append.mpr ⟨hw, wf_slots_two (wf_ite ok u.m_ptr _) wf_none⟩
  | assign_copy this rhs =>
    obtain ⟨t, r, ht, hr, hH⟩ := assign_copy_handles h
    rw [hH]
    exact wf_slots_append.mpr ⟨wf_slots_set hw (wf_some (State.wf_of_handle hw hr)),
      wf_slots_one wf_none⟩
  | assign_move this rhs =>
    obtain ⟨t, r, ht, hr, hH⟩ := assign_move_handles h
    rw [hH]
    exact wf_slots_append.mpr ⟨wf_slots_set (wf_slots_set hw (wf_some wf_empty))
      (wf_some (State.wf_of_handle hw hr)), wf_slots_one wf_none⟩
  | assign_unique this u ok =>
    simp only [step, Option.map_eq_some'] at h
    obtain ⟨⟨o, u1⟩, ho, rfl⟩ := h
    obtain ⟨t, ht, hH, -⟩ := assign_unique_handles ho
    rw [hH]
    cases ok with
    | true =>
      exact wf_slots_append.mpr ⟨wf_slots_set hw (wf_some (wf_owner _ _)), wf_slots_one wf_none⟩
    | false => exact wf_slots_append.mpr ⟨hw, wf_slots_one wf_none⟩
  | swap this rhs =>
    obtain ⟨a, b, ha, hb, hH⟩ := swap_handles h
    rw [hH]
    exact wf_slots_set (wf_slots_set hw (wf_some (State.wf_of_handle hw hb)))
      (wf_some (State.wf_of_handle hw ha))
  | reset this =>
    obtain ⟨x, hx, hH⟩ := reset_handles h
    rw [hH]
    exact wf_slots_set hw (wf_some wf_empty)
  | reset_ptr this p ok =>
    simp only [step, reset_ptr, Option.map_eq_some'] at h
    obtain ⟨o, ho, rfl⟩ := h
    obtain ⟨x, hx, hH⟩ := reset_ptr_deleter_handles ho
    rw [hH]
    cases ok with
    | true => exact wf_slots_set hw (wf_some (wf_owner _ _))
    | false => exact hw
  | reset_ptr_deleter this p d ok =>
    simp only [step, Option.map_eq_some'] at h
    obtain ⟨o, ho, rfl⟩ := h
    obtain ⟨x, hx, hH⟩ := reset_ptr_deleter_handles ho
    rw [hH]
    cases ok with
    | true => exact wf_slots_set hw (wf_some (wf_owner _ _))
    | false => exact hw
  | dtor this =>
    obtain ⟨x, hx, hH⟩ := dtor_handles h
    rw [hH]
    exact wf_slots_set hw wf_none

/-! ## Many owners of one block -/

theorem run_cons (s : State) (op : Op) (ops : List Op) :
    run s (op :: ops) = (step s op).bind (fun s1 => run s1 ops) := rfl

theorem run_cons_of_step {s s1 : State} {op : Op} {ops : List Op} {r : Option State}
    (h : step s op = some s1) (h2 : run s1 ops = r) : run s (op :: ops) = r := by
  rw [run_cons, h]; exact h2

theorem run_append (ops1 ops2 : List Op) : ∀ s : State,
    run s (ops1 ++ ops2) = (run s ops1).bind (fun s1 => run s1 ops2) := by
  induction ops1 with
  | nil => intro s; rfl
  | cons op ops ih =>
    intro s
    rw [List.cons_append, run_cons, run_cons]
    cases step s op with
    | none => rfl
    | some s1 => exact ih s1

theorem many_owners_length (n : Nat) : (many_owners n).handles.length = n := by
  simp [many_owners]

theorem many_owners_handle {n i : Nat} (h : i < n) :
    (many_owners n).handle i = some ⟨7, some 0⟩ := by
  simp [many_owners, State.handle, List.getElem?_replicate, h]

theorem many_owners_block (n : Nat) :
    (many_owners n).block 0 = some ⟨atomic_int.of n, 1, ⟨3, 7⟩⟩ := rfl

theorem many_owners_owners (n : Nat) : (many_owners n).owners 0 = n := by
  simp [many_owners, State.owners, List.countP_replicate, refersTo]

theorem many_owners_use_count {n : Nat} (h : 0 < n) :
    use_count 0 (many_owners n) = some (atomic_int.of n).val := by
  simp [use_count, many_owners_handle h, many_owners_block]

theorem many_owners_succ (n : Nat) :
    ((many_owners n).setBlock 0 ⟨atomic_int.of n + 1, 1, ⟨3, 7⟩⟩).newHandle ⟨7, some 0⟩
      = many_owners (n + 1) := by
  have h : atomic_int.of (n : Int) + 1 = atomic_int.of ((n + 1 : Nat) : Int) := by
    rw [atomic_int.of_add_one]; rfl
  simp [many_owners, State.setBlock, State.newHandle, List.replicate_succ', h]

/-- One more copy of the first of `n` owners. -/
theorem many_owners_copy {n : Nat} (h : 0 < n) :
    ctor_copy 0 (many_owners n) = some (many_owners (n + 1)) := by
  have hh := many_owners_handle h
  have hc : (⟨7, some 0⟩ : shared_ptr).m_ctrl = some 0 := rfl
  rw [ctor_copy_eq hh, ctor_alias_owner _ hh hc (many_owners_block n)]
  exact congrArg some (many_owners_succ n)

/-- Copying the first of `j` owners `m` times over. -/
theorem many_owners_run (m : Nat) : ∀ j k : Nat, 0 < j → k = j + m →
    run (many_owners j) (List.replicate m (.ctor_copy 0)) = some (many_owners k) := by
  induction m with
  | zero => intro j k _ hk; subst hk; rfl
  | succ m ih =>
    intro j k hj hk
    rw [List.replicate_succ, run_cons]
    have e : step (many_owners j) (.ctor_copy 0) = some (many_owners (j + 1)) :=
      many_owners_copy hj
    rw [e]
    exact ih (j + 1) k (Nat.succ_pos j) (by omega)

theorem run_append_of {s s1 : State} {ops1 ops2 : List Op} {r : Option State}
    (h : run s ops1 = some s1) (h2 : run s1 ops2 = r) : run s (ops1 ++ ops2) = r := by
  rw [run_append, h]; exact h2

theorem run_single (s : State) (op : Op) : run s [op] = step s op := by
  rw [run_cons]
  cases step s op <;> rfl

/-- The release of one of `n` owners whose counter holds `1`. -/
theorem many_owners_dtor_last {n : Nat} (h : 0 < n) (h1 : atomic_int.of (n : Int) = 1) :
    dtor 0 (many_owners n)
      = some ((((many_owners n).record ⟨some 0, 3, 7⟩).deleteBlock 0).endLifetime 0) := by
  have hc : (⟨7, some 0⟩ : shared_ptr).m_ctrl = some 0 := rfl
  exact dtor_last (many_owners_handle h) hc (many_owners_block n) h1

/-- All but one of `n` owners are left when one has been released. -/
theorem many_owners_released_owners {n : Nat} (h : 0 < n) (e : DeleterCall) :
    ((((many_owners n).record e).deleteBlock 0).endLifetime 0).owners 0 + 1 = n := by
  have hh : (((many_owners n).record e).deleteBlock 0).handle 0 = some ⟨7, some 0⟩ :=
    many_owners_handle h
  have := State.owners_endLifetime 0 hh
  simp only [if_true] at this
  rw [this]
  exact many_owners_owners n

/-! ## The claims -/

/-- In a state reached within the limit of the counter every operation on live handles is
defined: no such sequence of operations makes a later operation dereference a deleted
control block. -/
theorem reachable_step_defined (ops : List Op) (s : State) (op : Op)
    (hrun : run State.init ops = some s) (hlim : within_limit State.init ops = true)
    (hlast : s.below_limit = true) (hen : op.enabled s = true) :
    (step s op).isSome := by
  obtain ⟨s1, e, -⟩ := step_spec op (run_inv ops _ _ Inv.init hlim hrun) hlast hen
  rw [e]; rfl

/-- C2, as stated, fails: after the construction of one handle and `4294967296` copies of
it the counter of control block `0` has wrapped around to `1`; destroying one handle then
takes it from `1` to `0`, so that `delete_controlled_object()` has been invoked and the
block deleted while `4294967296` live handles still refer to it. -/
theorem deleter_runs_while_owners_remain :
    run State.init (.ctor_ptr_deleter 7 3 true ::
        (List.replicate 4294967296 (.ctor_copy 0) ++ [.dtor 0]))
      = some ((((many_owners 4294967297).record ⟨some 0, 3, 7⟩).deleteBlock 0).endLifetime 0) ∧
    (many_owners 4294967297).owners 0 = 4294967297 ∧
    (many_owners 4294967297).block 0 = some ⟨atomic_int.of 4294967297, 1, ⟨3, 7⟩⟩ ∧
    atomic_int.of 4294967297 = 1 ∧
    ((((many_owners 4294967297).record ⟨some 0, 3, 7⟩).deleteBlock 0).endLifetime 0).callsOn 0
      = 1 ∧
    ((((many_owners 4294967297).record ⟨some 0, 3, 7⟩).deleteBlock 0).endLifetime 0).block 0
      = none ∧
    ((((many_owners 4294967297).record ⟨some 0, 3, 7⟩).deleteBlock 0).endLifetime 0).owners 0
      = 4294967296 := by
  have h1 : step State.init (.ctor_ptr_deleter 7 3 true) = some (many_owners 1) := by decide
  have h2 := many_owners_run 4294967296 1 4294967297 (by decide) (by decide)
  have h3 : step (many_owners 4294967297) (.dtor 0) = _ :=
    many_owners_dtor_last (n := 4294967297) (by decide) (by decide)
  have h4 := many_owners_released_owners (n := 4294967297) (by decide) ⟨some 0, 3, 7⟩
  refine ⟨run_cons_of_step h1 (run_append_of h2 ((run_single _ _).trans h3)),
    many_owners_owners _, many_owners_block _, by decide, rfl, rfl, by omega⟩

/-- C2, amended: in every state reached by a finite sequence of operations each of which
starts in a state where every control block has fewer than `4294967296` live owners,
`delete_controlled_object()` has been invoked at most once on every control block ever
created, and exactly once precisely when no live handle refers to the block; across any
further operation that starts below that limit an invocation on a block happens only if the
block had `m_use_count == 1` before and is deleted after; and `decrement_use_count`
invokes it exactly when it takes `m_use_count` from 1 to 0. -/
theorem deleter_invoked_once_at_last_release (ops : List Op) (s : State)
    (hrun : run State.init ops = some s) (hlim : within_limit State.init ops = true) :
    (∀ c, c < s.heap.length → s.callsOn c ≤ 1 ∧ (s.owners c = 0 ↔ s.callsOn c = 1)) ∧
    (s.below_limit = true → ∀ op s1 c, step s op = some s1 → s.callsOn c < s1.callsOn c →
      ∃ cb, s.block c = some cb ∧ cb.m_use_count = 1 ∧ s1.block c = none) ∧
    (∀ this h c cb, s.handle this = some h → h.m_ctrl = some c → s.block c = some cb →
      ∃ s1, decrement_use_count this s = some s1 ∧
        s1.callsOn c = s.callsOn c + (if cb.m_use_count - 1 = 0 then 1 else 0) ∧
        (∀ k, k ≠ c → s1.callsOn k = s.callsOn k) ∧
        s1.block c = (if cb.m_use_count - 1 = 0 then none
          else some { cb with m_use_count := cb.m_use_count - 1 }) ∧
        (cb.m_use_count - 1 = 0 ↔ cb.m_use_count = 1)) := by
  have hinv := run_inv ops _ _ Inv.init hlim hrun
  refine ⟨?_, ?_, ?_⟩
  · intro c hc
    have hd := hinv.destroyed c hc
    cases hb : s.block c with
    | none =>
      rw [hb] at hd
      simp at hd
      have := hinv.owners_eq_zero_of_block_none hb
      omega
    | some cb =>
      rw [hb] at hd
      simp at hd
      have h1 := hinv.counts c cb hb
      have h2 := hinv.owned c cb hb
      omega
  · intro hlast op s1 c hs hlt
    exact released_of_preserved hinv (step_preserved hinv hlast hs) c hlt
  · intro this h c cb hh hc hb
    have hclt := State.block_lt hb
    by_cases h1 : cb.m_use_count = 1
    · have h0 : cb.m_use_count - 1 = 0 := (atomic_int.sub_one_eq_zero_iff _).2 h1
      refine ⟨_, decrement_use_count_last hh hc hb h1, ?_, ?_, ?_,
        atomic_int.sub_one_eq_zero_iff _⟩
      · simp [State.callsOn_record, h0]
      · intro k hk
        have : ¬ c = k := fun e => hk e.symm
        simp [State.callsOn_record, this]
      · simp [State.block_deleteBlock, h0]
    · have h0 : ¬ cb.m_use_count - 1 = 0 :=
        fun e => h1 ((atomic_int.sub_one_eq_zero_iff _).1 e)
      refine ⟨_, decrement_use_count_shared hh hc hb h1, ?_, ?_, ?_,
        atomic_int.sub_one_eq_zero_iff _⟩
      · simp [h0]
      · intro k _; simp
      · simp [State.block_setBlock, hclt, h0]

/-- Witness of C2: construct, copy, destroy both handles. -/
theorem deleter_invoked_once_at_last_release_witness :
    (run State.init [.ctor_ptr_deleter 7 3 true, .ctor_copy 0, .dtor 0, .dtor 1]
      = some released_state ∧
      within_limit State.init [.ctor_ptr_deleter 7 3 true, .ctor_copy 0, .dtor 0, .dtor 1]
        = true) ∧
    ((∀ c, c < released_state.heap.length →
        released_state.callsOn c ≤ 1 ∧
          (released_state.owners c = 0 ↔ released_state.callsOn c = 1)) ∧
      (released_state.below_limit = true → ∀ op s1 c, step released_state op = some s1 →
        released_state.callsOn c < s1.callsOn c →
        ∃ cb, released_state.block c = some cb ∧ cb.m_use_count = 1 ∧ s1.block c = none) ∧
      (∀ this h c cb, released_state.handle this = some h → h.m_ctrl = some c →
        released_state.block c = some cb →
        ∃ s1, decrement_use_count this released_state = some s1 ∧
          s1.callsOn c = released_state.callsOn c + (if cb.m_use_count - 1 = 0 then 1 else 0) ∧
          (∀ k, k ≠ c → s1.callsOn k = released_state.callsOn k) ∧
          s1.block c = (if cb.m_use_count - 1 = 0 then none
            else some { cb with m_use_count := cb.m_use_count - 1 }) ∧
          (cb.m_use_count - 1 = 0 ↔ cb.m_use_count = 1))) :=
  ⟨⟨by decide, by decide⟩, deleter_invoked_once_at_last_release
    [.ctor_ptr_deleter 7 3 true, .ctor_copy 0, .dtor 0, .dtor 1] released_state (by decide)
    (by decide)⟩

/-- C3: move-constructing a new handle from any live handle `h`, empty or not, leaves the
heap of control blocks (every counter) and the deleter record unchanged, gives the new
handle the exposed pointer and control block `h` had, and leaves `h` with
`get() == nullptr` and `use_count() == 0`; no other handle changes. -/
theorem move_construct_transfers (s : State) (rhs : Nat) (h : shared_ptr)
    (hh : s.handle rhs = some h) :
    ∃ s1, ctor_move rhs s = some s1 ∧
      s1.heap = s.heap ∧ s1.calls = s.calls ∧
      s1.handle s.handles.length = some h ∧
      get s.handles.length s1 = some h.m_ptr ∧
      s1.handle rhs = some ⟨nullptr, none⟩ ∧
      get rhs s1 = some nullptr ∧ use_count rhs s1 = some 0 ∧
      ∀ j, j ≠ rhs → j ≠ s.handles.length → s1.handle j = s.handle j := by
  have hlt := State.handle_lt hh
  have hne : rhs ≠ s.handles.length := by omega
  have hnew : ((s.setHandle rhs {}).newHandle h).handle s.handles.length = some h := by
    simp [State.handle_newHandle]
  have hold : ((s.setHandle rhs {}).newHandle h).handle rhs = some ⟨nullptr, none⟩ := by
    simp [State.handle_newHandle, State.handle_setHandle, hne, hlt]
  refine ⟨_, ctor_move_eq hh, rfl, rfl, hnew, get_eq hnew, hold, get_eq hold,
    use_count_empty hold rfl, ?_⟩
  intro j h1 h2
  simp [State.handle_newHandle, State.handle_setHandle, h1, h2]

/-- Witness of C3: moving from the sole owner of a block. -/
theorem move_construct_transfers_witness :
    owner_state.handle 0 = some ⟨7, some 0⟩ ∧
    ∃ s1, ctor_move 0 owner_state = some s1 ∧
      s1.heap = owner_state.heap ∧ s1.calls = owner_state.calls ∧
      s1.handle owner_state.handles.length = some ⟨7, some 0⟩ ∧
      get owner_state.handles.length s1 = some 7 ∧
      s1.handle 0 = some ⟨nullptr, none⟩ ∧
      get 0 s1 = some nullptr ∧ use_count 0 s1 = some 0 ∧
      ∀ j, j ≠ 0 → j ≠ owner_state.handles.length → s1.handle j = owner_state.handle j :=
  ⟨by decide, move_construct_transfers owner_state 0 ⟨7, some 0⟩ (by decide)⟩

/-- C4, as stated, fails.  Aliasing construction from an empty handle (no control block)
with pointer `5` leaves the source's `use_count()` at `0`, not at `0 + 1`.  And aliasing
construction from one of `2147483647` owners of a block, whose `use_count()` is
`2147483647`, makes the counter wrap around: `use_count()` is then `-2147483648`, not
`2147483647 + 1`. -/
theorem alias_from_empty_keeps_use_count :
    (use_count 0 empty_state = some 0 ∧
      ctor_alias 0 5 empty_state = some ⟨[some {}, some ⟨5, none⟩], [], []⟩ ∧
      use_count 0 ⟨[some {}, some ⟨5, none⟩], [], []⟩ = some 0 ∧
      (0 : Int) ≠ 0 + 1) ∧
    (use_count 0 (many_owners 2147483647) = some 2147483647 ∧
      ctor_alias 0 9 (many_owners 2147483647)
        = some (((many_owners 2147483647).setBlock 0
            ⟨atomic_int.of 2147483647 + 1, 1, ⟨3, 7⟩⟩).newHandle ⟨9, some 0⟩) ∧
      use_count 0 (((many_owners 2147483647).setBlock 0
          ⟨atomic_int.of 2147483647 + 1, 1, ⟨3, 7⟩⟩).newHandle ⟨9, some 0⟩)
        = some (-2147483648) ∧
      (-2147483648 : Int) ≠ 2147483647 + 1) := by
  have hh : (many_owners 2147483647).handle 0 = some ⟨7, some 0⟩ :=
    many_owners_handle (by decide)
  have hc : (⟨7, some 0⟩ : shared_ptr).m_ctrl = some 0 := rfl
  have hlen : 0 ≠ (many_owners 2147483647).handles.length := by
    rw [many_owners_length]; decide
  have hh1 : (((many_owners 2147483647).setBlock 0
      ⟨atomic_int.of 2147483647 + 1, 1, ⟨3, 7⟩⟩).newHandle ⟨9, some 0⟩).handle 0
      = some ⟨7, some 0⟩ := by
    rw [State.handle_newHandle, if_neg (by simpa using hlen)]
    exact hh
  have hb1 : (((many_owners 2147483647).setBlock 0
      ⟨atomic_int.of 2147483647 + 1, 1, ⟨3, 7⟩⟩).newHandle ⟨9, some 0⟩).block 0
      = some ⟨atomic_int.of 2147483647 + 1, 1, ⟨3, 7⟩⟩ := rfl
  refine ⟨by decide, ?_, ctor_alias_owner 9 hh hc (many_owners_block 2147483647), ?_,
    by decide⟩
  · exact (many_owners_use_count (n := 2147483647) (by decide)).trans (by decide)
  · exact (use_count_owner hh1 hc hb1).trans (by decide)

/-- C4, amended: for a live handle `h` whose control block (if it has one) is alive, the
aliasing construction `(h, p)` is defined, the new handle's `get()` returns `p` whatever
`h.get()` is, and it shares `h`'s control block; when `h` has a control block its `int`
counter is incremented by one, so that `h.use_count()` after is `h.use_count()` before
plus 1, except that from `2147483647` it wraps around to `-2147483648`; when `h` is empty
`h.use_count()` stays as it was (`0`); no other block and no deleter is touched. -/
theorem alias_construct_increments (s : State) (rhs : Nat) (p : Ptr) (h : shared_ptr)
    (hh : s.handle rhs = some h) (hlive : ∀ c, h.m_ctrl = some c → (s.block c).isSome) :
    ∃ s1 n, ctor_alias rhs p s = some s1 ∧
      use_count rhs s = some n ∧
      use_count rhs s1 = some (if h.m_ctrl.isSome then
        (if n = 2147483647 then -2147483648 else n + 1) else n) ∧
      (h.m_ctrl = none → n = 0) ∧
      get s.handles.length s1 = some p ∧
      s1.handle s.handles.length = some ⟨p, h.m_ctrl⟩ ∧
      (∀ c cb, h.m_ctrl = some c → s.block c = some cb →
        s1.block c = some { cb with m_use_count := cb.m_use_count + 1 }) ∧
      (∀ k, h.m_ctrl ≠ some k → s1.block k = s.block k) ∧
      s1.calls = s.calls := by
  have hlt := State.handle_lt hh
  have hne : rhs ≠ s.handles.length := by omega
  cases hc : h.m_ctrl with
  | none =>
    have hnew : (s.newHandle ⟨p, none⟩).handle s.handles.length = some ⟨p, none⟩ := by
      simp [State.handle_newHandle]
    have hold : (s.newHandle ⟨p, none⟩).handle rhs = some h := by
      simp [State.handle_newHandle, hne, hh]
    refine ⟨_, 0, ctor_alias_empty p hh hc, use_count_empty hh hc, ?_, fun _ => rfl,
      get_eq hnew, hnew, (fun c cb e => by cases e), fun k _ => rfl, rfl⟩
    simpa using use_count_empty hold hc
  | some c =>
    have hb0 := hlive c hc
    obtain ⟨cb, hb⟩ := Option.isSome_iff_exists.mp hb0
    have hclt := State.block_lt hb
    have hnew : ((s.setBlock c { cb with m_use_count := cb.m_use_count + 1 }).newHandle
        ⟨p, some c⟩).handle s.handles.length = some ⟨p, some c⟩ := by
      simp [State.handle_newHandle]
    have hold : ((s.setBlock c { cb with m_use_count := cb.m_use_count + 1 }).newHandle
        ⟨p, some c⟩).handle rhs = some h := by
      simp [State.handle_newHandle, hne, hh]
    have hblk : ((s.setBlock c { cb with m_use_count := cb.m_use_count + 1 }).newHandle
        ⟨p, some c⟩).block c = some { cb with m_use_count := cb.m_use_count + 1 } := by
      simp [State.block_setBlock, hclt]
    refine ⟨_, cb.m_use_count.val, ctor_alias_owner p hh hc hb, use_count_owner hh hc hb, ?_,
      (fun e => by cases e), get_eq hnew, hnew, ?_, ?_, rfl⟩
    · rw [use_count_owner hold hc hblk]
      simp [atomic_int.val_add_one_eq]
    · intro c2 cb2 e hb2
      cases e
      rw [hb] at hb2; cases hb2
      exact hblk
    · intro k hk
      have : k ≠ c := fun e => hk (by rw [e])
      simp [State.block_setBlock, this]

/-- Witness of C4, amended: aliasing the sole owner of a block with pointer `9`. -/
theorem alias_construct_increments_witness :
    (owner_state.handle 0 = some ⟨7, some 0⟩ ∧
      ∀ c, (⟨7, some 0⟩ : shared_ptr).m_ctrl = some c → (owner_state.block c).isSome) ∧
    ∃ s1 n, ctor_alias 0 9 owner_state = some s1 ∧
      use_count 0 owner_state = some n ∧
      use_count 0 s1 = some (if (⟨7, some 0⟩ : shared_ptr).m_ctrl.isSome then
        (if n = 2147483647 then -2147483648 else n + 1) else n) ∧
      ((⟨7, some 0⟩ : shared_ptr).m_ctrl = none → n = 0) ∧
      get owner_state.handles.length s1 = some 9 ∧
      s1.handle owner_state.handles.length = some ⟨9, some 0⟩ ∧
      (∀ c cb, (⟨7, some 0⟩ : shared_ptr).m_ctrl = some c → owner_state.block c = some cb →
        s1.block c = some { cb with m_use_count := cb.m_use_count + 1 }) ∧
      (∀ k, (⟨7, some 0⟩ : shared_ptr).m_ctrl ≠ some k → s1.block k = owner_state.block k) ∧
      s1.calls = owner_state.calls :=
  ⟨⟨by decide, fun c hc => by cases hc; decide⟩,
    alias_construct_increments owner_state 0 9 ⟨7, some 0⟩ (by decide)
      (fun c hc => by cases hc; decide)⟩

/-- C5, as stated, fails: in a state whose only handle is empty (and satisfies the handle
invariant), the aliasing constructor with pointer `5` produces a handle with
`m_ctrl == nullptr` and `m_ptr == 5`. -/
theorem alias_from_empty_breaks_handle_invariant :
    (∀ i h, empty_state.handle i = some h → h.m_ctrl = none → h.m_ptr = nullptr) ∧
    step empty_state (.ctor_alias 0 5) = some ⟨[some {}, some ⟨5, none⟩], [], []⟩ ∧
    (⟨[some {}, some ⟨5, none⟩], [], []⟩ : State).handle 1 = some ⟨5, none⟩ ∧
    (⟨5, none⟩ : shared_ptr).m_ctrl = none ∧ (⟨5, none⟩ : shared_ptr).m_ptr ≠ nullptr := by
  refine ⟨?_, by decide, by decide, rfl, by decide⟩
  intro i h hh _
  have hlt := State.handle_lt hh
  have : i = 0 := by simpa [empty_state] using hlt
  subst this
  cases hh
  rfl

/-- C5, amended: if every live handle satisfies `m_ctrl == nullptr → m_ptr == nullptr`,
then so does every live handle after any public constructor, assignment, `reset` or
`swap`, the aliasing constructor `(rhs, p)` included when `p` is null or `rhs` has a
control block. -/
theorem handle_invariant_preserved (s s1 : State) (op : Op)
    (hw : ∀ i h, s.handle i = some h → h.m_ctrl = none → h.m_ptr = nullptr)
    (hg : op.alias_guarded s = true) (h : step s op = some s1) :
    ∀ i h, s1.handle i = some h → h.m_ctrl = none → h.m_ptr = nullptr :=
  (State.handles_wf_iff s1).mp (step_handles_wf ((State.handles_wf_iff s).mpr hw) hg h)

/-- Witness of C5, amended: aliasing the sole owner of a block with pointer `9`. -/
theorem handle_invariant_preserved_witness :
    ((∀ i h, owner_state.handle i = some h → h.m_ctrl = none → h.m_ptr = nullptr) ∧
      (Op.ctor_alias 0 9).alias_guarded owner_state = true ∧
      step owner_state (.ctor_alias 0 9) = some alias_state) ∧
    ∀ i h, alias_state.handle i = some h → h.m_ctrl = none → h.m_ptr = nullptr :=
  have hw : ∀ i h, owner_state.handle i = some h → h.m_ctrl = none → h.m_ptr = nullptr := by
    intro i h hh hc
    have hlt := State.handle_lt hh
    have : i = 0 := by simpa [owner_state] using hlt
    subst this
    cases hh
    cases hc
  ⟨⟨hw, by decide, by decide⟩,
    handle_invariant_preserved owner_state alias_state (.ctor_alias 0 9) hw (by decide)
      (by decide)⟩

/-- C7: in any state and for every deleter `d`, constructing a handle from the null pointer
and `d`, the allocation succeeding, yields a handle with `get() == nullptr` and
`use_count() == 1` that owns a live control block with both counters `1`, without any
deleter call; destroying that handle invokes `d` on the null pointer exactly once (one
call is added to the record) and deletes the control block. -/
theorem null_pointer_construct_then_destroy (s : State) (d : Deleter) :
    ∃ s1, ctor_ptr_deleter nullptr d true s = some (.returned s1) ∧
      ctor_nullptr_deleter d true s = some (.returned s1) ∧
      get s.handles.length s1 = some nullptr ∧
      use_count s.handles.length s1 = some 1 ∧
      s1.handle s.handles.length = some ⟨nullptr, some s.heap.length⟩ ∧
      s1.block s.heap.length = some ⟨1, 1, ⟨d, nullptr⟩⟩ ∧
      s1.calls = s.calls ∧
      ∃ s2, dtor s.handles.length s1 = some s2 ∧
        s2.calls = s.calls ++ [⟨some s.heap.length, d, nullptr⟩] ∧
        s2.block s.heap.length = none ∧ s2.handle s.handles.length = none := by
  have hnew : ((s.newBlock { m_deleter := ⟨d, nullptr⟩ }).newHandle
      ⟨nullptr, some s.heap.length⟩).handle s.handles.length
      = some ⟨nullptr, some s.heap.length⟩ := by
    simp [State.handle_newHandle]
  have hblk : ((s.newBlock { m_deleter := ⟨d, nullptr⟩ }).newHandle
      ⟨nullptr, some s.heap.length⟩).block s.heap.length = some ⟨1, 1, ⟨d, nullptr⟩⟩ := by
    simp [State.block_newBlock]
  refine ⟨_, ctor_ptr_deleter_ok_eq s nullptr d, ctor_ptr_deleter_ok_eq s nullptr d,
    get_eq hnew, use_count_owner hnew rfl hblk, hnew, hblk, rfl, ?_⟩
  refine ⟨_, dtor_last hnew rfl hblk rfl, rfl, ?_, ?_⟩
  · simp [State.block_deleteBlock]
  · simp [State.handle_endLifetime]

/-- C8: converting an exclusive-ownership handle `u` (pointer `q`, deleter `d`, `q`
possibly null), the allocation succeeding, leaves `u` empty, so that destroying `u`
does nothing, and makes the shared handle an owner with `get() == q` and
`use_count() == 1`.  The constructor runs no deleter at all; the assignment, on a live
handle whose control block (if it has one) is alive, runs at most the deleter bound to
that previously held block, when the handle was its last owner, and never `d` on `q`. -/
theorem unique_ptr_conversion_sole_owner (s : State) (u : unique_ptr) :
    (∃ s3, ctor_unique u true s = some (.returned s3, ⟨nullptr, u.m_deleter⟩) ∧
      get s.handles.length s3 = some u.m_ptr ∧
      use_count s.handles.length s3 = some 1 ∧
      s3.calls = s.calls ∧
      unique_ptr.dtor ⟨nullptr, u.m_deleter⟩ s3 = s3) ∧
    (∀ this t, s.handle this = some t → (∀ c, t.m_ctrl = some c → (s.block c).isSome) →
      ∃ s3, assign_unique this u true s = some (.returned s3, ⟨nullptr, u.m_deleter⟩) ∧
        get this s3 = some u.m_ptr ∧
        use_count this s3 = some 1 ∧
        (s3.calls = s.calls ∨ ∃ c cb, t.m_ctrl = some c ∧ s.block c = some cb ∧
          cb.m_use_count = 1 ∧
          s3.calls = s.calls ++ [⟨some c, cb.m_deleter.d, cb.m_deleter.ptr⟩]) ∧
        unique_ptr.dtor ⟨nullptr, u.m_deleter⟩ s3 = s3) := by
  have key : ∀ (s : State) (this : Nat) (t : shared_ptr), s.handle this = some t →
      (∀ c, t.m_ctrl = some c → (s.block c).isSome) →
      ∃ s3, assign_unique this u true s = some (.returned s3, ⟨nullptr, u.m_deleter⟩) ∧
        get this s3 = some u.m_ptr ∧
        use_count this s3 = some 1 ∧
        (s3.calls = s.calls ∨ ∃ c cb, t.m_ctrl = some c ∧ s.block c = some cb ∧
          cb.m_use_count = 1 ∧
          s3.calls = s.calls ++ [⟨some c, cb.m_deleter.d, cb.m_deleter.ptr⟩]) ∧
        unique_ptr.dtor ⟨nullptr, u.m_deleter⟩ s3 = s3 := by
    intro s this t hh hlive
    have hlt := State.handle_lt hh
    obtain ⟨s3, e, hH, hB, hC⟩ := assign_unique_ok_local u hh hlive
    have hthis : s3.handle this = some ⟨u.m_ptr, some s.heap.length⟩ := by
      have := handle_of_append_lt
        (s := s.setHandle this ⟨u.m_ptr, some s.heap.length⟩) (t := s3) (j := this) hH
        (by simpa using hlt)
      rw [this, State.handle_setHandle]
      simp [hlt]
    exact ⟨s3, e, get_eq hthis, use_count_owner hthis rfl hB, hC, by simp [unique_ptr.dtor]⟩
  refine ⟨?_, key s⟩
  have hlive0 : (s.newHandle {}).handle s.handles.length = some {} := by
    simp [State.handle_newHandle]
  obtain ⟨s3, e, hg, hu, hC, hd⟩ := key (s.newHandle {}) s.handles.length {} hlive0
    (by intro c hc; cases hc)
  refine ⟨s3, ?_, hg, hu, ?_, hd⟩
  · simp only [ctor_unique, e]
  · rcases hC with hC | ⟨c, cb, hc, -⟩
    · exact hC
    · cases hc

/-- Witness of C8: the conversion constructor in the empty program, and the conversion
assignment to the sole owner of a block. -/
theorem unique_ptr_conversion_sole_owner_witness :
    (∃ s3, ctor_unique ⟨5, 4⟩ true State.init = some (.returned s3, ⟨nullptr, 4⟩) ∧
      get 0 s3 = some 5 ∧ use_count 0 s3 = some 1 ∧ s3.calls = [] ∧
      unique_ptr.dtor ⟨nullptr, 4⟩ s3 = s3) ∧
    (owner_state.handle 0 = some ⟨7, some 0⟩ ∧
      ∀ c, (⟨7, some 0⟩ : shared_ptr).m_ctrl = some c → (owner_state.block c).isSome) ∧
    ∃ s3, assign_unique 0 ⟨5, 4⟩ true owner_state = some (.returned s3, ⟨nullptr, 4⟩) ∧
      get 0 s3 = some 5 ∧ use_count 0 s3 = some 1 ∧
      (s3.calls = owner_state.calls ∨ ∃ c cb, (⟨7, some 0⟩ : shared_ptr).m_ctrl = some c ∧
        owner_state.block c = some cb ∧ cb.m_use_count = 1 ∧
        s3.calls = owner_state.calls ++ [⟨some c, cb.m_deleter.d, cb.m_deleter.ptr⟩]) ∧
      unique_ptr.dtor ⟨nullptr, 4⟩ s3 = s3 :=
  ⟨(unique_ptr_conversion_sole_owner State.init ⟨5, 4⟩).1,
    ⟨by decide, fun c hc => by cases hc; decide⟩,
    (unique_ptr_conversion_sole_owner owner_state ⟨5, 4⟩).2 0 ⟨7, some 0⟩ (by decide)
      (fun c hc => by cases hc; decide)⟩

/-- C9: when the allocation of the control block fails inside `reset(p, d)` on a live
handle, `d` is invoked exactly once on `p` (one call, made directly, is added to the
record), the exception leaves the function, and every handle and every control block is
exactly as before the call; the same holds for `reset(p)` with the default deleter, and
for the raw-pointer constructors, which in any state leave no handle alive in the slot
under construction. -/
theorem allocation_failure_runs_deleter_once (s : State) (this : Nat) (p : Ptr) (d : Deleter)
    (h : shared_ptr)
    (hh : s.handle this = some h) :
    (∃ s1, reset_ptr_deleter this p d false s = some (.threw s1) ∧
      s1.handles = s.handles ∧ s1.heap = s.heap ∧ s1.calls = s.calls ++ [⟨none, d, p⟩]) ∧
    (∃ s1, reset_ptr this p false s = some (.threw s1) ∧
      s1.handles = s.handles ∧ s1.heap = s.heap ∧
      s1.calls = s.calls ++ [⟨none, default_delete, p⟩]) ∧
    (∃ s1, ctor_ptr_deleter p d false s = some (.threw s1) ∧
      s1.handles = s.handles ++ [none] ∧ s1.heap = s.heap ∧
      s1.calls = s.calls ++ [⟨none, d, p⟩]) ∧
    (∃ s1, ctor_ptr p false s = some (.threw s1) ∧
      s1.handles = s.handles ++ [none] ∧ s1.heap = s.heap ∧
      s1.calls = s.calls ++ [⟨none, default_delete, p⟩]) := by
  have hset : ∀ x : Option shared_ptr,
      (s.handles ++ [some ({} : shared_ptr)]).set s.handles.length x = s.handles ++ [x] :=
    fun x => set_append_last s.handles (some {}) x []
  refine ⟨⟨_, reset_ptr_deleter_fail p d hh, rfl, rfl, rfl⟩,
    ⟨_, reset_ptr_deleter_fail p default_delete hh, rfl, rfl, rfl⟩,
    ⟨_, ctor_ptr_deleter_fail_eq s p d, ?_, rfl, rfl⟩,
    ⟨_, ctor_ptr_deleter_fail_eq s p default_delete, ?_, rfl, rfl⟩⟩
  · exact hset none
  · exact hset none

/-- Witness of C9: a failed `reset(5, 4)` on the sole owner of a block. -/
theorem allocation_failure_runs_deleter_once_witness :
    owner_state.handle 0 = some ⟨7, some 0⟩ ∧
    ((∃ s1, reset_ptr_deleter 0 5 4 false owner_state = some (.threw s1) ∧
      s1.handles = owner_state.handles ∧ s1.heap = owner_state.heap ∧
      s1.calls = owner_state.calls ++ [⟨none, 4, 5⟩]) ∧
    (∃ s1, reset_ptr 0 5 false owner_state = some (.threw s1) ∧
      s1.handles = owner_state.handles ∧ s1.heap = owner_state.heap ∧
      s1.calls = owner_state.calls ++ [⟨none, default_delete, 5⟩]) ∧
    (∃ s1, ctor_ptr_deleter 5 4 false owner_state = some (.threw s1) ∧
      s1.handles = owner_state.handles ++ [none] ∧ s1.heap = owner_state.heap ∧
      s1.calls = owner_state.calls ++ [⟨none, 4, 5⟩]) ∧
    (∃ s1, ctor_ptr 5 false owner_state = some (.threw s1) ∧
      s1.handles = owner_state.handles ++ [none] ∧ s1.heap = owner_state.heap ∧
      s1.calls = owner_state.calls ++ [⟨none, default_delete, 5⟩])) :=
  ⟨by decide, allocation_failure_runs_deleter_once owner_state 0 5 4 ⟨7, some 0⟩ (by decide)⟩

/-- C10, evaluated at the failing input: `u` owns object `7` with deleter `3` and the
allocation fails.  The conversion constructor (in the empty program) and the conversion
assignment (to an empty handle) both run the deleter on `7` and throw, leaving `u` still
owning `7`; destroying `u` afterwards runs the deleter on `7` a second time. -/
theorem unique_conversion_failure_deletes_twice :
    ctor_unique ⟨7, 3⟩ false State.init
      = some (.threw ⟨[none, none], [], [⟨none, 3, 7⟩]⟩, ⟨7, 3⟩) ∧
    (unique_ptr.dtor ⟨7, 3⟩ ⟨[none, none], [], [⟨none, 3, 7⟩]⟩).calls
      = [⟨none, 3, 7⟩, ⟨none, 3, 7⟩] ∧
    assign_unique 0 ⟨7, 3⟩ false empty_state
      = some (.threw ⟨[some {}, none], [], [⟨none, 3, 7⟩]⟩, ⟨7, 3⟩) ∧
    (unique_ptr.dtor ⟨7, 3⟩ ⟨[some {}, none], [], [⟨none, 3, 7⟩]⟩).calls
      = [⟨none, 3, 7⟩, ⟨none, 3, 7⟩] := by
  decide

/-! ## The claims, continued -/

/-- C12: for live handles `a` and `b`, `a == b` is the comparison of `a.get()` with
`b.get()` and `a != b` is its negation; `a == nullptr`, and `nullptr == a`, is the
comparison of `a.get()` with the null pointer, and the two `!=` are the negations.  The
results are the same in any other state, whatever the control blocks and counters, in
which the two handles expose the same pointers. -/
theorem comparison_by_exposed_pointer (s : State) (a b : Nat) (x y : shared_ptr)
    (ha : s.handle a = some x) (hb : s.handle b = some y) :
    operator_eq a b s = some (decide (x.m_ptr = y.m_ptr)) ∧
    operator_ne a b s = some (!decide (x.m_ptr = y.m_ptr)) ∧
    operator_eq_nullptr a s = some (decide (x.m_ptr = nullptr)) ∧
    nullptr_operator_eq a s = some (decide (x.m_ptr = nullptr)) ∧
    operator_ne_nullptr a s = some (!decide (x.m_ptr = nullptr)) ∧
    nullptr_operator_ne a s = some (!decide (x.m_ptr = nullptr)) ∧
    (operator_eq a b s = some true ↔ get a s = get b s) ∧
    (operator_eq_nullptr a s = some true ↔ get a s = some nullptr) ∧
    (nullptr_operator_eq a s = some true ↔ get a s = some nullptr) ∧
    (∀ (t : State) (u v : shared_ptr), t.handle a = some u → t.handle b = some v →
      u.m_ptr = x.m_ptr → v.m_ptr = y.m_ptr →
      operator_eq a b t = operator_eq a b s ∧ operator_ne a b t = operator_ne a b s ∧
      operator_eq_nullptr a t = operator_eq_nullptr a s ∧
      nullptr_operator_eq a t = nullptr_operator_eq a s ∧
      operator_ne_nullptr a t = operator_ne_nullptr a s ∧
      nullptr_operator_ne a t = nullptr_operator_ne a s) := by
  refine ⟨?_, ?_, ?_, ?_, ?_, ?_, ?_, ?_, ?_, ?_⟩
  · simp [operator_eq, get, ha, hb]
  · simp [operator_ne, get, ha, hb]
  · simp [operator_eq_nullptr, get, ha]
  · simp [nullptr_operator_eq, get, ha]
  · simp [operator_ne_nullptr, get, ha]
  · simp [nullptr_operator_ne, get, ha]
  · simp [operator_eq, get, ha, hb]
  · simp [operator_eq_nullptr, get, ha]
  · simp [nullptr_operator_eq, get, ha]
  · intro t u v hu hv e1 e2
    simp [operator_eq, operator_ne, operator_eq_nullptr, nullptr_operator_eq,
      operator_ne_nullptr, nullptr_operator_ne, get, ha, hb, hu, hv, e1, e2]

/-- Witness of C12: two aliasing handles of different owners that expose the same
pointer `9`. -/
theorem comparison_by_exposed_pointer_witness :
    (two_alias_state.handle 2 = some ⟨9, some 0⟩ ∧
      two_alias_state.handle 3 = some ⟨9, some 1⟩) ∧
    (operator_eq 2 3 two_alias_state
        = some (decide ((⟨9, some 0⟩ : shared_ptr).m_ptr = (⟨9, some 1⟩ : shared_ptr).m_ptr)) ∧
    operator_ne 2 3 two_alias_state
        = some (!decide ((⟨9, some 0⟩ : shared_ptr).m_ptr = (⟨9, some 1⟩ : shared_ptr).m_ptr)) ∧
    operator_eq_nullptr 2 two_alias_state
        = some (decide ((⟨9, some 0⟩ : shared_ptr).m_ptr = nullptr)) ∧
    nullptr_operator_eq 2 two_alias_state
        = some (decide ((⟨9, some 0⟩ : shared_ptr).m_ptr = nullptr)) ∧
    operator_ne_nullptr 2 two_alias_state
        = some (!decide ((⟨9, some 0⟩ : shared_ptr).m_ptr = nullptr)) ∧
    nullptr_operator_ne 2 two_alias_state
        = some (!decide ((⟨9, some 0⟩ : shared_ptr).m_ptr = nullptr)) ∧
    (operator_eq 2 3 two_alias_state = some true ↔
      get 2 two_alias_state = get 3 two_alias_state) ∧
    (operator_eq_nullptr 2 two_alias_state = some true ↔
      get 2 two_alias_state = some nullptr) ∧
    (nullptr_operator_eq 2 two_alias_state = some true ↔
      get 2 two_alias_state = some nullptr) ∧
    (∀ (t : State) (u v : shared_ptr), t.handle 2 = some u → t.handle 3 = some v →
      u.m_ptr = (⟨9, some 0⟩ : shared_ptr).m_ptr → v.m_ptr = (⟨9, some 1⟩ : shared_ptr).m_ptr →
      operator_eq 2 3 t = operator_eq 2 3 two_alias_state ∧
      operator_ne 2 3 t = operator_ne 2 3 two_alias_state ∧
      operator_eq_nullptr 2 t = operator_eq_nullptr 2 two_alias_state ∧
      nullptr_operator_eq 2 t = nullptr_operator_eq 2 two_alias_state ∧
      operator_ne_nullptr 2 t = operator_ne_nullptr 2 two_alias_state ∧
      nullptr_operator_ne 2 t = nullptr_operator_ne 2 two_alias_state)) :=
  ⟨⟨by decide, by decide⟩,
    comparison_by_exposed_pointer two_alias_state 2 3 ⟨9, some 0⟩ ⟨9, some 1⟩ (by decide)
      (by decide)⟩

/-- C14: for live handles `a` and `b`, the same handle included, `a.swap(b)` is defined,
gives `a` the pair `(m_ptr, m_ctrl)` of `b` and `b` the pair of `a`, changes no other
handle, leaves the heap of control blocks (every counter) unchanged and invokes no
deleter. -/
theorem swap_exchanges_fields (s : State) (a b : Nat) (x y : shared_ptr)
    (ha : s.handle a = some x) (hb : s.handle b = some y) :
    ∃ s1, swap a b s = some s1 ∧
      s1.handle a = some y ∧ s1.handle b = some x ∧
      (∀ j, j ≠ a → j ≠ b → s1.handle j = s.handle j) ∧
      s1.handles.length = s.handles.length ∧
      s1.heap = s.heap ∧ s1.calls = s.calls := by
  have h1 := State.handle_lt ha
  have h2 := State.handle_lt hb
  refine ⟨_, swap_eq ha hb, ?_, ?_, ?_, by simp, rfl, rfl⟩
  · by_cases e : a = b
    · subst e
      rw [ha] at hb; cases hb
      simp [State.handle_setHandle, h1]
    · simp [State.handle_setHandle, h1, h2, e]
  · simp [State.handle_setHandle, h1, h2]
  · intro j ja jb
    simp [State.handle_setHandle, ja, jb]

/-- Witness of C14: swapping the two owners of `two_alias_state`. -/
theorem swap_exchanges_fields_witness :
    (two_alias_state.handle 0 = some ⟨7, some 0⟩ ∧
      two_alias_state.handle 1 = some ⟨8, some 1⟩) ∧
    ∃ s1, swap 0 1 two_alias_state = some s1 ∧
      s1.handle 0 = some ⟨8, some 1⟩ ∧ s1.handle 1 = some ⟨7, some 0⟩ ∧
      (∀ j, j ≠ 0 → j ≠ 1 → s1.handle j = two_alias_state.handle j) ∧
      s1.handles.length = two_alias_state.handles.length ∧
      s1.heap = two_alias_state.heap ∧ s1.calls = two_alias_state.calls :=
  ⟨⟨by decide, by decide⟩,
    swap_exchanges_fields two_alias_state 0 1 ⟨7, some 0⟩ ⟨8, some 1⟩ (by decide) (by decide)⟩

/-- C20: for every live handle `h`, the move self-assignment `h = std::move(h)` is defined
and leaves `h`, `h.get()` and `h.use_count()` unchanged, leaves the heap of control blocks
(every counter) unchanged and invokes no deleter; the temporary is gone and no other
handle changes. -/
theorem move_self_assign_unchanged (s : State) (this : Nat) (h : shared_ptr)
    (hh : s.handle this = some h) :
    ∃ s1, assign_move this this s = some s1 ∧
      s1.handle this = some h ∧
      get this s1 = get this s ∧ use_count this s1 = use_count this s ∧
      (∀ j, j ≠ s.handles.length → s1.handle j = s.handle j) ∧
      s1.handle s.handles.length = none ∧
      s1.heap = s.heap ∧ s1.calls = s.calls := by
  have hlt := State.handle_lt hh
  have hne : this ≠ s.handles.length := by omega
  have hne' : s.handles.length ≠ this := by omega
  have e1 := ctor_move_eq hh
  have htmp1 : ((s.setHandle this {}).newHandle h).handle s.handles.length = some h := by
    simp [State.handle_newHandle]
  have hthis1 : ((s.setHandle this {}).newHandle h).handle this = some {} := by
    simp [State.handle_newHandle, State.handle_setHandle, hne, hlt]
  have e2 := swap_eq htmp1 hthis1
  have htmp2 : ((((s.setHandle this {}).newHandle h).setHandle s.handles.length {}).setHandle
      this h).handle s.handles.length = some {} := by
    simp [State.handle_setHandle, State.handle_newHandle, hne']
  have e3 := dtor_empty htmp2 rfl
  have hfin : ∀ j, j ≠ s.handles.length →
      (((((s.setHandle this {}).newHandle h).setHandle s.handles.length {}).setHandle
      this h).endLifetime s.handles.length).handle j = s.handle j := by
    intro j hj
    simp only [State.handle_endLifetime, State.handle_setHandle, State.handle_newHandle,
      State.setHandle_length, State.newHandle_length, hj, if_false, false_and]
    by_cases e : j = this
    · subst e; simp [hlt, hh]; omega
    · simp [e]
  have hthis := hfin this hne
  rw [hh] at hthis
  refine ⟨_, ?_, hthis, ?_, ?_, hfin, ?_, rfl, rfl⟩
  · simp only [assign_move, hh, e1, e2, e3, Option.bind_eq_bind, Option.some_bind]
  · rw [get_eq hthis, get_eq hh]
  · simp only [use_count, hthis, hh]
    rfl
  · simp [State.handle_endLifetime]

/-- Witness of C20: move self-assignment of the sole owner of a block. -/
theorem move_self_assign_unchanged_witness :
    owner_state.handle 0 = some ⟨7, some 0⟩ ∧
    ∃ s1, assign_move 0 0 owner_state = some s1 ∧
      s1.handle 0 = some ⟨7, some 0⟩ ∧
      get 0 s1 = get 0 owner_state ∧ use_count 0 s1 = use_count 0 owner_state ∧
      (∀ j, j ≠ owner_state.handles.length → s1.handle j = owner_state.handle j) ∧
      s1.handle owner_state.handles.length = none ∧
      s1.heap = owner_state.heap ∧ s1.calls = owner_state.calls :=
  ⟨by decide, move_self_assign_unchanged owner_state 0 ⟨7, some 0⟩ (by decide)⟩

/-! ## Releasing a control block, on any state -/

/-- What `decrement_use_count` does on a live handle whose control block, if it has one,
is alive. -/
theorem decrement_use_count_local {s : State} {i : Nat} {h : shared_ptr}
    (hh : s.handle i = some h) (hlive : ∀ c, h.m_ctrl = some c → (s.block c).isSome) :
    ∃ s1, decrement_use_count i s = some s1 ∧ s1.handles = s.handles ∧
      s1.heap.length = s.heap.length ∧
      (∀ k, h.m_ctrl ≠ some k → s1.block k = s.block k) ∧
      (∀ c cb, h.m_ctrl = some c → s.block c = some cb →
        s1.block c = (if cb.m_use_count = 1 then none
          else some { cb with m_use_count := cb.m_use_count - 1 }) ∧
        s1.calls = s.calls ++
          (if cb.m_use_count = 1 then [⟨some c, cb.m_deleter.d, cb.m_deleter.ptr⟩] else [])) ∧
      (h.m_ctrl = none → s1.heap = s.heap ∧ s1.calls = s.calls) := by
  cases hc : h.m_ctrl with
  | none =>
    refine ⟨_, decrement_use_count_empty hh hc, rfl, rfl, fun k _ => rfl, ?_, fun _ => ⟨rfl, rfl⟩⟩
    intro c cb hc2; cases hc2
  | some c =>
    obtain ⟨cb, hb⟩ := Option.isSome_iff_exists.mp (hlive c hc)
    have hclt := State.block_lt hb
    by_cases h1 : cb.m_use_count = 1
    · refine ⟨_, decrement_use_count_last hh hc hb h1, rfl, by simp, ?_, ?_, ?_⟩
      · intro k hk
        have : k ≠ c := fun e => hk (by rw [e])
        simp [State.block_deleteBlock, this]
      · intro c2 cb2 hc2 hb2
        cases hc2
        rw [hb] at hb2; cases hb2
        simp [State.block_deleteBlock, h1]
      · intro e; cases e
    · refine ⟨_, decrement_use_count_shared hh hc hb h1, rfl, by simp, ?_, ?_, ?_⟩
      · intro k hk
        have : k ≠ c := fun e => hk (by rw [e])
        simp [State.block_setBlock, this]
      · intro c2 cb2 hc2 hb2
        cases hc2
        rw [hb] at hb2; cases hb2
        simp [State.block_setBlock, hclt, h1]
      · intro e; cases e

theorem reset_eq_decrement {s : State} {i : Nat} {h : shared_ptr} (hh : s.handle i = some h) :
    reset i s = (decrement_use_count i s).map (fun s1 => s1.setHandle i {}) := by
  unfold reset
  cases hd : decrement_use_count i s with
  | none => simp
  | some s1 =>
    obtain ⟨hH, -⟩ := decrement_use_count_handles hd
    have hs1 : s1.handle i = some h := by rw [State.handle_congr hH]; exact hh
    have hlt1 := State.handle_lt hs1
    simp [set_m_ctrl, set_m_ptr, hs1, State.handle_setHandle, hlt1, State.setHandle_setHandle]

theorem dtor_eq_decrement (s : State) (i : Nat) :
    dtor i s = (decrement_use_count i s).map (fun s1 => s1.endLifetime i) := by
  unfold dtor
  cases decrement_use_count i s <;> rfl

/-- The destructor on a live handle whose control block, if it has one, is alive. -/
theorem dtor_release {s : State} {i : Nat} {h : shared_ptr}
    (hh : s.handle i = some h) (hlive : ∀ c, h.m_ctrl = some c → (s.block c).isSome) :
    ∃ s1, dtor i s = some s1 ∧ s1.handle i = none ∧
      (∀ j, j ≠ i → s1.handle j = s.handle j) ∧
      s1.handles = s.handles.set i none ∧
      (∀ k, h.m_ctrl ≠ some k → s1.block k = s.block k) ∧
      (∀ c cb, h.m_ctrl = some c → s.block c = some cb →
        s1.block c = (if cb.m_use_count = 1 then none
          else some { cb with m_use_count := cb.m_use_count - 1 }) ∧
        s1.calls = s.calls ++
          (if cb.m_use_count = 1 then [⟨some c, cb.m_deleter.d, cb.m_deleter.ptr⟩] else [])) ∧
      (h.m_ctrl = none → s1.heap = s.heap ∧ s1.calls = s.calls) := by
  obtain ⟨s0, e0, hH, hL, hB, hC, hE⟩ := decrement_use_count_local hh hlive
  refine ⟨s0.endLifetime i, ?_, ?_, ?_, ?_, hB, hC, hE⟩
  · rw [dtor_eq_decrement, e0]; rfl
  · simp [State.handle_endLifetime]
  · intro j hj
    simp only [State.handle_endLifetime, hj, if_false]
    exact State.handle_congr hH j
  · simp [State.endLifetime, hH]

/-- The member `reset()` on a live handle whose control block, if it has one, is alive. -/
theorem reset_release {s : State} {i : Nat} {h : shared_ptr}
    (hh : s.handle i = some h) (hlive : ∀ c, h.m_ctrl = some c → (s.block c).isSome) :
    ∃ s1, reset i s = some s1 ∧ s1.handle i = some ⟨nullptr, none⟩ ∧
      (∀ j, j ≠ i → s1.handle j = s.handle j) ∧
      (∀ k, h.m_ctrl ≠ some k → s1.block k = s.block k) ∧
      (∀ c cb, h.m_ctrl = some c → s.block c = some cb →
        s1.block c = (if cb.m_use_count = 1 then none
          else some { cb with m_use_count := cb.m_use_count - 1 }) ∧
        s1.calls = s.calls ++
          (if cb.m_use_count = 1 then [⟨some c, cb.m_deleter.d, cb.m_deleter.ptr⟩] else [])) ∧
      (h.m_ctrl = none → s1.heap = s.heap ∧ s1.calls = s.calls) := by
  have hlt := State.handle_lt hh
  obtain ⟨s0, e0, hH, hL, hB, hC, hE⟩ := decrement_use_count_local hh hlive
  have hlt0 : i < s0.handles.length := by rw [hH]; exact hlt
  refine ⟨s0.setHandle i {}, ?_, ?_, ?_, hB, hC, hE⟩
  · rw [reset_eq_decrement hh, e0]; rfl
  · simp [State.handle_setHandle, hlt0]
  · intro j hj
    simp only [State.handle_setHandle, hj, false_and, if_false]
    exact State.handle_congr hH j

/-- Destroying the last owner of a block runs the deleter bound to the block. -/
theorem last_owner_release {s : State} {j n : Nat} {y : shared_ptr}
    {cb : shared_ptr_control_block}
    (hj : s.handle j = some y) (hy : y.m_ctrl = some n) (hb : s.block n = some cb)
    (h1 : cb.m_use_count = 1) :
    get j s = some y.m_ptr ∧ use_count j s = some 1 ∧
    ∃ s2, dtor j s = some s2 ∧
      s2.calls = s.calls ++ [⟨some n, cb.m_deleter.d, cb.m_deleter.ptr⟩] ∧
      s2.block n = none := by
  have hlive : ∀ c, y.m_ctrl = some c → (s.block c).isSome := by
    intro c hc; rw [hy] at hc; cases hc; rw [hb]; rfl
  obtain ⟨s2, e2, -, -, -, -, hC, -⟩ := dtor_release hj hlive
  obtain ⟨hB2, hC2⟩ := hC n _ hy hb
  simp only [h1, if_true] at hB2 hC2
  refine ⟨get_eq hj, ?_, s2, e2, hC2, hB2⟩
  rw [use_count_owner hj hy hb, h1]
  rfl

/-- C19: in any state, let `h` be constructed from the raw pointer `q` with deleter `d`
and `a` be the aliasing handle `(h, p)`.  Then `a.get()` is `p`; destroying `h`, or
resetting it, invokes no deleter and leaves `a` alive as the sole owner; destroying `a`
afterwards invokes exactly one deleter call, `d` on the bound pointer `q` (not on `p`),
made by the control block of `h`. -/
theorem alias_keeps_object_alive (s : State) (q p : Ptr) (d : Deleter) :
    ∃ s1 s2, ctor_ptr_deleter q d true s = some (.returned s1) ∧
      ctor_alias s.handles.length p s1 = some s2 ∧
      get (s.handles.length + 1) s2 = some p ∧
      s2.calls = s.calls ∧
      (∃ s3, dtor s.handles.length s2 = some s3 ∧ s3.calls = s.calls ∧
        get (s.handles.length + 1) s3 = some p ∧
        use_count (s.handles.length + 1) s3 = some 1 ∧
        ∃ s4, dtor (s.handles.length + 1) s3 = some s4 ∧
          s4.calls = s.calls ++ [⟨some s.heap.length, d, q⟩]) ∧
      (∃ s3, reset s.handles.length s2 = some s3 ∧ s3.calls = s.calls ∧
        get (s.handles.length + 1) s3 = some p ∧
        use_count (s.handles.length + 1) s3 = some 1 ∧
        ∃ s4, dtor (s.handles.length + 1) s3 = some s4 ∧
          s4.calls = s.calls ++ [⟨some s.heap.length, d, q⟩]) := by
  have hh1 : ((s.newBlock { m_deleter := ⟨d, q⟩ }).newHandle
      ⟨q, some s.heap.length⟩).handle s.handles.length = some ⟨q, some s.heap.length⟩ := by
    simp [State.handle_newHandle]
  have hb1 : ((s.newBlock { m_deleter := ⟨d, q⟩ }).newHandle
      ⟨q, some s.heap.length⟩).block s.heap.length = some ⟨1, 1, ⟨d, q⟩⟩ := by
    simp [State.block_newBlock]
  have e2 := ctor_alias_owner p hh1 rfl hb1
  simp only [State.newHandle_length, State.newBlock_handles] at e2
  generalize hs2 : ((((s.newBlock { m_deleter := ⟨d, q⟩ }).newHandle
      ⟨q, some s.heap.length⟩).setBlock s.heap.length ⟨1 + 1, 1, ⟨d, q⟩⟩).newHandle
      ⟨p, some s.heap.length⟩) = s2 at e2
  have hh2 : s2.handle s.handles.length = some ⟨q, some s.heap.length⟩ := by
    rw [← hs2]; simp [State.handle_newHandle]
  have ha2 : s2.handle (s.handles.length + 1) = some ⟨p, some s.heap.length⟩ := by
    rw [← hs2]; simp [State.handle_newHandle]
  have hb2 : s2.block s.heap.length = some ⟨1 + 1, 1, ⟨d, q⟩⟩ := by
    rw [← hs2]; simp [State.block_setBlock, State.block_newBlock]
  have hc2 : s2.calls = s.calls := by rw [← hs2]; rfl
  have hlive2 : ∀ c, (⟨q, some s.heap.length⟩ : shared_ptr).m_ctrl = some c →
      (s2.block c).isSome := by
    intro c hc; cases hc; rw [hb2]; rfl
  have hne : s.handles.length + 1 ≠ s.handles.length := by omega
  refine ⟨_, s2, ctor_ptr_deleter_ok_eq s q d, e2, get_eq ha2, hc2, ?_, ?_⟩
  · obtain ⟨s3, e3, -, hO, -, -, hC, -⟩ := dtor_release hh2 hlive2
    obtain ⟨hB3, hC3⟩ := hC _ _ rfl hb2
    simp at hB3 hC3
    have ha3 : s3.handle (s.handles.length + 1) = some ⟨p, some s.heap.length⟩ := by
      rw [hO _ hne, ha2]
    obtain ⟨g, u, s4, e4, hC4, -⟩ := last_owner_release ha3 rfl hB3 rfl
    refine ⟨s3, e3, by rw [hC3, hc2], g, u, s4, e4, ?_⟩
    rw [hC4, hC3, hc2]
  · obtain ⟨s3, e3, -, hO, -, hC, -⟩ := reset_release hh2 hlive2
    obtain ⟨hB3, hC3⟩ := hC _ _ rfl hb2
    simp at hB3 hC3
    have ha3 : s3.handle (s.handles.length + 1) = some ⟨p, some s.heap.length⟩ := by
      rw [hO _ hne, ha2]
    obtain ⟨g, u, s4, e4, hC4, -⟩ := last_owner_release ha3 rfl hB3 rfl
    refine ⟨s3, e3, by rw [hC3, hc2], g, u, s4, e4, ?_⟩
    rw [hC4, hC3, hc2]

/-- The aliasing constructor on a live source whose control block, if it has one, is
alive. -/
theorem ctor_alias_local {s : State} {rhs : Nat} {r : shared_ptr} (p : Ptr)
    (hr : s.handle rhs = some r) (hlive : ∀ c, r.m_ctrl = some c → (s.block c).isSome) :
    ∃ s1, ctor_alias rhs p s = some s1 ∧
      s1.handles = s.handles ++ [some ⟨p, r.m_ctrl⟩] ∧ s1.calls = s.calls ∧
      (∀ k, r.m_ctrl ≠ some k → s1.block k = s.block k) ∧
      (∀ c cb, r.m_ctrl = some c → s.block c = some cb →
        s1.block c = some { cb with m_use_count := cb.m_use_count + 1 }) := by
  cases hc : r.m_ctrl with
  | none =>
    refine ⟨_, ctor_alias_empty p hr hc, rfl, rfl, fun k _ => rfl, ?_⟩
    intro c cb e; cases e
  | some c =>
    obtain ⟨cb, hb⟩ := Option.isSome_iff_exists.mp (hlive c hc)
    have hclt := State.block_lt hb
    refine ⟨_, ctor_alias_owner p hr hc hb, rfl, rfl, ?_, ?_⟩
    · intro k hk
      have : k ≠ c := fun e => hk (by rw [e])
      simp [State.block_setBlock, this]
    · intro c2 cb2 e hb2
      cases e
      rw [hb] at hb2; cases hb2
      simp [State.block_setBlock, hclt]

theorem weak_of_heap_eq {s t : State} (h : t.heap = s.heap) (hw : s.weak_counts_one) :
    t.weak_counts_one := by
  intro c cb hb
  apply hw c cb
  unfold State.block at hb ⊢
  rw [← h]; exact hb

theorem weak_setBlock {s : State} {c : Nat} {cb : shared_ptr_control_block} (n : atomic_int)
    (hw : s.weak_counts_one) (hb : s.block c = some cb) :
    (s.setBlock c { cb with m_use_count := n }).weak_counts_one := by
  intro k kb hk
  rw [State.block_setBlock] at hk
  split_ifs at hk with e
  · cases hk; exact hw c cb hb
  · exact hw k kb hk

theorem weak_deleteBlock {s : State} (c : Nat) (hw : s.weak_counts_one) :
    (s.deleteBlock c).weak_counts_one := by
  intro k kb hk
  rw [State.block_deleteBlock] at hk
  split_ifs at hk
  exact hw k kb hk

theorem weak_newBlock {s : State} (l : DeletionLambda) (hw : s.weak_counts_one) :
    (s.newBlock { m_deleter := l }).weak_counts_one := by
  intro k kb hk
  rw [State.block_newBlock] at hk
  split_ifs at hk
  · cases hk; rfl
  · exact hw k kb hk

theorem increment_use_count_weak {s s1 : State} {i : Nat} (hw : s.weak_counts_one)
    (h : increment_use_count i s = some s1) : s1.weak_counts_one := by
  unfold increment_use_count at h
  cases hh : s.handle i with
  | none => simp [hh] at h
  | some hd =>
    simp only [hh, Option.bind_eq_bind, Option.some_bind] at h
    cases hc : hd.m_ctrl with
    | none => simp [hc] at h; subst h; exact hw
    | some c =>
      simp only [hc] at h
      cases hb : s.block c with
      | none => simp [hb] at h
      | some cb => simp [hb] at h; subst h; exact weak_setBlock _ hw hb

theorem decrement_use_count_weak {s s1 : State} {i : Nat} (hw : s.weak_counts_one)
    (h : decrement_use_count i s = some s1) : s1.weak_counts_one := by
  unfold decrement_use_count at h
  cases hh : s.handle i with
  | none => simp [hh] at h
  | some hd =>
    simp only [hh, Option.bind_eq_bind, Option.some_bind] at h
    cases hc : hd.m_ctrl with
    | none => simp [hc] at h; subst h; exact hw
    | some c =>
      simp only [hc] at h
      cases hb : s.block c with
      | none => simp [hb] at h
      | some cb =>
        simp only [hb, Option.some_bind] at h
        split_ifs at h <;> simp at h <;> subst h
        · exact weak_deleteBlock c
            (weak_of_heap_eq (s := s.setBlock c { cb with m_use_count := cb.m_use_count - 1 })
              rfl (weak_setBlock _ hw hb))
        · exact weak_setBlock _ hw hb

theorem ctor_alias_weak {s s1 : State} {rhs : Nat} {p : Ptr} (hw : s.weak_counts_one)
    (h : ctor_alias rhs p s = some s1) : s1.weak_counts_one := by
  cases hr : s.handle rhs with
  | none => simp [ctor_alias, hr] at h
  | some r =>
    have h1 : (s.newHandle { m_ctrl := r.m_ctrl }).handle s.handles.length
        = some { m_ctrl := r.m_ctrl } := by simp [State.handle_newHandle]
    simp only [ctor_alias, hr, Option.bind_eq_bind, Option.some_bind] at h
    rw [set_m_ptr_eq p h1, Option.some_bind, State.newHandle_setHandle_last] at h
    exact increment_use_count_weak
      (weak_of_heap_eq (s := s) (t := s.newHandle ⟨p, r.m_ctrl⟩) rfl hw) h

theorem ctor_copy_weak {s s1 : State} {rhs : Nat} (hw : s.weak_counts_one)
    (h : ctor_copy rhs s = some s1) : s1.weak_counts_one := by
  cases hr : s.handle rhs with
  | none => simp [ctor_copy, get, hr] at h
  | some r =>
    rw [ctor_copy_eq hr] at h
    exact ctor_alias_weak hw h

theorem ctor_move_weak {s s1 : State} {rhs : Nat} (hw : s.weak_counts_one)
    (h : ctor_move rhs s = some s1) : s1.weak_counts_one := by
  cases hr : s.handle rhs with
  | none => simp [ctor_move, hr] at h
  | some r =>
    rw [ctor_move_eq hr] at h; cases h
    exact weak_of_heap_eq (s := s) rfl hw

theorem swap_weak {s s1 : State} {this rhs : Nat} (hw : s.weak_counts_one)
    (h : swap this rhs s = some s1) : s1.weak_counts_one := by
  cases ha : s.handle this with
  | none => simp [swap, ha] at h
  | some a =>
    cases hb : s.handle rhs with
    | none => simp [swap, ha, hb] at h
    | some b =>
      rw [swap_eq ha hb] at h; cases h
      exact weak_of_heap_eq (s := s) rfl hw

theorem dtor_weak {s s1 : State} {i : Nat} (hw : s.weak_counts_one)
    (h : dtor i s = some s1) : s1.weak_counts_one := by
  rw [dtor_eq_decrement] at h
  cases hd : decrement_use_count i s with
  | none => simp [hd] at h
  | some s0 =>
    simp [hd] at h; subst h
    exact weak_of_heap_eq (s := s0) rfl (decrement_use_count_weak hw hd)

theorem reset_weak {s s1 : State} {i : Nat} (hw : s.weak_counts_one)
    (h : reset i s = some s1) : s1.weak_counts_one := by
  cases hh : s.handle i with
  | none => simp [reset, decrement_use_count, hh] at h
  | some x =>
    rw [reset_eq_decrement hh] at h
    cases hd : decrement_use_count i s with
    | none => simp [hd] at h
    | some s0 =>
      simp [hd] at h; subst h
      exact weak_of_heap_eq (s := s0) rfl (decrement_use_count_weak hw hd)

theorem reset_ptr_deleter_weak {s : State} {i : Nat} {p : Ptr} {d : Deleter} {ok : Bool}
    {o : Outcome} (hw : s.weak_counts_one) (h : reset_ptr_deleter i p d ok s = some o) :
    o.state.weak_counts_one := by
  cases hh : s.handle i with
  | none => simp [reset_ptr_deleter, hh] at h
  | some hd =>
    cases ok with
    | false =>
      rw [reset_ptr_deleter_fail p d hh] at h; cases h
      exact weak_of_heap_eq (s := s) rfl hw
    | true =>
      simp only [reset_ptr_deleter, hh, Option.isNone_some, Bool.false_eq_true, if_false,
        if_true, Option.bind_eq_bind] at h
      cases hr : reset i (s.newBlock { m_deleter := ⟨d, p⟩ }) with
      | none => simp [hr] at h
      | some s0 =>
        have hw0 := reset_weak (weak_newBlock ⟨d, p⟩ hw) hr
        obtain ⟨x, hx, hH⟩ := reset_handles hr
        have hx0 : s0.handle i = some {} := by
          rw [State.handle_congr (t := s.setHandle i {}) hH, State.handle_setHandle]
          simp [State.handle_lt hh]
        have hlt := State.handle_lt hx0
        simp [hr, set_m_ctrl, set_m_ptr, hx0, State.handle_setHandle, hlt,
          State.setHandle_setHandle] at h
        subst h
        exact weak_of_heap_eq (s := s0) rfl hw0

theorem ctor_ptr_deleter_weak {s : State} {p : Ptr} {d : Deleter} {ok : Bool} {o : Outcome}
    (hw : s.weak_counts_one) (h : ctor_ptr_deleter p d ok s = some o) :
    o.state.weak_counts_one := by
  cases ok with
  | true =>
    rw [ctor_ptr_deleter_ok_eq] at h; cases h
    exact weak_of_heap_eq (s := s.newBlock { m_deleter := ⟨d, p⟩ }) rfl (weak_newBlock _ hw)
  | false =>
    rw [ctor_ptr_deleter_fail_eq] at h; cases h
    exact weak_of_heap_eq (s := s) rfl hw

theorem assign_copy_weak {s s3 : State} {this rhs : Nat} (hw : s.weak_counts_one)
    (h : assign_copy this rhs s = some s3) : s3.weak_counts_one := by
  cases ht : s.handle this with
  | none => simp [assign_copy, ht] at h
  | some t =>
    simp only [assign_copy, ht, Option.bind_eq_bind, Option.some_bind] at h
    cases e1 : ctor_copy rhs s with
    | none => simp [e1] at h
    | some s1 =>
      simp only [e1, Option.some_bind] at h
      cases e2 : swap s.handles.length this s1 with
      | none => simp [e2] at h
      | some s2 =>
        simp only [e2, Option.some_bind] at h
        exact dtor_weak (swap_weak (ctor_copy_weak hw e1) e2) h

theorem assign_move_weak {s s3 : State} {this rhs : Nat} (hw : s.weak_counts_one)
    (h : assign_move this rhs s = some s3) : s3.weak_counts_one := by
  cases ht : s.handle this with
  | none => simp [assign_move, ht] at h
  | some t =>
    simp only [assign_move, ht, Option.bind_eq_bind, Option.some_bind] at h
    cases e1 : ctor_move rhs s with
    | none => simp [e1] at h
    | some s1 =>
      simp only [e1, Option.some_bind] at h
      cases e2 : swap s.handles.length this s1 with
      | none => simp [e2] at h
      | some s2 =>
        simp only [e2, Option.some_bind] at h
        exact dtor_weak (swap_weak (ctor_move_weak hw e1) e2) h

theorem assign_unique_weak {s : State} {this : Nat} {u u1 : unique_ptr} {ok : Bool}
    {o : Outcome} (hw : s.weak_counts_one) (h : assign_unique this u ok s = some (o, u1)) :
    o.state.weak_counts_one := by
  cases ht : s.handle this with
  | none => simp [assign_unique, ht] at h
  | some t =>
    simp only [assign_unique, ht, Option.isNone_some, Bool.false_eq_true, if_false] at h
    cases e1 : ctor_ptr_deleter u.get u.get_deleter ok s with
    | none => simp [e1] at h
    | some o1 =>
      have hw1 := ctor_ptr_deleter_weak hw e1
      cases o1 with
      | threw s1 =>
        simp [e1] at h
        obtain ⟨h1, -⟩ := h
        subst h1
        exact hw1
      | returned s1 =>
        simp only [e1, Option.bind_eq_bind] at h
        cases e2 : swap s.handles.length this s1 with
        | none => simp [e2] at h
        | some s2 =>
          simp only [e2, Option.some_bind] at h
          cases e3 : dtor s.handles.length s2 with
          | none => simp [e3] at h
          | some s3 =>
            simp [e3] at h
            obtain ⟨h1, -⟩ := h
            subst h1
            exact dtor_weak (swap_weak hw1 e2) e3

theorem ctor_unique_weak {s : State} {u u1 : unique_ptr} {ok : Bool}
    {o : Outcome} (hw : s.weak_counts_one) (h : ctor_unique u ok s = some (o, u1)) :
    o.state.weak_counts_one := by
  unfold ctor_unique at h
  cases e : assign_unique s.handles.length u ok (s.newHandle {}) with
  | none => simp [e] at h
  | some r =>
    obtain ⟨o1, u2⟩ := r
    have hw1 := assign_unique_weak (weak_of_heap_eq (s := s) (t := s.newHandle {}) rfl hw) e
    cases o1 with
    | returned s1 =>
      simp [e] at h
      obtain ⟨h1, -⟩ := h
      subst h1
      exact hw1
    | threw s1 =>
      simp [e] at h
      obtain ⟨h1, -⟩ := h
      subst h1
      exact weak_of_heap_eq (s := s1) rfl hw1

/-- No public operation changes a weak count. -/
theorem step_weak {s s1 : State} {op : Op} (hw : s.weak_counts_one)
    (h : step s op = some s1) : s1.weak_counts_one := by
  cases op with
  | ctor_default =>
    simp only [step, ctor_default, pure, Option.some.injEq] at h; subst h
    exact weak_of_heap_eq (s := s) rfl hw
  | ctor_nullptr =>
    simp only [step, ctor_nullptr, pure, Option.some.injEq] at h; subst h
    exact weak_of_heap_eq (s := s) rfl hw
  | ctor_ptr p ok =>
    simp only [step, ctor_ptr, Option.map_eq_some'] at h
    obtain ⟨o, ho, rfl⟩ := h
    exact ctor_ptr_deleter_weak hw ho
  | ctor_ptr_deleter p d ok =>
    simp only [step, Option.map_eq_some'] at h
    obtain ⟨o, ho, rfl⟩ := h
    exact ctor_ptr_deleter_weak hw ho
  | ctor_nullptr_deleter d ok =>
    simp only [step, Option.map_eq_some'] at h
    obtain ⟨o, ho, rfl⟩ := h
    have ho' : ctor_ptr_deleter nullptr d ok s = some o := ho
    exact ctor_ptr_deleter_weak hw ho'
  | ctor_alias rhs p => exact ctor_alias_weak hw h
  | ctor_copy rhs => exact ctor_copy_weak hw h
  | ctor_move rhs => exact ctor_move_weak hw h
  | ctor_unique u ok =>
    simp only [step, Option.map_eq_some'] at h
    obtain ⟨⟨o, u1⟩, ho, rfl⟩ := h
    exact ctor_unique_weak hw ho
  | assign_copy this rhs => exact assign_copy_weak hw h
  | assign_move this rhs => exact assign_move_weak hw h
  | assign_unique this u ok =>
    simp only [step, Option.map_eq_some'] at h
    obtain ⟨⟨o, u1⟩, ho, rfl⟩ := h
    exact assign_unique_weak hw ho
  | swap this rhs => exact swap_weak hw h
  | reset this => exact reset_weak hw h
  | reset_ptr this p ok =>
    simp only [step, reset_ptr, Option.map_eq_some'] at h
    obtain ⟨o, ho, rfl⟩ := h
    exact reset_ptr_deleter_weak hw ho
  | reset_ptr_deleter this p d ok =>
    simp only [step, Option.map_eq_some'] at h
    obtain ⟨o, ho, rfl⟩ := h
    exact reset_ptr_deleter_weak hw ho
  | dtor this => exact dtor_weak hw h

theorem run_weak (ops : List Op) :
    ∀ (s s1 : State), s.weak_counts_one → run s ops = some s1 → s1.weak_counts_one := by
  induction ops with
  | nil => intro s s1 hw h; simp [run] at h; subst h; exact hw
  | cons op ops ih =>
    intro s s1 hw h
    simp only [run] at h
    cases hs : step s op with
    | none => rw [hs] at h; cases h
    | some s2 =>
      rw [hs] at h
      exact ih s2 s1 (step_weak hw hs) h

theorem weak_init : State.init.weak_counts_one := by
  intro c cb hb
  simp [State.init, State.block] at hb

/-- A release deletes only the block of the releasing handle, and only when it finds the
counter at `1`. -/
theorem decrement_use_count_deletes {s s1 : State} {i c : Nat} {cb : shared_ptr_control_block}
    (h : decrement_use_count i s = some s1) (hb : s.block c = some cb)
    (hb1 : s1.block c = none) :
    cb.m_use_count = 1 ∧ ∃ hd, s.handle i = some hd ∧ hd.m_ctrl = some c := by
  unfold decrement_use_count at h
  cases hh : s.handle i with
  | none => simp [hh] at h
  | some hd =>
    simp only [hh, Option.bind_eq_bind, Option.some_bind] at h
    cases hc : hd.m_ctrl with
    | none =>
      simp [hc] at h; subst h
      rw [hb] at hb1; cases hb1
    | some k =>
      simp only [hc] at h
      cases hk : s.block k with
      | none => simp [hk] at h
      | some kb =>
        have hklt := State.block_lt hk
        simp only [hk, Option.some_bind] at h
        split_ifs at h with h0 <;> simp at h <;> subst h
        · by_cases e : c = k
          · subst e
            rw [hb] at hk; cases hk
            exact ⟨(atomic_int.sub_one_eq_zero_iff _).1 h0, hd, rfl, hc⟩
          · simp [delete_controlled_object, DeletionLambda.call, State.block_deleteBlock,
              State.block_setBlock, e, hb] at hb1
        · by_cases e : c = k
          · subst e
            simp [State.block_setBlock, hklt] at hb1
          · simp [State.block_setBlock, e, hb] at hb1

/-- C11, as stated, fails: when the sole owner of a block is released, the block is deleted
in a state where its `m_use_count` is `0` and its `m_weak_count` is still `1`. -/
theorem release_deletes_block_with_weak_count_one :
    decrement_use_count 0 owner_state
      = some ((delete_controlled_object 0 ⟨0, 1, ⟨3, 7⟩⟩
          (owner_state.setBlock 0 ⟨0, 1, ⟨3, 7⟩⟩)).deleteBlock 0) ∧
    (delete_controlled_object 0 ⟨0, 1, ⟨3, 7⟩⟩
      (owner_state.setBlock 0 ⟨0, 1, ⟨3, 7⟩⟩)).block 0 = some ⟨0, 1, ⟨3, 7⟩⟩ ∧
    ((delete_controlled_object 0 ⟨0, 1, ⟨3, 7⟩⟩
      (owner_state.setBlock 0 ⟨0, 1, ⟨3, 7⟩⟩)).deleteBlock 0).block 0 = none ∧
    (⟨0, 1, ⟨3, 7⟩⟩ : shared_ptr_control_block).m_weak_count ≠ 0 := by
  decide

/-- C11, amended: in every reachable state every control block that has not been deleted
has `m_weak_count == 1` (no operation changes it); the `decrement_use_count` that brings
`m_use_count` from 1 to 0 invokes the deleter once and then deletes the block at once, in a
state where `m_use_count` is `0` and `m_weak_count` is `1`; a `decrement_use_count` deletes
a block only if it found `m_use_count == 1` and `m_weak_count == 1`; and, as long as every
operation starts with fewer than `4294967296` owners of every block, an operation deletes
a block only if the block had `m_use_count == 1` and `m_weak_count == 1` before it. -/
theorem strong_release_deletes_block (ops : List Op) (s : State)
    (hrun : run State.init ops = some s) :
    (∀ c cb, s.block c = some cb → cb.m_weak_count = 1) ∧
    (∀ this h c cb, s.handle this = some h → h.m_ctrl = some c → s.block c = some cb →
      cb.m_use_count = 1 →
      (delete_controlled_object c ⟨0, 1, cb.m_deleter⟩
        (s.setBlock c ⟨0, 1, cb.m_deleter⟩)).block c = some ⟨0, 1, cb.m_deleter⟩ ∧
      (delete_controlled_object c ⟨0, 1, cb.m_deleter⟩
        (s.setBlock c ⟨0, 1, cb.m_deleter⟩)).calls
          = s.calls ++ [⟨some c, cb.m_deleter.d, cb.m_deleter.ptr⟩] ∧
      decrement_use_count this s
        = some ((delete_controlled_object c ⟨0, 1, cb.m_deleter⟩
            (s.setBlock c ⟨0, 1, cb.m_deleter⟩)).deleteBlock c) ∧
      ((delete_controlled_object c ⟨0, 1, cb.m_deleter⟩
        (s.setBlock c ⟨0, 1, cb.m_deleter⟩)).deleteBlock c).block c = none) ∧
    (∀ this s1 c cb, decrement_use_count this s = some s1 → s.block c = some cb →
      s1.block c = none → cb.m_use_count = 1 ∧ cb.m_weak_count = 1) ∧
    (within_limit State.init ops = true → s.below_limit = true →
      ∀ op s1 c cb, step s op = some s1 → s.block c = some cb → s1.block c = none →
        cb.m_use_count = 1 ∧ cb.m_weak_count = 1) := by
  have hw := run_weak ops _ _ weak_init hrun
  refine ⟨hw, ?_, ?_, ?_⟩
  · intro this h c cb hh hc hb h1
    have hclt := State.block_lt hb
    have hwc := hw c cb hb
    refine ⟨?_, rfl, ?_, ?_⟩
    · simp [delete_controlled_object, DeletionLambda.call, State.block_setBlock, hclt]
    · simp [decrement_use_count, hh, hc, hb, h1, hwc, atomic_int.one_sub_one]
    · simp [State.block_deleteBlock]
  · intro this s1 c cb hd hb hb1
    exact ⟨(decrement_use_count_deletes hd hb hb1).1, hw c cb hb⟩
  · intro hlim hlast op s1 c cb hs hb hb1
    have hinv := run_inv ops _ _ Inv.init hlim hrun
    have hp := step_preserved hinv hlast hs
    have hclt := State.block_lt hb
    have hd := hinv.destroyed c hclt
    rw [hb] at hd
    simp at hd
    have hd1 := hp.inv.destroyed c (Nat.lt_of_lt_of_le hclt hp.heap_mono)
    rw [hb1] at hd1
    simp at hd1
    obtain ⟨cb', hb', h1, -⟩ := released_of_preserved hinv hp c (by omega)
    rw [hb] at hb'; cases hb'
    exact ⟨h1, hw c cb hb⟩

/-- Witness of C11, amended: the state after one construction from a raw pointer. -/
theorem strong_release_deletes_block_witness :
    run State.init [.ctor_ptr_deleter 7 3 true] = some owner_state ∧
    ((∀ c cb, owner_state.block c = some cb → cb.m_weak_count = 1) ∧
    (∀ this h c cb, owner_state.handle this = some h → h.m_ctrl = some c →
      owner_state.block c = some cb → cb.m_use_count = 1 →
      (delete_controlled_object c ⟨0, 1, cb.m_deleter⟩
        (owner_state.setBlock c ⟨0, 1, cb.m_deleter⟩)).block c = some ⟨0, 1, cb.m_deleter⟩ ∧
      (delete_controlled_object c ⟨0, 1, cb.m_deleter⟩
        (owner_state.setBlock c ⟨0, 1, cb.m_deleter⟩)).calls
          = owner_state.calls ++ [⟨some c, cb.m_deleter.d, cb.m_deleter.ptr⟩] ∧
      decrement_use_count this owner_state
        = some ((delete_controlled_object c ⟨0, 1, cb.m_deleter⟩
            (owner_state.setBlock c ⟨0, 1, cb.m_deleter⟩)).deleteBlock c) ∧
      ((delete_controlled_object c ⟨0, 1, cb.m_deleter⟩
        (owner_state.setBlock c ⟨0, 1, cb.m_deleter⟩)).deleteBlock c).block c = none) ∧
    (∀ this s1 c cb, decrement_use_count this owner_state = some s1 →
      owner_state.block c = some cb → s1.block c = none →
      cb.m_use_count = 1 ∧ cb.m_weak_count = 1) ∧
    (within_limit State.init [.ctor_ptr_deleter 7 3 true] = true →
      owner_state.below_limit = true →
      ∀ op s1 c cb, step owner_state op = some s1 → owner_state.block c = some cb →
        s1.block c = none → cb.m_use_count = 1 ∧ cb.m_weak_count = 1)) :=
  ⟨by decide, strong_release_deletes_block [.ctor_ptr_deleter 7 3 true] owner_state
    (by decide)⟩

/-- Copy self-assignment of an owner of a block whose counter holds `0`: the temporary copy
takes the counter to `1`, and its destruction takes it back to `0` and deletes the block. -/
theorem assign_copy_self_at_zero {s : State} {this c : Nat} {h : shared_ptr}
    {cb : shared_ptr_control_block}
    (hh : s.handle this = some h) (hc : h.m_ctrl = some c) (hb : s.block c = some cb)
    (h0 : cb.m_use_count = 0) :
    ∃ s3, assign_copy this this s = some s3 ∧ s3.block c = none ∧
      s3.calls = s.calls ++ [⟨some c, cb.m_deleter.d, cb.m_deleter.ptr⟩] := by
  have hlt := State.handle_lt hh
  have hne : s.handles.length ≠ this := by omega
  have hlive : ∀ k, h.m_ctrl = some k → (s.block k).isSome := by
    intro k hk; rw [hc] at hk; cases hk; rw [hb]; rfl
  obtain ⟨s1, e1, hH1, hC1, -, hO1⟩ := ctor_alias_local h.m_ptr hh hlive
  have htmp1 : s1.handle s.handles.length = some h := handle_of_append_last hH1
  have hthis1 : s1.handle this = some h := by rw [handle_of_append_lt hH1 hlt, hh]
  have hlen1 : s1.handles.length = s.handles.length + 1 := by rw [hH1]; simp
  have e2 := swap_eq htmp1 hthis1
  have hb2 : ((s1.setHandle s.handles.length h).setHandle this h).block c
      = some { cb with m_use_count := cb.m_use_count + 1 } := hO1 c cb hc hb
  have htmp2 : ((s1.setHandle s.handles.length h).setHandle this h).handle s.handles.length
      = some h := by
    simp [State.handle_setHandle, hne, hlen1]
  have hlive2 : ∀ k, h.m_ctrl = some k →
      (((s1.setHandle s.handles.length h).setHandle this h).block k).isSome := by
    intro k hk; rw [hc] at hk; cases hk; rw [hb2]; rfl
  obtain ⟨s3, e3, -, -, -, -, hC3, -⟩ := dtor_release htmp2 hlive2
  obtain ⟨hB3, hK3⟩ := hC3 c _ hc hb2
  have h1 : cb.m_use_count + 1 = 1 := by rw [h0]; decide
  simp only [h1, if_true] at hB3 hK3
  refine ⟨s3, ?_, hB3, ?_⟩
  · simp only [assign_copy, hh, ctor_copy_eq hh, e1, e2, e3, Option.bind_eq_bind,
      Option.some_bind]
  · rw [hK3]
    show s1.calls ++ _ = _
    rw [hC1]

/-- At the limit of the counter: after `4294967295` copies of a handle the counter of its
block has wrapped around to `0` with `4294967296` owners alive, and a copy
self-assignment, which takes it to `1` and back to `0`, deletes the block. -/
theorem self_assign_deletes_wrapped_block :
    run State.init (.ctor_ptr_deleter 7 3 true :: List.replicate 4294967295 (.ctor_copy 0))
      = some (many_owners 4294967296) ∧
    (many_owners 4294967296).block 0 = some ⟨0, 1, ⟨3, 7⟩⟩ ∧
    ∃ s3, step (many_owners 4294967296) (.assign_copy 0 0) = some s3 ∧ s3.block 0 = none := by
  have h1 : step State.init (.ctor_ptr_deleter 7 3 true) = some (many_owners 1) := by decide
  have h2 := many_owners_run 4294967295 1 4294967296 (by decide) (by decide)
  have hb : (many_owners 4294967296).block 0 = some ⟨0, 1, ⟨3, 7⟩⟩ :=
    (many_owners_block 4294967296).trans (by decide)
  have hh : (many_owners 4294967296).handle 0 = some ⟨7, some 0⟩ :=
    many_owners_handle (by decide)
  have hc : (⟨7, some 0⟩ : shared_ptr).m_ctrl = some 0 := rfl
  obtain ⟨s3, e, hn, -⟩ := assign_copy_self_at_zero hh hc hb rfl
  exact ⟨run_cons_of_step h1 h2, hb, s3, e, hn⟩
end scratch

namespace my

open scratch (Ptr nullptr Deleter default_delete shared_ptr DeletionLambda)

/-! ## Explicit results of the member functions of `my::shared_ptr` -/

theorem set_m_ptr_traced {s : State} {i : Nat} {h : shared_ptr} (p : Ptr)
    (hh : s.mem.handle i = some h) :
    set_m_ptr i p s = some { s with mem := s.mem.setHandle i { h with m_ptr := p } } := by
  simp [set_m_ptr, State.onMem, scratch.set_m_ptr_eq p hh]

theorem swap_traced {s : State} {this rhs : Nat} {a b : shared_ptr}
    (ha : s.mem.handle this = some a) (hb : s.mem.handle rhs = some b) :
    swap this rhs s = some { s with mem := (s.mem.setHandle this b).setHandle rhs a } := by
  simp [swap, State.onMem, scratch.swap_eq ha hb]

theorem dtor_traced {s : State} {i : Nat} {h : shared_ptr} (hh : s.mem.handle i = some h) :
    dtor i s = some ⟨s.mem.endLifetime i, s.trace ++ [.decrement_use_count h.m_ctrl]⟩ := by
  simp [dtor, decrement_use_count, hh, State.log]

theorem ctor_alias_traced {s : State} {rhs : Nat} {r : shared_ptr} (p : Ptr)
    (hr : s.mem.handle rhs = some r) :
    ctor_alias rhs p s =
      some ⟨s.mem.newHandle ⟨p, r.m_ctrl⟩, s.trace ++ [.increment_use_count r.m_ctrl]⟩ := by
  have h1 : (s.mem.newHandle { m_ctrl := r.m_ctrl }).handle s.mem.handles.length
      = some { m_ctrl := r.m_ctrl } := by simp [scratch.State.handle_newHandle]
  have h2 : (s.mem.newHandle ⟨p, r.m_ctrl⟩).handle s.mem.handles.length
      = some ⟨p, r.m_ctrl⟩ := by simp [scratch.State.handle_newHandle]
  simp only [ctor_alias, hr, Option.bind_eq_bind, Option.some_bind, set_m_ptr, State.onMem,
    scratch.set_m_ptr_eq p h1, Option.map_some', scratch.State.newHandle_setHandle_last]
  simp [increment_use_count, h2, State.log]

theorem ctor_copy_traced {s : State} {rhs : Nat} {r : shared_ptr}
    (hr : s.mem.handle rhs = some r) :
    ctor_copy rhs s = some ⟨s.mem.newHandle r, s.trace ++ [.increment_use_count r.m_ctrl]⟩ := by
  simp only [ctor_copy, scratch.get_eq hr, Option.bind_eq_bind, Option.some_bind,
    ctor_alias_traced r.m_ptr hr]

theorem reset_traced {s : State} {i : Nat} {h : shared_ptr} (hh : s.mem.handle i = some h) :
    reset i s =
      some ⟨(((s.mem.newHandle {}).setHandle s.mem.handles.length h).setHandle i {}).endLifetime
          s.mem.handles.length,
        s.trace ++ [.decrement_use_count h.m_ctrl]⟩ := by
  have hlt := scratch.State.handle_lt hh
  have hne : i ≠ s.mem.handles.length := by omega
  have hne2 : s.mem.handles.length ≠ i := by omega
  have htmp : (s.mem.newHandle {}).handle s.mem.handles.length = some {} := by
    simp [scratch.State.handle_newHandle]
  have hthis : (s.mem.newHandle {}).handle i = some h := by
    simp [scratch.State.handle_newHandle, hne, hh]
  have e2 := swap_traced (s := ⟨s.mem.newHandle {}, s.trace⟩) htmp hthis
  have htmp2 : (((s.mem.newHandle {}).setHandle s.mem.handles.length h).setHandle i
      {}).handle s.mem.handles.length = some h := by
    simp [scratch.State.handle_setHandle, scratch.State.handle_newHandle, hne2]
  have e3 := dtor_traced
    (s := ⟨((s.mem.newHandle {}).setHandle s.mem.handles.length h).setHandle i {}, s.trace⟩)
    htmp2
  dsimp only at e2 e3
  simp only [reset, hh, ctor_default, Option.bind_eq_bind, Option.some_bind, pure, e2, e3]

/-- The move constructor: the aliasing constructor, then `rhs.reset()`. -/
theorem ctor_move_traced {s : State} {rhs : Nat} {r : shared_ptr}
    (hr : s.mem.handle rhs = some r) :
    ctor_move rhs s =
      some ⟨((((s.mem.newHandle r).newHandle {}).setHandle (s.mem.handles.length + 1)
          r).setHandle rhs {}).endLifetime (s.mem.handles.length + 1),
        s.trace ++ [.increment_use_count r.m_ctrl, .decrement_use_count r.m_ctrl]⟩ := by
  have hlt := scratch.State.handle_lt hr
  have hne : rhs ≠ s.mem.handles.length := by omega
  have hr1 : (s.mem.newHandle r).handle rhs = some r := by
    simp [scratch.State.handle_newHandle, hne, hr]
  have e2 := reset_traced (s := ⟨s.mem.newHandle r, s.trace ++ [.increment_use_count r.m_ctrl]⟩) hr1
  dsimp only at e2
  simp only [ctor_move, scratch.get_eq hr, Option.bind_eq_bind, Option.some_bind,
    ctor_alias_traced r.m_ptr hr, e2]
  simp


/-- C16, as stated, fails: move construction from the sole owner of block `0` calls
`increment_use_count` and then `decrement_use_count` on a handle that holds block `0`,
the block the source held before the move. -/
theorem move_construct_calls_decrement :
    owner_state.mem.handle 0 = some ⟨7, some 0⟩ ∧
    ctor_move 0 owner_state
      = some ⟨⟨[some {}, some ⟨7, some 0⟩, none], [some ⟨1, 1, ⟨3, 7⟩⟩], []⟩,
          [.increment_use_count (some 0), .decrement_use_count (some 0)]⟩ := by
  decide

/-- C16, amended: in `my::shared_ptr`, move construction from a live handle `rhs` is
defined, gives the new handle both fields of `rhs` and leaves `rhs` empty, with the heap
of control blocks and the deleter record unchanged; it does so through the aliasing
constructor followed by `rhs.reset()`, so that it calls `increment_use_count` once, on
the new handle, and `decrement_use_count` once, on the temporary of `reset` that has taken
over the control block `rhs` held; both bodies being empty in this file, no counter
changes. -/
theorem move_construct_through_alias (s : State) (rhs : Nat) (r : shared_ptr)
    (hr : s.mem.handle rhs = some r) :
    ∃ s1, ctor_move rhs s = some s1 ∧
      s1.mem.handle s.mem.handles.length = some r ∧
      s1.mem.handle rhs = some ⟨nullptr, none⟩ ∧
      s1.mem.handle (s.mem.handles.length + 1) = none ∧
      (∀ j, j ≠ rhs → j ≠ s.mem.handles.length → j ≠ s.mem.handles.length + 1 →
        s1.mem.handle j = s.mem.handle j) ∧
      s1.mem.heap = s.mem.heap ∧ s1.mem.calls = s.mem.calls ∧
      s1.trace = s.trace ++ [.increment_use_count r.m_ctrl, .decrement_use_count r.m_ctrl] := by
  have hlt := scratch.State.handle_lt hr
  have hne : rhs ≠ s.mem.handles.length := by omega
  have hne1 : rhs ≠ s.mem.handles.length + 1 := by omega
  refine ⟨_, ctor_move_traced hr, ?_, ?_, ?_, ?_, rfl, rfl, rfl⟩
  · simp [scratch.State.handle_endLifetime, scratch.State.handle_setHandle,
      scratch.State.handle_newHandle, Ne.symm hne]
  · simp [scratch.State.handle_endLifetime, scratch.State.handle_setHandle,
      scratch.State.handle_newHandle, hne1]
    omega
  · simp [scratch.State.handle_endLifetime]
  · intro j j1 j2 j3
    simp [scratch.State.handle_endLifetime, scratch.State.handle_setHandle,
      scratch.State.handle_newHandle, j1, j2, j3]

/-- Witness of C16, amended: move construction from the sole owner of a block. -/
theorem move_construct_through_alias_witness :
    owner_state.mem.handle 0 = some ⟨7, some 0⟩ ∧
    ∃ s1, ctor_move 0 owner_state = some s1 ∧
      s1.mem.handle owner_state.mem.handles.length = some ⟨7, some 0⟩ ∧
      s1.mem.handle 0 = some ⟨nullptr, none⟩ ∧
      s1.mem.handle (owner_state.mem.handles.length + 1) = none ∧
      (∀ j, j ≠ 0 → j ≠ owner_state.mem.handles.length →
        j ≠ owner_state.mem.handles.length + 1 →
        s1.mem.handle j = owner_state.mem.handle j) ∧
      s1.mem.heap = owner_state.mem.heap ∧ s1.mem.calls = owner_state.mem.calls ∧
      s1.trace = owner_state.trace ++
        [.increment_use_count (⟨7, some 0⟩ : shared_ptr).m_ctrl,
          .decrement_use_count (⟨7, some 0⟩ : shared_ptr).m_ctrl] :=
  ⟨by decide, move_construct_through_alias owner_state 0 ⟨7, some 0⟩ (by decide)⟩

/-! ## The hook `maybe_enable_sharing_from_this` -/

theorem hooks_append (a b : List Event) : hooks (a ++ b) = hooks a + hooks b := by
  simp [hooks, List.countP_append]

theorem onMem_trace {s s1 : State} {f : scratch.State → Option scratch.State}
    (h : s.onMem f = some s1) : s1.trace = s.trace := by
  unfold State.onMem at h
  cases hf : f s.mem with
  | none => simp [hf] at h
  | some m => simp [hf] at h; subst h; rfl

theorem increment_use_count_hooks {s s1 : State} {i : Nat}
    (h : increment_use_count i s = some s1) : hooks s1.trace = hooks s.trace := by
  unfold increment_use_count at h
  cases hh : s.mem.handle i with
  | none => simp [hh] at h
  | some x =>
    simp [hh] at h; subst h
    simp [State.log, hooks_append, hooks]

theorem decrement_use_count_hooks {s s1 : State} {i : Nat}
    (h : decrement_use_count i s = some s1) : hooks s1.trace = hooks s.trace := by
  unfold decrement_use_count at h
  cases hh : s.mem.handle i with
  | none => simp [hh] at h
  | some x =>
    simp [hh] at h; subst h
    simp [State.log, hooks_append, hooks]

theorem swap_hooks {s s1 : State} {a b : Nat} (h : swap a b s = some s1) :
    hooks s1.trace = hooks s.trace := by
  rw [onMem_trace h]

theorem dtor_hooks {s s1 : State} {i : Nat} (h : dtor i s = some s1) :
    hooks s1.trace = hooks s.trace := by
  unfold dtor at h
  cases hd : decrement_use_count i s with
  | none => simp [hd] at h
  | some s0 =>
    simp [hd] at h
    rw [← h]
    exact (decrement_use_count_hooks hd : hooks s0.trace = hooks s.trace)

theorem ctor_alias_hooks {s s1 : State} {rhs : Nat} {p : Ptr}
    (h : ctor_alias rhs p s = some s1) : hooks s1.trace = hooks s.trace := by
  cases hr : s.mem.handle rhs with
  | none => simp [ctor_alias, hr] at h
  | some r =>
    rw [ctor_alias_traced p hr] at h; cases h
    simp [hooks_append, hooks]

theorem ctor_copy_hooks {s s1 : State} {rhs : Nat}
    (h : ctor_copy rhs s = some s1) : hooks s1.trace = hooks s.trace := by
  cases hr : s.mem.handle rhs with
  | none => simp [ctor_copy, scratch.get, hr] at h
  | some r =>
    rw [ctor_copy_traced hr] at h; cases h
    simp [hooks_append, hooks]

theorem ctor_move_hooks {s s1 : State} {rhs : Nat}
    (h : ctor_move rhs s = some s1) : hooks s1.trace = hooks s.trace := by
  cases hr : s.mem.handle rhs with
  | none => simp [ctor_move, scratch.get, hr] at h
  | some r =>
    rw [ctor_move_traced hr] at h; cases h
    simp [hooks_append, hooks]

theorem assign_copy_hooks {s s3 : State} {this rhs : Nat}
    (h : assign_copy this rhs s = some s3) : hooks s3.trace = hooks s.trace := by
  cases ht : s.mem.handle this with
  | none => simp [assign_copy, ht] at h
  | some t =>
    simp only [assign_copy, ht, Option.bind_eq_bind, Option.some_bind] at h
    cases e1 : ctor_copy rhs s with
    | none => simp [e1] at h
    | some s1 =>
      simp only [e1, Option.some_bind] at h
      cases e2 : swap s.mem.handles.length this s1 with
      | none => simp [e2] at h
      | some s2 =>
        simp only [e2, Option.some_bind] at h
        rw [dtor_hooks h, swap_hooks e2, ctor_copy_hooks e1]

theorem assign_move_hooks {s s3 : State} {this rhs : Nat}
    (h : assign_move this rhs s = some s3) : hooks s3.trace = hooks s.trace := by
  cases ht : s.mem.handle this with
  | none => simp [assign_move, ht] at h
  | some t =>
    simp only [assign_move, ht, Option.bind_eq_bind, Option.some_bind] at h
    cases e1 : ctor_move rhs s with
    | none => simp [e1] at h
    | some s1 =>
      simp only [e1, Option.some_bind] at h
      cases e2 : swap s.mem.handles.length this s1 with
      | none => simp [e2] at h
      | some s2 =>
        simp only [e2, Option.some_bind] at h
        rw [dtor_hooks h, swap_hooks e2, ctor_move_hooks e1]

theorem ctor_ptr_deleter_ok_traced (s : State) (esft : Bool) (p : Ptr) (d : Deleter) :
    ctor_ptr_deleter esft p d true s =
      some (.returned (maybe_enable_sharing_from_this esft p
        ⟨(s.mem.newBlock { m_deleter := ⟨d, p⟩ }).newHandle ⟨p, some s.mem.heap.length⟩,
          s.trace⟩)) := by
  have hlt : s.mem.handles.length < s.mem.handles.length + 1 := by omega
  have hmem : ((s.mem.newHandle {}).newBlock { m_deleter := ⟨d, p⟩ }).setHandle
      s.mem.handles.length ⟨p, some s.mem.heap.length⟩
      = (s.mem.newBlock { m_deleter := ⟨d, p⟩ }).newHandle ⟨p, some s.mem.heap.length⟩ := by
    apply scratch.State.ext_handle
    · simp
    · intro j
      simp only [scratch.State.handle_setHandle, scratch.State.handle_newHandle,
        scratch.State.handle_newBlock, scratch.State.newBlock_handles,
        scratch.State.newHandle_length]
      split_ifs <;> simp_all
    · rfl
    · rfl
  simp [ctor_ptr_deleter, set_m_ctrl, set_m_ptr, State.onMem, scratch.set_m_ctrl,
    scratch.set_m_ptr, scratch.State.handle_newHandle, scratch.State.handle_setHandle, hlt,
    scratch.State.setHandle_setHandle, hmem]

theorem maybe_enable_sharing_from_this_trace (esft : Bool) (p : Ptr) (s : State) :
    (maybe_enable_sharing_from_this esft p s).trace =
      s.trace ++ Event.maybe_enable_sharing_from_this p ::
        (if esft = true ∧ p ≠ nullptr then [.puts, .puts] else []) := by
  unfold maybe_enable_sharing_from_this maybe_enable_sharing_from_this_impl
  cases esft <;> by_cases hp : p = nullptr <;> simp [State.log, hp]

theorem maybe_enable_sharing_from_this_mem (esft : Bool) (p : Ptr) (s : State) :
    (maybe_enable_sharing_from_this esft p s).mem = s.mem := by
  unfold maybe_enable_sharing_from_this maybe_enable_sharing_from_this_impl
  cases esft <;> by_cases hp : p = nullptr <;> simp [State.log, hp]

theorem maybe_enable_sharing_from_this_hooks (esft : Bool) (p : Ptr) (s : State) :
    hooks (maybe_enable_sharing_from_this esft p s).trace = hooks s.trace + 1 := by
  rw [maybe_enable_sharing_from_this_trace, hooks_append]
  cases esft <;> by_cases hp : p = nullptr <;> simp [hooks, hp]

/-- Copy assignment between live handles is defined. -/
theorem assign_copy_defined {s : State} {this rhs : Nat} {t r : shared_ptr}
    (ht : s.mem.handle this = some t) (hr : s.mem.handle rhs = some r) :
    (assign_copy this rhs s).isSome = true := by
  have hlt := scratch.State.handle_lt ht
  have hne : this ≠ s.mem.handles.length := by omega
  have htmp : (s.mem.newHandle r).handle s.mem.handles.length = some r := by
    simp [scratch.State.handle_newHandle]
  have hthis : (s.mem.newHandle r).handle this = some t := by
    simp [scratch.State.handle_newHandle, hne, ht]
  have e2 := swap_traced (s := ⟨s.mem.newHandle r, s.trace ++ [.increment_use_count r.m_ctrl]⟩)
    htmp hthis
  have htmp2 : (((s.mem.newHandle r).setHandle s.mem.handles.length t).setHandle this
      r).handle s.mem.handles.length = some t := by
    simp [scratch.State.handle_setHandle, scratch.State.handle_newHandle, Ne.symm hne]
  have e3 := dtor_traced
    (s := ⟨((s.mem.newHandle r).setHandle s.mem.handles.length t).setHandle this r,
      s.trace ++ [.increment_use_count r.m_ctrl]⟩) htmp2
  dsimp only at e2 e3
  simp only [assign_copy, ht, ctor_copy_traced hr, Option.bind_eq_bind, Option.some_bind, e2, e3,
    Option.isSome_some]

/-- Move assignment between live handles, the same handle included, is defined. -/
theorem assign_move_defined {s : State} {this rhs : Nat} {t r : shared_ptr}
    (ht : s.mem.handle this = some t) (hr : s.mem.handle rhs = some r) :
    (assign_move this rhs s).isSome = true := by
  have hlt := scratch.State.handle_lt ht
  have hlr := scratch.State.handle_lt hr
  have hne : this ≠ s.mem.handles.length := by omega
  have hne1 : this ≠ s.mem.handles.length + 1 := by omega
  have hnr : s.mem.handles.length ≠ rhs := by omega
  obtain ⟨m, hm⟩ : ∃ m, m = ((((s.mem.newHandle r).newHandle {}).setHandle
      (s.mem.handles.length + 1) r).setHandle rhs {}).endLifetime
        (s.mem.handles.length + 1) := ⟨_, rfl⟩
  have htmp : m.handle s.mem.handles.length = some r := by
    simp [hm, scratch.State.handle_endLifetime, scratch.State.handle_setHandle,
      scratch.State.handle_newHandle, hnr]
  obtain ⟨u, hu⟩ : ∃ u, m.handle this = some u := by
    by_cases e : this = rhs
    · refine ⟨{}, ?_⟩
      simp [hm, scratch.State.handle_endLifetime, scratch.State.handle_setHandle,
        scratch.State.handle_newHandle, hne1, e]
      omega
    · refine ⟨t, ?_⟩
      simp [hm, scratch.State.handle_endLifetime, scratch.State.handle_setHandle,
        scratch.State.handle_newHandle, hne1, hne, e, ht]
  have e2 := swap_traced
    (s := ⟨m, s.trace ++ [.increment_use_count r.m_ctrl, .decrement_use_count r.m_ctrl]⟩)
    htmp hu
  have htmp2 : ((m.setHandle s.mem.handles.length u).setHandle this r).handle
      s.mem.handles.length = some u := by
    have hl : s.mem.handles.length < m.handles.length := scratch.State.handle_lt htmp
    simp [scratch.State.handle_setHandle, Ne.symm hne, hl]
  have e3 := dtor_traced
    (s := ⟨(m.setHandle s.mem.handles.length u).setHandle this r,
      s.trace ++ [.increment_use_count r.m_ctrl, .decrement_use_count r.m_ctrl]⟩) htmp2
  dsimp only at e2 e3
  simp only [assign_move, ht, ctor_move_traced hr, ← hm, Option.bind_eq_bind, Option.some_bind,
    e2, e3, Option.isSome_some]

/-- C17: in `my::shared_ptr`, every construction from a raw pointer that succeeds (with an
explicit deleter, with the default deleter, or from `nullptr` with a deleter) invokes the
hook `maybe_enable_sharing_from_this` exactly once, on the pointer given; a construction
whose allocation fails constructs no handle and does not invoke it; the aliasing
constructor, the copy and move constructors and the copy and move assignments, all of
them defined on live handles, never invoke it. -/
theorem hook_only_on_raw_pointer_construction (s : State) :
    (∀ esft p d, ∃ s1, ctor_ptr_deleter esft p d true s = some (.returned s1) ∧
      hooks s1.trace = hooks s.trace + 1 ∧
      s1.trace = s.trace ++ Event.maybe_enable_sharing_from_this p ::
        (if esft = true ∧ p ≠ nullptr then [.puts, .puts] else []) ∧
      s1.mem.handle s.mem.handles.length = some ⟨p, some s.mem.heap.length⟩) ∧
    (∀ esft p, ∃ s1, ctor_ptr esft p true s = some (.returned s1) ∧
      hooks s1.trace = hooks s.trace + 1) ∧
    (∀ esft d, ∃ s1, ctor_nullptr_deleter esft d true s = some (.returned s1) ∧
      hooks s1.trace = hooks s.trace + 1) ∧
    (∀ esft p d, ∃ s1, ctor_ptr_deleter esft p d false s = some (.threw s1) ∧
      s1.trace = s.trace ∧ s1.mem.handle s.mem.handles.length = none) ∧
    (∀ rhs p s1, ctor_alias rhs p s = some s1 → hooks s1.trace = hooks s.trace) ∧
    (∀ rhs s1, ctor_copy rhs s = some s1 → hooks s1.trace = hooks s.trace) ∧
    (∀ rhs s1, ctor_move rhs s = some s1 → hooks s1.trace = hooks s.trace) ∧
    (∀ this rhs s1, assign_copy this rhs s = some s1 → hooks s1.trace = hooks s.trace) ∧
    (∀ this rhs s1, assign_move this rhs s = some s1 → hooks s1.trace = hooks s.trace) ∧
    (∀ this rhs t r p, s.mem.handle this = some t → s.mem.handle rhs = some r →
      (ctor_alias rhs p s).isSome = true ∧ (ctor_copy rhs s).isSome = true ∧
      (ctor_move rhs s).isSome = true ∧ (assign_copy this rhs s).isSome = true ∧
      (assign_move this rhs s).isSome = true) := by
  have key : ∀ esft p d, ∃ s1, ctor_ptr_deleter esft p d true s = some (.returned s1) ∧
      hooks s1.trace = hooks s.trace + 1 ∧
      s1.trace = s.trace ++ Event.maybe_enable_sharing_from_this p ::
        (if esft = true ∧ p ≠ nullptr then [.puts, .puts] else []) ∧
      s1.mem.handle s.mem.handles.length = some ⟨p, some s.mem.heap.length⟩ := by
    intro esft p d
    refine ⟨_, ctor_ptr_deleter_ok_traced s esft p d, maybe_enable_sharing_from_this_hooks _ _ _,
      maybe_enable_sharing_from_this_trace _ _ _, ?_⟩
    rw [maybe_enable_sharing_from_this_mem]
    simp [scratch.State.handle_newHandle]
  refine ⟨key, ?_, ?_, ?_, fun _ _ _ h => ctor_alias_hooks h, fun _ _ h => ctor_copy_hooks h,
    fun _ _ h => ctor_move_hooks h, fun _ _ _ h => assign_copy_hooks h,
    fun _ _ _ h => assign_move_hooks h, ?_⟩
  · intro esft p
    obtain ⟨s1, e, hk, -⟩ := key esft p default_delete
    exact ⟨s1, e, hk⟩
  · intro esft d
    obtain ⟨s1, e, hk, -⟩ := key esft nullptr d
    exact ⟨s1, e, hk⟩
  · intro esft p d
    refine ⟨⟨((⟨d, p⟩ : DeletionLambda).call none (s.mem.newHandle {})).endLifetime
      s.mem.handles.length, s.trace⟩, by simp [ctor_ptr_deleter], rfl, ?_⟩
    simp [scratch.State.handle_endLifetime]
  · intro this rhs t r p ht hr
    refine ⟨?_, ?_, ?_, assign_copy_defined ht hr, assign_move_defined ht hr⟩
    · simp [ctor_alias_traced p hr]
    · simp [ctor_copy_traced hr]
    · simp [ctor_move_traced hr]

end my
